import Mathlib

/-!
# Committee election engine (`etrue/election.go`)

A shallow embedding of the election engine of the two-chain system: the
candidate extractor (`getCandinates`), the lottery (`elect`), the epoch
calculator (`getCommittee`), the committee cache, the query entry point
(`GetCommittee`), the signature verifier (`VerifySign`, `VerifySigns`), `Start`
and the two cases of the event loop (`snailHeadStep`, `fastHeadStep`).

Modelling conventions.

* `*big.Int` values are `Int`; `big.Int.Div` is Euclidean division, which is
  what `/` on `Int` computes.  `big.Int.Uint64` is the low 64 bits of the
  absolute value (`uint64`).
* Block heights stored in the chains (header numbers, fruit numbers) are `Nat`:
  they are decoded from unsigned encodings and are never negative.  Heights
  passed in by callers stay `Int`.
* A Go panic (division by zero, nil dereference, index out of range) is an
  `Except.error`; so is running out of the fuel that bounds the `for` loop of
  `elect`, which has no exit condition of its own when nobody gets selected.
* Committee records live in a pointer-addressed store (`Election.heap`), since
  the engine keeps the same `*committee` in the cache and in `e.committee`.
* The collaborators that are not part of this package (hashing, key recovery,
  the consensus engine's difficulty) are the fields of `Env`.
-/

namespace Etrue

/-! ## Constants -/

def fastChainHeadSize : Nat := 256
def snailchainHeadSize : Nat := 64
/-- Snail block period number. -/
def z : Int := 1440
def k : Int := 1000
def lamada : Int := 12
/-- Fruit size threshold for committee election. -/
def fruitThreshold : Nat := 1
def maxCommitteeNumber : Int := 40
def minCommitteeNumber : Nat := 1

/-- The function `big.Int.Exp(x, y, m)`: `x ^ y` when `m = 0`, else `x ^ y mod |m|`. -/
def bigExp (x : Int) (y : Nat) (m : Int) : Int :=
  if m = 0 then x ^ y else (x ^ y) % |m|

/-- The value `new(big.Int).Exp(big.NewInt(2), big.NewInt(256), big.NewInt(0))`. -/
def maxUint256 : Int := bigExp 2 256 0

/-- The function `big.Int.Uint64`: the low 64 bits of the absolute value. -/
def uint64 (x : Int) : Nat := x.natAbs % 2 ^ 64

/-- The function `big.Int.Bytes`: big-endian bytes of the absolute value. -/
def bigBytes (x : Int) : List Nat := (Nat.digits 256 x.natAbs).reverse

/-! ## Faults and errors -/

/-- Abnormal ends of an execution: the three Go panics the code can raise, and
the cut-off of the model of the unbounded loop of `elect`. -/
inductive Fault where
  | divideByZero
  | nilDereference
  | indexOutOfRange
  | fuelExhausted
  deriving DecidableEq, Repr

/-- The `error` values that flow through the verifier: the three package
variables and whatever the crypto package reports. -/
inductive Error where
  | ErrInvalidSign
  | ErrCommittee
  | ErrInvalidMember
  | crypto (msg : String)
  deriving DecidableEq, Repr

/-! ## Data model -/

abbrev Address := Nat

/-- A 32-byte hash, read as the number `Hash.Big()`. -/
structure Hash where
  big : Nat
  lt : big < 2 ^ 256

/-- The zero hash `common.Hash{}`. -/
def Hash.zero : Hash := ⟨0, by norm_num⟩

/-- The 32 bytes `Hash.Bytes()`, big-endian. -/
def Hash.Bytes (h : Hash) : List Nat :=
  let ds := (Nat.digits 256 h.big).reverse
  List.replicate (32 - ds.length) 0 ++ ds

structure PublicKey where
  X : Nat
  Y : Nat
  deriving DecidableEq, Repr

structure CommitteeMember where
  Coinbase : Address
  Publickey : PublicKey
  deriving DecidableEq, Repr

/-- A fruit of a snail block, with the accessors the engine reads. -/
structure Fruit where
  number : Nat
  fastNumber : Nat
  toElect : Bool
  /-- The result of `GetPubKey()`; `none` when it reports an error. -/
  pubKey : Option PublicKey
  coinbase : Address
  deriving DecidableEq, Repr

structure SnailBlock where
  number : Nat
  hash : Hash
  fruits : List Fruit

structure FastBlock where
  number : Nat
  hash : Hash

/-- The external collaborators: hashing, key handling, the consensus engine. -/
structure Env where
  Keccak256Hash : List Nat → Hash
  PubkeyToAddress : PublicKey → Address
  FromECDSAPub : PublicKey → List Nat
  SigToPub : List Nat → List Nat → Except String PublicKey
  /-- The pair `(actual, target)` of `engine.GetDifficulty(f.Header())`. -/
  GetDifficulty : Fruit → Int × Int

/-- The two chain stores as the engine reads them. -/
structure Chain where
  /-- The number `fastchain.CurrentHeader().Number`. -/
  fastHead : Nat
  /-- The number `snailchain.CurrentHeader().Number`. -/
  snailHead : Nat
  /-- The lookup `fastchain.GetBlockByNumber`. -/
  fastBlock : Nat → Option FastBlock
  /-- The lookup `snailchain.GetBlockByNumber`. -/
  snailBlock : Nat → Option SnailBlock
  /-- The lookup `snailchain.GetFruitByFastHash`. -/
  fruitByFastHash : Hash → Option Fruit
  /-- The list `snailchain.GetGenesisCommittee()`. -/
  genesisCommittee : List CommitteeMember

/-- A candidate of one election.  `lower` and `upper` are unset (here `0`)
until `getCandinates` assigns them. -/
structure candidateMember where
  coinbase : Address
  address : Address
  publickey : PublicKey
  difficulty : Int
  upper : Int
  lower : Int
  deriving DecidableEq, Repr

/-! ## Candidate extractor: `getCandinates` -/

/-- The update `fruitsCount[addr] += 1` (or `= 1`) on a `map[common.Address]uint`. -/
def bumpCount (fruitsCount : Address → Option Nat) (addr : Address) : Address → Option Nat :=
  fun a =>
    if a = addr then
      match fruitsCount addr with
      | some c => some ((c + 1) % 2 ^ 64)
      | none => some 1
    else fruitsCount a

/-- The inner loop of the scan: the fruits of one block. -/
def scanFruits (env : Env) :
    List Fruit → List candidateMember → (Address → Option Nat) →
      List candidateMember × (Address → Option Nat)
  | [], members, fruitsCount => (members, fruitsCount)
  | f :: fs, members, fruitsCount =>
    if f.toElect then
      match f.pubKey with
      | none => scanFruits env fs members fruitsCount
      | some pubkey =>
        let addr := env.PubkeyToAddress pubkey
        let member : candidateMember :=
          { coinbase := f.coinbase
            publickey := pubkey
            address := addr
            difficulty := (env.GetDifficulty f).1 - (env.GetDifficulty f).2
            upper := 0
            lower := 0 }
        scanFruits env fs (members ++ [member]) (bumpCount fruitsCount addr)
    else scanFruits env fs members fruitsCount

/-- The outer loop of the scan, over `n` block numbers from `blockNumber` on;
`none` when a block is missing. -/
def scanBlocks (env : Env) (chain : Chain) :
    Nat → Int → List Nat → List candidateMember → (Address → Option Nat) →
      Option (List Nat × List candidateMember × (Address → Option Nat))
  | 0, _, seed, members, fruitsCount => some (seed, members, fruitsCount)
  | n + 1, blockNumber, seed, members, fruitsCount =>
    match chain.snailBlock (uint64 blockNumber) with
    | none => none
    | some block =>
      let r := scanFruits env block.fruits members fruitsCount
      scanBlocks env chain n (blockNumber + 1) (seed ++ block.hash.Bytes) r.1 r.2

/-- The loop that retains the members whose address reached the threshold and
adds up their difficulty. -/
def retainLoop (fruitsCount : Address → Option Nat) :
    List candidateMember → Int → List candidateMember → Int × List candidateMember
  | [], td, candidates => (td, candidates)
  | member :: rest, td, candidates =>
    match fruitsCount member.address with
    | some cnt =>
      if cnt ≥ fruitThreshold then
        retainLoop fruitsCount rest (td + member.difficulty) (candidates ++ [member])
      else retainLoop fruitsCount rest td candidates
    | none => retainLoop fruitsCount rest td candidates

/-- The loop that assigns `lower` and `upper`; `n` is `len(candidates)`, `i` the
index of the head of the remaining list, `dd` the running difficulty. -/
def assignLoop (rate : Int) (n : Nat) : Nat → Int → List candidateMember → List candidateMember
  | _, _, [] => []
  | i, dd, member :: rest =>
    let lower := rate * dd
    let dd1 := dd + member.difficulty
    let upper := if (i : Int) = (n : Int) - 1 then maxUint256 else rate * dd1
    { member with lower := lower, upper := upper } :: assignLoop rate n (i + 1) dd1 rest

/-- The tail of `getCandinates`: `rate := maxUint256 / td` and the interval loop. -/
def assignIntervals (candidates : List candidateMember) (td : Int) :
    Except Fault (List candidateMember) :=
  if td = 0 then .error .divideByZero
  else .ok (assignLoop (maxUint256 / td) candidates.length 0 0 candidates)

/-- The function `getCandinates`: seed and candidates of a snail block range.
A nil candidate slice is the empty list. -/
def getCandinates (env : Env) (chain : Chain) (snailBeginNumber snailEndNumber : Int) :
    Except Fault (Hash × List candidateMember) :=
  match scanBlocks env chain (snailEndNumber - snailBeginNumber + 1).toNat snailBeginNumber
      [] [] (fun _ => none) with
  | none => .ok (Hash.zero, [])
  | some (seed, members, fruitsCount) =>
    let r := retainLoop fruitsCount members 0 []
    match assignIntervals r.2 r.1 with
    | .error f => .error f
    | .ok candidates => .ok (env.Keccak256Hash seed, candidates)

/-- The sum of the difficulties of a candidate list (the value `td` reaches). -/
def totalDifficulty (candidates : List candidateMember) : Int :=
  (candidates.map (fun c => c.difficulty)).sum

/-- The candidates form a chain of intervals from `a` to `b`: each `lower` is
the previous `upper` (the first one is `a`), `lower ≤ upper`, the last `upper`
is `b`. -/
def IntervalChain : Int → Int → List candidateMember → Prop
  | a, b, [] => a = b
  | a, b, c :: rest => c.lower = a ∧ c.lower ≤ c.upper ∧ IntervalChain c.upper b rest

/-- The test "the interval `[lower, upper)` of the candidate contains `x`". -/
def candidateMember.holds (x : Int) (c : candidateMember) : Bool :=
  decide (c.lower ≤ x ∧ x < c.upper)

/-- The fields of a candidate that the interval assignment leaves alone. -/
def candidateMember.ident (c : candidateMember) : Address × Address × PublicKey × Int :=
  (c.coinbase, c.address, c.publickey, c.difficulty)

/-! ## Lottery: `elect` -/

/-- The member built from a selected candidate. -/
def candidateMember.toMember (cm : candidateMember) : CommitteeMember :=
  { Coinbase := cm.coinbase, Publickey := cm.publickey }

/-- The reduced draw of a round: `Keccak256(seed + round) / maxUint256`. -/
def drawProp (env : Env) (seed : Hash) (round : Int) : Int :=
  let seedNumber := (seed.big : Int) + round
  let hash := env.Keccak256Hash (bigBytes seedNumber)
  (hash.big : Int) / maxUint256

/-- The inner loop of a round, over the candidates in order. -/
def electPick (prop : Int) :
    List candidateMember → (Address → Option Nat) → List CommitteeMember →
      (Address → Option Nat) × List CommitteeMember
  | [], addrs, members => (addrs, members)
  | cm :: rest, addrs, members =>
    if prop < cm.lower then electPick prop rest addrs members
    else if prop ≥ cm.upper then electPick prop rest addrs members
    else if (addrs cm.address).isSome then (addrs, members)
    else (fun a => if a = cm.address then some 1 else addrs a, members ++ [cm.toMember])

/-- The state of the loop of `elect`. -/
structure ElectState where
  round : Int
  addrs : Address → Option Nat
  members : List CommitteeMember

/-- One round of the loop of `elect`: the draw, the pick, and `round + 1`. -/
def electRound (env : Env) (candidates : List candidateMember) (seed : Hash)
    (st : ElectState) : ElectState :=
  let prop := drawProp env seed st.round
  let r := electPick prop candidates st.addrs st.members
  { round := st.round + 1, addrs := r.1, members := r.2 }

/-- The loop of `elect`, run for at most `fuel` rounds. -/
def electLoop (env : Env) (candidates : List candidateMember) (seed : Hash) :
    Nat → ElectState → Except Fault ElectState
  | 0, _ => .error .fuelExhausted
  | fuel + 1, st =>
    let st1 := electRound env candidates seed st
    if st1.round ≥ maxCommitteeNumber ∧ st1.members.length ≥ minCommitteeNumber then .ok st1
    else electLoop env candidates seed fuel st1

/-- The initial state of the loop of `elect`. -/
def electInit : ElectState := { round := 0, addrs := fun _ => none, members := [] }

/-- The run of `elect` from its initial state, keeping the final loop state. -/
def electRun (env : Env) (fuel : Nat) (candidates : List candidateMember) (seed : Hash) :
    Except Fault ElectState :=
  electLoop env candidates seed fuel electInit

/-- The function `elect`: the members selected from the candidates. -/
def elect (env : Env) (fuel : Nat) (candidates : List candidateMember) (seed : Hash) :
    Except Fault (List CommitteeMember) :=
  match electRun env fuel candidates seed with
  | .error f => .error f
  | .ok st => .ok st.members

/-- The function `electCommittee`; a nil member slice is the empty list. -/
def electCommittee (env : Env) (chain : Chain) (fuel : Nat)
    (snailBeginNumber snailEndNumber : Int) : Except Fault (List CommitteeMember) :=
  match getCandinates env chain snailBeginNumber snailEndNumber with
  | .error f => .error f
  | .ok (seed, candidates) =>
    if candidates = [] then .ok []
    else elect env fuel candidates seed

/-! ## Committee records and the engine state -/

/-- A committee record.  `endFastNumber` is `none` when the record was built
without that field (a nil `*big.Int`). -/
structure committee where
  id : Int
  beginFastNumber : Int
  endFastNumber : Option Int
  firstElectionNumber : Int
  lastElectionNumber : Int
  switchCheckNumber : Int
  members : List CommitteeMember
  deriving DecidableEq, Repr

instance : Inhabited committee :=
  ⟨{ id := 0, beginFastNumber := 0, endFastNumber := none, firstElectionNumber := 0,
     lastElectionNumber := 0, switchCheckNumber := 0, members := [] }⟩

/-- The method `committee.Members`: a copy of the member list (never nil). -/
def committee.Members (c : committee) : List CommitteeMember := c.members

/-- The engine state.  `heap` holds the committee records, `nextPtr` is the
first unused pointer; `committeeList`, `committee` and `nextCommittee` hold
pointers into `heap`. -/
structure Election where
  genesisCommittee : List CommitteeMember
  heap : Nat → committee
  nextPtr : Nat
  committeeList : Nat → Option Nat
  committee : Option Nat
  nextCommittee : Option Nat
  startSwitchover : Bool

/-- The record `e.committee` points to. -/
def Election.current (e : Election) : Option Etrue.committee := e.committee.map e.heap

/-- The record `e.nextCommittee` points to. -/
def Election.next (e : Election) : Option Etrue.committee := e.nextCommittee.map e.heap

/-- The record cached under a key of `committeeList`. -/
def Election.cached (e : Election) (key : Nat) : Option Etrue.committee :=
  (e.committeeList key).map e.heap

/-- The expression `&committee{...}`: store a new record, return its pointer. -/
def Election.alloc (e : Election) (c : Etrue.committee) : Nat × Election :=
  (e.nextPtr,
   { e with heap := fun p => if p = e.nextPtr then c else e.heap p, nextPtr := e.nextPtr + 1 })

/-- The constructor `NewElction`: empty cache, no current or next committee. -/
def NewElction (chain : Chain) : Election :=
  { genesisCommittee := chain.genesisCommittee
    heap := fun _ => default
    nextPtr := 0
    committeeList := fun _ => none
    committee := none
    nextCommittee := none
    startSwitchover := false }

/-- The function `GetMemberByPubkey`. -/
def GetMemberByPubkey (env : Env) (members : List CommitteeMember) (publickey : List Nat) :
    Option CommitteeMember :=
  if members.length = 0 then none
  else members.find? (fun member => decide (publickey = env.FromECDSAPub member.Publickey))

/-- The function `IsCommitteeMember`. -/
def IsCommitteeMember (env : Env) (members : List CommitteeMember) (publickey : List Nat) :
    Bool :=
  if members.length = 0 then false
  else members.any (fun member => decide (publickey = env.FromECDSAPub member.Publickey))

/-- The function `appendCommittee`, on the pointer of the record. -/
def appendCommittee (e : Election) (c : Nat) : Election :=
  match e.committeeList (uint64 (e.heap c).id) with
  | some _ => e
  | none =>
    { e with
      committeeList := fun i => if i = uint64 (e.heap c).id then some c else e.committeeList i }

/-- The probe loop of `getCommitteeFromCache` over the ids. -/
def probeCache (e : Election) (fastNumber : Int) : List Int → Except Fault (Option Nat)
  | [] => .ok none
  | id :: rest =>
    match e.committeeList (uint64 id) with
    | some p =>
      if (e.heap p).beginFastNumber > fastNumber then probeCache e fastNumber rest
      else
        match (e.heap p).endFastNumber with
        | none => .error .nilDereference
        | some endFastNumber =>
          if endFastNumber > 0 ∧ endFastNumber < fastNumber then probeCache e fastNumber rest
          else .ok (some p)
    | none => probeCache e fastNumber rest

/-- The function `getCommitteeFromCache`; the result is a pointer. -/
def getCommitteeFromCache (e : Election) (fastNumber snailNumber : Int) :
    Except Fault (Option Nat) :=
  let committeeNumber := snailNumber / z
  let preCommitteeNumber := committeeNumber - 1
  let ids := (if preCommitteeNumber ≥ 0 then [preCommitteeNumber] else []) ++ [committeeNumber]
  probeCache e fastNumber ids

/-- The function `getCommittee`: the committee that proposes the fast block,
recomputed from the snail chain.  `.ok none` is the nil result. -/
def getCommittee (env : Env) (chain : Chain) (e : Election) (fuel : Nat)
    (fastNumber snailNumber : Int) : Except Fault (Option committee) :=
  let committeeNumber := snailNumber / z
  let lastSnailNumber := committeeNumber * z
  let switchCheckNumber := lastSnailNumber - lamada
  if committeeNumber = 0 then
    .ok (some
      { id := 0
        beginFastNumber := 1
        endFastNumber := some 0
        firstElectionNumber := 0
        lastElectionNumber := 0
        switchCheckNumber := z
        members := e.genesisCommittee })
  else
    match chain.snailBlock (uint64 switchCheckNumber) with
    | none => .ok none
    | some switchCheckBlock =>
      match switchCheckBlock.fruits.getLast? with
      | none => .error .indexOutOfRange
      | some lastFruit =>
        let lastFastNumber := (lastFruit.number : Int) + k
        if lastFastNumber ≥ fastNumber then
          if committeeNumber = 1 then
            .ok (some
              { id := 0
                beginFastNumber := 1
                endFastNumber := some lastFastNumber
                firstElectionNumber := 0
                lastElectionNumber := 0
                switchCheckNumber := z
                members := e.genesisCommittee })
          else
            let endSnailNumber := switchCheckNumber - z
            let beginSnailNumber :=
              if endSnailNumber - z + 1 ≤ 0 then 1 else endSnailNumber - z + 1
            match chain.snailBlock (uint64 endSnailNumber) with
            | none => .error .nilDereference
            | some endSnailBlock =>
              match endSnailBlock.fruits.getLast? with
              | none => .error .indexOutOfRange
              | some preFruit =>
                let preEndFast := (preFruit.fastNumber : Int) + k
                match electCommittee env chain fuel beginSnailNumber endSnailNumber with
                | .error f => .error f
                | .ok members =>
                  .ok (some
                    { id := committeeNumber - 1
                      beginFastNumber := preEndFast + 1
                      endFastNumber := some lastFastNumber
                      firstElectionNumber := beginSnailNumber
                      lastElectionNumber := endSnailNumber
                      switchCheckNumber := lastSnailNumber
                      members := members })
        else
          let endSnailNumber := switchCheckNumber
          let beginSnailNumber := endSnailNumber - z + 1
          match electCommittee env chain fuel beginSnailNumber endSnailNumber with
          | .error f => .error f
          | .ok members =>
            .ok (some
              { id := committeeNumber
                beginFastNumber := lastFastNumber + 1
                endFastNumber := some 0
                firstElectionNumber := beginSnailNumber
                lastElectionNumber := endSnailNumber
                switchCheckNumber := lastSnailNumber + z
                members := members })

/-- The part of `GetCommittee` from the fast block lookup on. -/
def GetCommitteeLookup (env : Env) (chain : Chain) (fuel : Nat) (e : Election)
    (fastNumber : Int) : Except Fault (Option (List CommitteeMember) × Election) :=
  match chain.fastBlock (uint64 fastNumber) with
  | none => .ok (none, e)
  | some fastBlock =>
    let snailNumber : Int :=
      match chain.fruitByFastHash fastBlock.hash with
      | none => (chain.snailHead : Int)
      | some snailBlock => (snailBlock.number : Int)
    match getCommitteeFromCache e fastNumber snailNumber with
    | .error f => .error f
    | .ok (some p) => .ok (some (e.heap p).Members, e)
    | .ok none =>
      match getCommittee env chain e fuel fastNumber snailNumber with
      | .error f => .error f
      | .ok none => .ok (none, e)
      | .ok (some c) =>
        let r := e.alloc c
        .ok (some c.Members, appendCommittee r.2 r.1)

/-- The part of `GetCommittee` from the test of the current committee on. -/
def GetCommitteeCurrent (env : Env) (chain : Chain) (fuel : Nat) (e : Election)
    (fastNumber : Int) : Except Fault (Option (List CommitteeMember) × Election) :=
  match e.current with
  | some currentCommittee =>
    if fastNumber ≥ currentCommittee.beginFastNumber then .ok (some currentCommittee.Members, e)
    else GetCommitteeLookup env chain fuel e fastNumber
  | none => GetCommitteeLookup env chain fuel e fastNumber

/-- The function `GetCommittee`: the members that propose the fast block, and
the engine state afterwards (the cache may have grown).  `none` is nil. -/
def GetCommittee (env : Env) (chain : Chain) (fuel : Nat) (e : Election) (fastNumber : Int) :
    Except Fault (Option (List CommitteeMember) × Election) :=
  let fastHeadNumber : Int := chain.fastHead
  let newestFast := fastHeadNumber + k
  if fastNumber > newestFast then .ok (none, e)
  else
    match e.next with
    | some nextCommittee =>
      if nextCommittee.beginFastNumber + k < fastNumber then .ok (none, e)
      else if fastNumber ≥ nextCommittee.beginFastNumber then .ok (some nextCommittee.Members, e)
      else GetCommitteeCurrent env chain fuel e fastNumber
    | none => GetCommitteeCurrent env chain fuel e fastNumber

/-! ## Signature verifier -/

/-- A BFT signature, with the hash `HashWithNoSign()` of its payload. -/
structure PbftSign where
  FastHeight : Int
  Sign : List Nat
  hashWithNoSign : Hash

/-- The function `VerifyPublicKey`: member, error, and the state afterwards. -/
def VerifyPublicKey (env : Env) (chain : Chain) (fuel : Nat) (e : Election)
    (fastHeight : Int) (pubKeyByte : List Nat) :
    Except Fault ((Option CommitteeMember × Option Error) × Election) :=
  match GetCommittee env chain fuel e fastHeight with
  | .error f => .error f
  | .ok (none, e1) => .ok ((none, some Error.ErrCommittee), e1)
  | .ok (some members, e1) => .ok ((GetMemberByPubkey env members pubKeyByte, none), e1)

/-- The function `VerifySign`. -/
def VerifySign (env : Env) (chain : Chain) (fuel : Nat) (e : Election) (sign : PbftSign) :
    Except Fault ((Option CommitteeMember × Option Error) × Election) :=
  match env.SigToPub sign.hashWithNoSign.Bytes sign.Sign with
  | .error err => .ok ((none, some (Error.crypto err)), e)
  | .ok pubkey => VerifyPublicKey env chain fuel e sign.FastHeight (env.FromECDSAPub pubkey)

/-- The body of the loop of `VerifySigns` for one element: what is stored at
its index of `members` and of `errs`, from what `VerifySign` returned. -/
def signOutcome (r : Option CommitteeMember × Option Error) :
    Option CommitteeMember × Option Error :=
  match r.2 with
  | some err => (none, some err)
  | none =>
    match r.1 with
    | none => (none, some Error.ErrInvalidMember)
    | some member => (some member, none)

/-- The function `VerifySigns`: the member list, the error list, and the state
afterwards.  An entry `none` is a nil entry of the Go slice. -/
def VerifySigns (env : Env) (chain : Chain) (fuel : Nat) :
    Election → List PbftSign →
      Except Fault ((List (Option CommitteeMember) × List (Option Error)) × Election)
  | e, [] => .ok (([], []), e)
  | e, sign :: rest =>
    match VerifySign env chain fuel e sign with
    | .error f => .error f
    | .ok (r, e1) =>
      match VerifySigns env chain fuel e1 rest with
      | .error f => .error f
      | .ok (lists, e2) =>
        .ok (((signOutcome r).1 :: lists.1, (signOutcome r).2 :: lists.2), e2)

/-! ## Start -/

inductive EventOption where
  | CommitteeSwitchover
  | CommitteeStart
  | CommitteeStop
  deriving DecidableEq, Repr

structure ElectionEvent where
  CommitteeID : Int
  CommitteeMembers : List CommitteeMember
  BeginFastNumber : Option Int
  Option : EventOption
  deriving DecidableEq, Repr

/-- The events `Start` sends, read from the state it leaves. -/
def startEvents (e : Election) : List ElectionEvent :=
  match e.current with
  | none => []
  | some c =>
    [ { Option := .CommitteeSwitchover, CommitteeID := c.id, CommitteeMembers := c.Members,
        BeginFastNumber := none },
      { Option := .CommitteeStart, CommitteeID := c.id, CommitteeMembers := c.Members,
        BeginFastNumber := some c.beginFastNumber } ] ++
    (if e.startSwitchover then
      match e.next with
      | none => []
      | some n =>
        [ { Option := .CommitteeSwitchover, CommitteeID := n.id, CommitteeMembers := n.Members,
            BeginFastNumber := none } ]
    else [])

/-- What `Start` leaves behind: the state, the events sent, and whether the
event loop was started. -/
structure StartResult where
  state : Election
  events : List ElectionEvent
  loopStarted : Bool

/-- The function `Start`. -/
def Start (env : Env) (chain : Chain) (fuel : Nat) (e : Election) : Except Fault StartResult :=
  let fastHeadNumber : Int := chain.fastHead
  let snailHeadNumber : Int := chain.snailHead
  match getCommittee env chain e fuel fastHeadNumber snailHeadNumber with
  | .error f => .error f
  | .ok none => .ok { state := e, events := [], loopStarted := false }
  | .ok (some currentCommittee) =>
    let r := e.alloc currentCommittee
    let e1 := { appendCommittee r.2 r.1 with committee := some r.1 }
    match currentCommittee.endFastNumber with
    | none => .error .nilDereference
    | some endFastNumber =>
      if endFastNumber > 0 then
        let electEndSnailNumber := currentCommittee.lastElectionNumber + z
        let electBeginSnailNumber := electEndSnailNumber - z + 1
        match electCommittee env chain fuel electBeginSnailNumber electEndSnailNumber with
        | .error f => .error f
        | .ok members =>
          let nextCommittee : committee :=
            { id := electBeginSnailNumber
              beginFastNumber := endFastNumber + 1
              endFastNumber := some 0
              firstElectionNumber := electBeginSnailNumber
              lastElectionNumber := electEndSnailNumber
              switchCheckNumber := currentCommittee.switchCheckNumber + z
              members := members }
          let r2 := e1.alloc nextCommittee
          let e2 := { appendCommittee r2.2 r2.1 with
                      nextCommittee := some r2.1, startSwitchover := true }
          let e3 : Election :=
            if endFastNumber = fastHeadNumber then
              { e2 with committee := e2.nextCommittee, nextCommittee := none,
                        startSwitchover := false }
            else e2
          .ok { state := e3, events := startEvents e3, loopStarted := true }
      else .ok { state := e1, events := startEvents e1, loopStarted := true }

/-! ## The event loop -/

/-- What one pass of the event loop leaves: the state and the events sent. -/
structure StepResult where
  state : Election
  events : List ElectionEvent

/-- The snail-head case of `loop` for the event block `block` (`none` is a nil
block).  The record `e.committee` points to is updated in the store, so a cache
entry holding the same pointer sees the new `endFastNumber`. -/
def snailHeadStep (env : Env) (chain : Chain) (fuel : Nat) (e : Election)
    (block : Option SnailBlock) : Except Fault StepResult :=
  match block with
  | none => .ok { state := e, events := [] }
  | some seBlock =>
    match e.committee with
    | none => .error .nilDereference
    | some pc =>
      if (e.heap pc).switchCheckNumber = (seBlock.number : Int) then
        let snailEndNumber := (seBlock.number : Int) - lamada
        let snailStartNumber := if snailEndNumber < z then 1 else snailEndNumber - z
        match electCommittee env chain fuel snailStartNumber snailEndNumber with
        | .error f => .error f
        | .ok members =>
          match chain.snailBlock (uint64 snailEndNumber) with
          | none => .error .nilDereference
          | some sb =>
            match sb.fruits.getLast? with
            | none => .error .indexOutOfRange
            | some lastFruit =>
              let endFastNumber := (lastFruit.number : Int) + k
              let e1 : Election :=
                { e with
                  heap := fun p =>
                    if p = pc then { e.heap pc with endFastNumber := some endFastNumber }
                    else e.heap p }
              let nextCommittee : committee :=
                { id := snailStartNumber
                  firstElectionNumber := snailStartNumber
                  lastElectionNumber := snailEndNumber
                  beginFastNumber := endFastNumber + 1
                  endFastNumber := none
                  switchCheckNumber := (e1.heap pc).switchCheckNumber + z
                  members := members }
              let r := e1.alloc nextCommittee
              let e2 := { appendCommittee r.2 r.1 with
                          nextCommittee := some r.1, startSwitchover := true }
              .ok { state := e2
                    events :=
                      [ { Option := .CommitteeSwitchover, CommitteeID := nextCommittee.id,
                          CommitteeMembers := nextCommittee.Members, BeginFastNumber := none } ] }
      else .ok { state := e, events := [] }

/-- The fast-head case of `loop` for the event block `block` (`none` is a nil
block).  The body the source hands to a goroutine (stop event, promotion of the
next committee, start event) is run as part of the step. -/
def fastHeadStep (e : Election) (block : Option FastBlock) : Except Fault StepResult :=
  match block with
  | none => .ok { state := e, events := [] }
  | some evBlock =>
    if e.startSwitchover then
      match e.committee with
      | none => .error .nilDereference
      | some pc =>
        match (e.heap pc).endFastNumber with
        | none => .error .nilDereference
        | some endFastNumber =>
          if endFastNumber = (evBlock.number : Int) then
            match e.nextCommittee with
            | none => .error .nilDereference
            | some pn =>
              let e1 : Election :=
                { e with committee := some pn, nextCommittee := none, startSwitchover := false }
              .ok { state := e1
                    events :=
                      [ { Option := .CommitteeStop, CommitteeID := (e.heap pc).id,
                          CommitteeMembers := (e.heap pc).Members, BeginFastNumber := none },
                        { Option := .CommitteeStart, CommitteeID := (e1.heap pn).id,
                          CommitteeMembers := (e1.heap pn).Members,
                          BeginFastNumber := some (e1.heap pn).beginFastNumber } ] }
          else .ok { state := e, events := [] }
    else .ok { state := e, events := [] }

/-! ## Sample data: the genesis steady state -/

def sampleKey1 : PublicKey := { X := 11, Y := 12 }
def sampleKey2 : PublicKey := { X := 21, Y := 22 }
def sampleKey3 : PublicKey := { X := 31, Y := 32 }

def sampleMember1 : CommitteeMember := { Coinbase := 101, Publickey := sampleKey1 }
def sampleMember2 : CommitteeMember := { Coinbase := 102, Publickey := sampleKey2 }

/-- A stand-in environment: constant hash, keys addressed by their `X`. -/
def sampleEnv : Env :=
  { Keccak256Hash := fun _ => Hash.zero
    PubkeyToAddress := fun pk => pk.X
    FromECDSAPub := fun pk => [4, pk.X, pk.Y]
    SigToPub := fun _ sig =>
      match sig with
      | [x, y] => .ok { X := x, Y := y }
      | _ => .error "invalid signature length"
    GetDifficulty := fun f => ((f.fastNumber : Int) + 2, 1) }

def sampleFruit (n : Nat) : Fruit :=
  { number := n, fastNumber := n, toElect := true, pubKey := some sampleKey3, coinbase := 103 }

/-- Snail head 500, fast head 10, every block up to the heads present. -/
def sampleChain : Chain :=
  { fastHead := 10
    snailHead := 500
    fastBlock := fun n => if n ≤ 10 then some { number := n, hash := Hash.zero } else none
    snailBlock := fun n =>
      if n ≤ 500 then some { number := n, hash := Hash.zero, fruits := [sampleFruit n] } else none
    fruitByFastHash := fun _ => none
    genesisCommittee := [sampleMember1, sampleMember2] }

/-- Three candidates before the intervals are assigned, all of one address. -/
def sampleMembers : List candidateMember :=
  [ { coinbase := 103, address := 31, publickey := sampleKey3, difficulty := 2,
      upper := 0, lower := 0 },
    { coinbase := 104, address := 31, publickey := sampleKey3, difficulty := 3,
      upper := 0, lower := 0 },
    { coinbase := 105, address := 31, publickey := sampleKey3, difficulty := 4,
      upper := 0, lower := 0 } ]

/-- Two candidates of one address whose intervals both contain small draws. -/
def sampleCandidates : List candidateMember :=
  [ { coinbase := 103, address := 31, publickey := sampleKey3, difficulty := 2,
      upper := 5, lower := 0 },
    { coinbase := 104, address := 31, publickey := sampleKey3, difficulty := 3,
      upper := 9, lower := 0 } ]

/-- The engine state `Start` leaves on the sample chain. -/
def sampleStarted : Election :=
  match Start sampleEnv sampleChain 40 (NewElction sampleChain) with
  | .ok r => r.state
  | .error _ => NewElction sampleChain

/-- A signature by `sampleKey3`, which is no genesis member, for fast height 10. -/
def sampleSign : PbftSign := { FastHeight := 10, Sign := [31, 32], hashWithNoSign := Hash.zero }

def sampleFruit2 (n : Nat) : Fruit :=
  { number := n, fastNumber := 2 * n, toElect := true, pubKey := some sampleKey3, coinbase := 103 }

def sampleChain2 : Chain :=
  { fastHead := 3000
    snailHead := 1500
    fastBlock := fun n => if n ≤ 3000 then some { number := n, hash := Hash.zero } else none
    snailBlock := fun n =>
      if n ≤ 1500 then some { number := n, hash := Hash.zero, fruits := [sampleFruit2 n] }
      else none
    fruitByFastHash := fun _ => none
    genesisCommittee := [sampleMember1, sampleMember2] }

/-! ## Proof-side predicates -/

/-- The invariant of the loop of `elect`: the members come, in order, from
picked candidates of pairwise distinct addresses, all of them marked in `addrs`. -/
def ElectInv (cands : List candidateMember) (addrs : Address → Option Nat)
    (members : List CommitteeMember) : Prop :=
  ∃ picked : List candidateMember,
    (∀ c ∈ picked, c ∈ cands) ∧ (picked.map (fun c => c.address)).Nodup ∧
    members = picked.map candidateMember.toMember ∧
    ∀ c ∈ picked, (addrs c.address).isSome = true

/-! ## Sample data: later epochs, a switchover in progress -/

/-- Snail head 2900, fast head 5000; every snail block up to the head is
present, and the blocks at heights 1428 and 2868 hold one fruit (whose snail
number and fast number differ). -/
def sampleChain3 : Chain :=
  { fastHead := 5000
    snailHead := 2900
    fastBlock := fun n => if n ≤ 5000 then some { number := n, hash := Hash.zero } else none
    snailBlock := fun n =>
      if n ≤ 2900 then
        some { number := n, hash := Hash.zero,
               fruits := if n % 1440 = 1428 then [sampleFruit2 n] else [] }
      else none
    fruitByFastHash := fun _ => none
    genesisCommittee := [sampleMember1, sampleMember2] }

/-- The chain `sampleChain3` without its snail block 7. -/
def sampleChainGap : Chain :=
  { sampleChain3 with
    snailBlock := fun n => if n = 7 then none else sampleChain3.snailBlock n }

/-- The snail block at height 1440, the first trigger block. -/
def sampleTrigger : SnailBlock := { number := 1440, hash := Hash.zero, fruits := [] }

/-- A state in the middle of a switchover: current (id 0) closed at fast
height 15000, next (id 1) waiting. -/
def sampleSwitching : Election :=
  { genesisCommittee := [sampleMember1, sampleMember2]
    heap := fun p =>
      if p = 0 then
        { id := 0, beginFastNumber := 1, endFastNumber := some 15000, firstElectionNumber := 0,
          lastElectionNumber := 0, switchCheckNumber := 1440,
          members := [sampleMember1, sampleMember2] }
      else
        { id := 1, beginFastNumber := 15001, endFastNumber := none, firstElectionNumber := 1,
          lastElectionNumber := 1428, switchCheckNumber := 2880, members := [sampleMember1] }
    nextPtr := 2
    committeeList := fun key => if key = 0 then some 0 else if key = 1 then some 1 else none
    committee := some 0
    nextCommittee := some 1
    startSwitchover := true }

/-- A cache with two records: id 0 closed at 2428, id 1 open from 2429. -/
def sampleCached : Election :=
  { genesisCommittee := [sampleMember1, sampleMember2]
    heap := fun p =>
      if p = 0 then
        { id := 0, beginFastNumber := 1, endFastNumber := some 2428, firstElectionNumber := 0,
          lastElectionNumber := 0, switchCheckNumber := 1440,
          members := [sampleMember1, sampleMember2] }
      else
        { id := 1, beginFastNumber := 2429, endFastNumber := some 0, firstElectionNumber := -11,
          lastElectionNumber := 1428, switchCheckNumber := 2880, members := [sampleMember1] }
    nextPtr := 2
    committeeList := fun key => if key = 0 then some 0 else if key = 1 then some 1 else none
    committee := some 1
    nextCommittee := none
    startSwitchover := false }

/-- A signature whose key cannot be recovered (wrong length). -/
def sampleBadSign : PbftSign := { FastHeight := 10, Sign := [1, 2, 3], hashWithNoSign := Hash.zero }

/-- A signature by `sampleKey1`, a genesis member, for fast height 10. -/
def sampleGoodSign : PbftSign := { FastHeight := 10, Sign := [11, 12], hashWithNoSign := Hash.zero }

/-- The snail block `n` of the sparse sample chains: one fruit at the heights
`1428 + 1440 * i`, no fruit elsewhere. -/
def sparseBlock (n : Nat) : SnailBlock :=
  { number := n, hash := Hash.zero, fruits := if n % 1440 = 1428 then [sampleFruit2 n] else [] }

/-- The sparse sample chain at snail head `snailHead` and fast head `fastHead`:
every snail block up to the head is present. -/
def sampleChainAt (snailHead fastHead : Nat) : Chain :=
  { fastHead := fastHead
    snailHead := snailHead
    fastBlock := fun n => if n ≤ fastHead then some { number := n, hash := Hash.zero } else none
    snailBlock := fun n => if n ≤ snailHead then some (sparseBlock n) else none
    fruitByFastHash := fun _ => none
    genesisCommittee := [sampleMember1, sampleMember2] }

/-- A running engine in epoch 1, as the event loop leaves it after the switch to
the first elected committee: the genesis record closed at fast height 2428, the
id-1 record current (switch check at snail 2880), nothing being switched. -/
def sampleRunning : Election :=
  { genesisCommittee := [sampleMember1, sampleMember2]
    heap := fun p =>
      if p = 0 then
        { id := 0, beginFastNumber := 1, endFastNumber := some 2428, firstElectionNumber := 0,
          lastElectionNumber := 0, switchCheckNumber := 1440,
          members := [sampleMember1, sampleMember2] }
      else
        { id := 1, beginFastNumber := 2429, endFastNumber := none, firstElectionNumber := 1,
          lastElectionNumber := 1428, switchCheckNumber := 2880,
          members := [{ Coinbase := 103, Publickey := sampleKey3 }] }
    nextPtr := 2
    committeeList := fun key => if key = 0 then some 0 else if key = 1 then some 1 else none
    committee := some 1
    nextCommittee := none
    startSwitchover := false }

/-- Snail head 1500, fast head 2000; every snail block up to the head is
present and none holds a fruit. -/
def sampleChainBare : Chain :=
  { fastHead := 2000
    snailHead := 1500
    fastBlock := fun n => if n ≤ 2000 then some { number := n, hash := Hash.zero } else none
    snailBlock := fun n =>
      if n ≤ 1500 then some { number := n, hash := Hash.zero, fruits := [] } else none
    fruitByFastHash := fun _ => none
    genesisCommittee := [sampleMember1, sampleMember2] }

/-- The chain `sampleChain3` without its snail block 1428. -/
def sampleChainHole : Chain :=
  { sampleChain3 with
    snailBlock := fun n => if n = 1428 then none else sampleChain3.snailBlock n }

/-- A fruit that does not ask to be elected. -/
def sampleFruitIdle : Fruit :=
  { number := 1428, fastNumber := 2856, toElect := false, pubKey := some sampleKey3,
    coinbase := 103 }

/-- Snail head 1440, fast head 2000; every snail block up to the head is
present, and the only fruit, in block 1428, does not ask to be elected. -/
def sampleChainIdle : Chain :=
  { fastHead := 2000
    snailHead := 1440
    fastBlock := fun n => if n ≤ 2000 then some { number := n, hash := Hash.zero } else none
    snailBlock := fun n =>
      if n ≤ 1440 then
        some { number := n, hash := Hash.zero,
               fruits := if n = 1428 then [sampleFruitIdle] else [] }
      else none
    fruitByFastHash := fun _ => none
    genesisCommittee := [sampleMember1, sampleMember2] }

/-- The range test of the cache lookup in the words of the spec:
`begin_fast ≤ f` and (`end_fast = 0` or `f ≤ end_fast`). -/
def committee.covers (c : committee) (f : Int) : Bool :=
  decide (c.beginFastNumber ≤ f) &&
    (match c.endFastNumber with
     | some v => decide (v = 0 ∨ f ≤ v)
     | none => false)

/-- The ids the lookup probes, in order: `epoch − 1` only when `epoch ≥ 1`, then `epoch`. -/
def probedIds (s : Int) : List Int :=
  (if 1 ≤ s / z then [s / z - 1] else []) ++ [s / z]

/-- The lookup in the words of the spec: the first probed id whose cached
record covers `f`. -/
def cacheLookupSpec (e : Election) (f s : Int) : Option Nat :=
  ((probedIds s).filterMap
    (fun id => (e.committeeList (uint64 id)).filter (fun p => (e.heap p).covers f))).head?

/-- Every cached record has its `endFastNumber` set, to a height (not negative). -/
def Election.CacheEndsSet (e : Election) : Prop :=
  ∀ key c, e.cached key = some c → ∃ n : Nat, c.endFastNumber = some (n : Int)

/-- Every pointer the state holds was handed out by `alloc`. -/
def Election.PointersValid (e : Election) : Prop :=
  (∀ p, e.committee = some p → p < e.nextPtr) ∧
  (∀ p, e.nextCommittee = some p → p < e.nextPtr) ∧
  (∀ key p, e.committeeList key = some p → p < e.nextPtr)

/-- The switchover predicate: next is set iff switching is true, and whenever
next is set, `next.begin_fast = current.end_fast + 1` and `current.end_fast ≠ 0`. -/
def Election.SwitchInv (e : Election) : Prop :=
  (e.next.isSome = true ↔ e.startSwitchover = true) ∧
  ∀ n, e.next = some n →
    ∃ c v, e.current = some c ∧ c.endFastNumber = some v ∧ n.beginFastNumber = v + 1 ∧ v ≠ 0

/-- The switchover predicate on a state whose pointers are valid. -/
def Election.StateInv (e : Election) : Prop := e.PointersValid ∧ e.SwitchInv

/-- The first snail block of the election the snail-head handler runs for the
trigger block number `n`. -/
def triggerStart (n : Nat) : Int :=
  if (n : Int) - lamada < z then 1 else (n : Int) - lamada - z

/-- The record the snail-head handler builds as next committee. -/
def triggerNext (n : Nat) (cur : committee) (lastFruit : Fruit)
    (members : List CommitteeMember) : committee :=
  { id := triggerStart n
    firstElectionNumber := triggerStart n
    lastElectionNumber := (n : Int) - lamada
    beginFastNumber := (lastFruit.number : Int) + k + 1
    endFastNumber := none
    switchCheckNumber := cur.switchCheckNumber + z
    members := members }

/-- The engine state after `VerifySign` has run on the signatures of a list in
turn (each call may add to the cache). -/
def stateBefore (env : Env) (chain : Chain) (fuel : Nat) :
    Election → List PbftSign → Except Fault Election
  | e, [] => .ok e
  | e, sign :: rest =>
    match VerifySign env chain fuel e sign with
    | .error f => .error f
    | .ok (_, e1) => stateBefore env chain fuel e1 rest

/-- The next record `Start` builds after a closed current record `c` whose
`end_fast` is `v`. -/
def startNext (c : committee) (v : Int) (members : List CommitteeMember) : committee :=
  { id := c.lastElectionNumber + 1
    beginFastNumber := v + 1
    endFastNumber := some 0
    firstElectionNumber := c.lastElectionNumber + 1
    lastElectionNumber := c.lastElectionNumber + 1440
    switchCheckNumber := c.switchCheckNumber + 1440
    members := members }

/-- The scan of `n` blocks from `b` on takes the member list and the fruit
counts from `(ms, cnt)` to `(ms2, cnt2)`, whatever the seed bytes are. -/
def Scans (env : Env) (chain : Chain) (n : Nat) (b : Int)
    (ms : List candidateMember) (cnt : Address → Option Nat)
    (ms2 : List candidateMember) (cnt2 : Address → Option Nat) : Prop :=
  ∀ seed, ∃ seed2, scanBlocks env chain n b seed ms cnt = some (seed2, ms2, cnt2)

/-! ## Theorems -/

/-! ### Queries beyond the newest fast height -/

/-- C1: for every engine state and every fast height `f` with
`f > fast_head + K`, `GetCommittee f` returns nil and leaves the state as it
is, whatever current, next and the cache hold; in particular this is so for
`f = fast_head + K + 1`. -/
theorem GetCommittee_beyond_newest (env : Env) (chain : Chain) (fuel : Nat) (e : Election) :
    (∀ f : Int, f > (chain.fastHead : Int) + 1000 →
      GetCommittee env chain fuel e f = .ok (none, e)) ∧
    GetCommittee env chain fuel e ((chain.fastHead : Int) + 1000 + 1) = .ok (none, e) := by
  have key : ∀ f : Int, f > (chain.fastHead : Int) + 1000 →
      GetCommittee env chain fuel e f = .ok (none, e) := by
    intro f hf
    have hf2 : f > (chain.fastHead : Int) + k := by simpa [k] using hf
    simp [GetCommittee, hf2]
  exact ⟨key, key _ (by omega)⟩

theorem GetCommittee_beyond_newest_witness :
    (1011 : Int) > (sampleChain.fastHead : Int) + 1000 ∧
    GetCommittee sampleEnv sampleChain 40 sampleStarted 1011 = .ok (none, sampleStarted) :=
  ⟨by decide,
   (GetCommittee_beyond_newest sampleEnv sampleChain 40 sampleStarted).1 1011 (by decide)⟩

/-! ### The verifier on a signer outside the committee -/

theorem GetMemberByPubkey_none (env : Env) (members : List CommitteeMember)
    (publickey : List Nat)
    (h : ∀ m ∈ members, publickey ≠ env.FromECDSAPub m.Publickey) :
    GetMemberByPubkey env members publickey = none := by
  unfold GetMemberByPubkey
  split
  · rfl
  · rw [List.find?_eq_none]
    intro m hm
    simpa using h m hm

/-- C2, as the code has it: when the key is recovered, a committee exists at
`sig.FastHeight` and the key matches no member, `VerifySign` returns no member
and no error. -/
theorem VerifySign_nonmember (env : Env) (chain : Chain) (fuel : Nat) (e e1 : Election)
    (sign : PbftSign) (pubkey : PublicKey) (members : List CommitteeMember)
    (hpk : env.SigToPub sign.hashWithNoSign.Bytes sign.Sign = .ok pubkey)
    (hc : GetCommittee env chain fuel e sign.FastHeight = .ok (some members, e1))
    (hno : ∀ m ∈ members, env.FromECDSAPub pubkey ≠ env.FromECDSAPub m.Publickey) :
    VerifySign env chain fuel e sign = .ok ((none, none), e1) := by
  simp [VerifySign, hpk, VerifyPublicKey, hc, GetMemberByPubkey_none env members _ hno]

theorem VerifySign_nonmember_witness :
    VerifySign sampleEnv sampleChain 40 sampleStarted sampleSign
      = .ok ((none, none), sampleStarted) :=
  VerifySign_nonmember sampleEnv sampleChain 40 sampleStarted sampleStarted sampleSign
    sampleKey3 [sampleMember1, sampleMember2] rfl rfl (by decide)

/-- C2 fails as stated: on the sample chain the key of `sampleSign` is
recovered, the committee at height 10 exists and does not hold the key, and
`VerifySign` returns neither a member nor `ErrInvalidMember`. -/
theorem VerifySign_nonmember_counterexample :
    sampleEnv.SigToPub sampleSign.hashWithNoSign.Bytes sampleSign.Sign = .ok sampleKey3 ∧
    GetCommittee sampleEnv sampleChain 40 sampleStarted sampleSign.FastHeight
      = .ok (some [sampleMember1, sampleMember2], sampleStarted) ∧
    (∀ m ∈ [sampleMember1, sampleMember2],
      sampleEnv.FromECDSAPub sampleKey3 ≠ sampleEnv.FromECDSAPub m.Publickey) ∧
    (∃ r, VerifySign sampleEnv sampleChain 40 sampleStarted sampleSign = .ok r ∧
      r.1.2 ≠ some Error.ErrInvalidMember) := by
  refine ⟨rfl, rfl, by decide, ?_⟩
  have h : VerifySign sampleEnv sampleChain 40 sampleStarted sampleSign
      = .ok ((none, none), sampleStarted) := rfl
  exact ⟨_, h, by simp⟩

/-! ### The interval assignment of `getCandinates` -/

theorem maxUint256_eq : maxUint256 = 2 ^ 256 := by
  simp [maxUint256, bigExp]

theorem IntervalChain_le : ∀ (l : List candidateMember) (a b : Int),
    IntervalChain a b l → a ≤ b := by
  intro l
  induction l with
  | nil => intro a b h; simp [IntervalChain] at h; omega
  | cons c rest ih =>
    intro a b h
    obtain ⟨h1, h2, h3⟩ := h
    have := ih _ _ h3
    omega

theorem IntervalChain_count_below : ∀ (l : List candidateMember) (a b x : Int),
    IntervalChain a b l → x < a → l.countP (candidateMember.holds x) = 0 := by
  intro l
  induction l with
  | nil => intro a b x _ _; rfl
  | cons c rest ih =>
    intro a b x h hx
    obtain ⟨h1, h2, h3⟩ := h
    have hc : ¬ (candidateMember.holds x c = true) := by
      simp [candidateMember.holds]; omega
    rw [List.countP_cons_of_neg _ _ hc]
    exact ih _ _ _ h3 (by omega)

theorem IntervalChain_count_one : ∀ (l : List candidateMember) (a b x : Int),
    IntervalChain a b l → a ≤ x → x < b → l.countP (candidateMember.holds x) = 1 := by
  intro l
  induction l with
  | nil => intro a b x h h1 h2; simp [IntervalChain] at h; omega
  | cons c rest ih =>
    intro a b x h hax hxb
    obtain ⟨h1, h2, h3⟩ := h
    by_cases hx : x < c.upper
    · have hc : candidateMember.holds x c = true := by
        simp [candidateMember.holds]; omega
      rw [List.countP_cons_of_pos _ _ hc, IntervalChain_count_below rest _ _ x h3 hx]
    · have hc : ¬ (candidateMember.holds x c = true) := by
        simp [candidateMember.holds]; omega
      rw [List.countP_cons_of_neg _ _ hc]
      exact ih _ _ _ h3 (by omega) hxb

theorem IntervalChain_lower_le_upper : ∀ (l : List candidateMember) (a b : Int),
    IntervalChain a b l → ∀ c ∈ l, c.lower ≤ c.upper := by
  intro l
  induction l with
  | nil => intro a b _ c hc; simp at hc
  | cons d rest ih =>
    intro a b h c hc
    obtain ⟨h1, h2, h3⟩ := h
    rcases List.mem_cons.mp hc with rfl | hc
    · exact h2
    · exact ih _ _ h3 c hc

theorem IntervalChain_adjacent : ∀ (l : List candidateMember) (a b : Int),
    IntervalChain a b l →
      ∀ (i : Nat) (c d : candidateMember), l[i]? = some c → l[i + 1]? = some d →
        c.upper = d.lower := by
  intro l
  induction l with
  | nil => intro a b _ i c d hc; simp at hc
  | cons e rest ih =>
    intro a b h i c d hc hd
    obtain ⟨h1, h2, h3⟩ := h
    cases i with
    | zero =>
      simp at hc hd
      subst hc
      cases rest with
      | nil => simp at hd
      | cons f rest2 =>
        simp at hd
        subst hd
        exact h3.1.symm
    | succ j =>
      simp at hc hd
      exact ih _ _ h3 j c d hc hd

theorem assignLoop_chain (rate : Int) (n : Nat) (hrate : 0 ≤ rate) :
    ∀ (cs : List candidateMember) (i : Nat) (dd : Int),
      cs ≠ [] → i + cs.length = n → (∀ c ∈ cs, 0 ≤ c.difficulty) →
      rate * (dd + totalDifficulty cs) ≤ maxUint256 →
      IntervalChain (rate * dd) maxUint256 (assignLoop rate n i dd cs) := by
  intro cs
  induction cs with
  | nil => intro i dd h; exact absurd rfl h
  | cons c rest ih =>
    intro i dd _ hlen hnn hle
    have hc : 0 ≤ c.difficulty := hnn c (List.mem_cons_self _ _)
    have hrest : ∀ d ∈ rest, 0 ≤ d.difficulty := fun d hd => hnn d (List.mem_cons_of_mem _ hd)
    have htot : totalDifficulty (c :: rest) = c.difficulty + totalDifficulty rest := by
      simp [totalDifficulty]
    have hrestnn : 0 ≤ totalDifficulty rest := by
      unfold totalDifficulty
      apply List.sum_nonneg
      intro x hx
      obtain ⟨d, hd, rfl⟩ := List.mem_map.mp hx
      exact hrest d hd
    rw [htot] at hle
    have hmono : rate * dd ≤ rate * (dd + c.difficulty) :=
      mul_le_mul_of_nonneg_left (by omega) hrate
    have hmono2 : rate * (dd + c.difficulty) ≤ rate * (dd + (c.difficulty + totalDifficulty rest)) :=
      mul_le_mul_of_nonneg_left (by omega) hrate
    cases rest with
    | nil =>
      have hi : (i : Int) = (n : Int) - 1 := by simp at hlen; omega
      simp only [assignLoop, hi, if_true, IntervalChain]
      refine ⟨trivial, ?_, trivial⟩
      omega
    | cons d rest2 =>
      have hi : ¬ ((i : Int) = (n : Int) - 1) := by simp at hlen; omega
      have := ih (i + 1) (dd + c.difficulty) (by simp) (by simp at hlen ⊢; omega) hrest
        (by rw [add_assoc]; exact hle)
      unfold assignLoop
      simp only [hi, if_false]
      exact ⟨rfl, hmono, this⟩

theorem assignLoop_ident (rate : Int) (n : Nat) :
    ∀ (cs : List candidateMember) (i : Nat) (dd : Int),
      (assignLoop rate n i dd cs).map candidateMember.ident = cs.map candidateMember.ident := by
  intro cs
  induction cs with
  | nil => intro i dd; rfl
  | cons c rest ih =>
    intro i dd
    simp [assignLoop, candidateMember.ident, ih]

theorem totalDifficulty_pos (cands : List candidateMember)
    (hnn : ∀ c ∈ cands, 0 ≤ c.difficulty) (htd : totalDifficulty cands ≠ 0) :
    0 < totalDifficulty cands := by
  have : 0 ≤ totalDifficulty cands := by
    unfold totalDifficulty
    apply List.sum_nonneg
    intro x hx
    obtain ⟨d, hd, rfl⟩ := List.mem_map.mp hx
    exact hnn d hd
  omega

theorem assignIntervals_chain (cands : List candidateMember) (hne : cands ≠ [])
    (hnn : ∀ c ∈ cands, 0 ≤ c.difficulty) (htd : totalDifficulty cands ≠ 0) :
    assignIntervals cands (totalDifficulty cands)
        = .ok (assignLoop (maxUint256 / totalDifficulty cands) cands.length 0 0 cands) ∧
      IntervalChain 0 maxUint256
        (assignLoop (maxUint256 / totalDifficulty cands) cands.length 0 0 cands) := by
  have hpos := totalDifficulty_pos cands hnn htd
  have hM : (0 : Int) ≤ maxUint256 := by rw [maxUint256_eq]; positivity
  have hrate : 0 ≤ maxUint256 / totalDifficulty cands := Int.ediv_nonneg hM (le_of_lt hpos)
  refine ⟨by simp [assignIntervals, htd], ?_⟩
  have h := assignLoop_chain (maxUint256 / totalDifficulty cands) cands.length hrate cands 0 0
    hne (by simp) hnn (by
      rw [zero_add]
      exact Int.ediv_mul_le _ htd)
  simpa using h

theorem retainLoop_total (fruitsCount : Address → Option Nat) :
    ∀ (members : List candidateMember) (td : Int) (candidates : List candidateMember),
      td = totalDifficulty candidates →
      (retainLoop fruitsCount members td candidates).1
        = totalDifficulty (retainLoop fruitsCount members td candidates).2 := by
  intro members
  induction members with
  | nil => intro td cs h; simpa [retainLoop] using h
  | cons m rest ih =>
    intro td cs h
    unfold retainLoop
    split
    · split
      · apply ih
        simp [totalDifficulty, h]
      · exact ih _ _ h
    · exact ih _ _ h

/-- C3: for every non-empty candidate list with non-negative difficulties and
non-zero total difficulty, `getCandinates` assigns intervals (to the same
candidates, in insertion order) such that the first `lower` is `0`,
`lower ≤ upper` for every candidate, and each candidate's `upper` is the next
one's `lower`; hence every integer `x` with `0 ≤ x < 2^256` lies in
`[lower, upper)` of exactly one candidate. -/
theorem getCandinates_intervals_partition (cands : List candidateMember) (hne : cands ≠ [])
    (hnn : ∀ c ∈ cands, 0 ≤ c.difficulty) (htd : totalDifficulty cands ≠ 0) :
    ∃ out, assignIntervals cands (totalDifficulty cands) = .ok out ∧
      out.map candidateMember.ident = cands.map candidateMember.ident ∧
      (∃ c, out.head? = some c ∧ c.lower = 0) ∧
      (∀ c ∈ out, c.lower ≤ c.upper) ∧
      (∀ (i : Nat) (c d : candidateMember), out[i]? = some c → out[i + 1]? = some d →
        c.upper = d.lower) ∧
      (∀ x : Int, 0 ≤ x → x < 2 ^ 256 →
        out.countP (fun c => decide (c.lower ≤ x ∧ x < c.upper)) = 1) := by
  obtain ⟨hok, hchain⟩ := assignIntervals_chain cands hne hnn htd
  refine ⟨_, hok, assignLoop_ident _ _ _ _ _, ?_, IntervalChain_lower_le_upper _ _ _ hchain,
    IntervalChain_adjacent _ _ _ hchain, ?_⟩
  · cases cands with
    | nil => exact absurd rfl hne
    | cons c rest => exact ⟨_, rfl, by simp⟩
  · intro x h0 hx
    have := IntervalChain_count_one _ _ _ x hchain h0 (by rw [maxUint256_eq]; exact hx)
    exact this

theorem getCandinates_intervals_partition_witness :
    ∃ out, assignIntervals sampleMembers (totalDifficulty sampleMembers) = .ok out ∧
      out.map candidateMember.ident = sampleMembers.map candidateMember.ident ∧
      (∃ c, out.head? = some c ∧ c.lower = 0) ∧
      (∀ c ∈ out, c.lower ≤ c.upper) ∧
      (∀ (i : Nat) (c d : candidateMember), out[i]? = some c → out[i + 1]? = some d →
        c.upper = d.lower) ∧
      (∀ x : Int, 0 ≤ x → x < 2 ^ 256 →
        out.countP (fun c => decide (c.lower ≤ x ∧ x < c.upper)) = 1) :=
  getCandinates_intervals_partition sampleMembers (by decide) (by decide) (by decide)


/-! ### The lottery -/

theorem drawProp_zero (env : Env) (seed : Hash) (round : Int) : drawProp env seed round = 0 := by
  unfold drawProp
  simp only
  rw [maxUint256_eq]
  apply Int.ediv_eq_zero_of_lt (by positivity)
  have := (env.Keccak256Hash (bigBytes ((seed.big : Int) + round))).lt
  exact_mod_cast this

theorem electPick_find (prop : Int) :
    ∀ (cands : List candidateMember) (addrs : Address → Option Nat)
      (members : List CommitteeMember),
      electPick prop cands addrs members =
        match cands.find? (candidateMember.holds prop) with
        | none => (addrs, members)
        | some cm =>
          if (addrs cm.address).isSome then (addrs, members)
          else (fun a => if a = cm.address then some 1 else addrs a, members ++ [cm.toMember]) := by
  intro cands
  induction cands with
  | nil => intro addrs members; rfl
  | cons c rest ih =>
    intro addrs members
    unfold electPick
    by_cases h1 : prop < c.lower
    · have hc : candidateMember.holds prop c = false := by
        simp [candidateMember.holds]; omega
      simp [h1, List.find?_cons, hc, ih]
    · by_cases h2 : prop ≥ c.upper
      · have hc : candidateMember.holds prop c = false := by
          simp [candidateMember.holds]; omega
        simp [h1, h2, List.find?_cons, hc, ih]
      · have hc : candidateMember.holds prop c = true := by
          simp [candidateMember.holds]; omega
        simp [h1, h2, List.find?_cons, hc]

theorem find_of_count_one (x : Int) (l : List candidateMember)
    (h : l.countP (candidateMember.holds x) = 1) :
    ∃ c, l.find? (candidateMember.holds x) = some c := by
  cases hf : l.find? (candidateMember.holds x) with
  | some c => exact ⟨c, rfl⟩
  | none =>
    rw [List.find?_eq_none] at hf
    have : l.countP (candidateMember.holds x) = 0 := by
      rw [List.countP_eq_zero]
      exact hf
    omega

theorem electRound_first (env : Env) (cands : List candidateMember) (seed : Hash)
    (c : candidateMember) (hc : cands.find? (candidateMember.holds 0) = some c) :
    electRound env cands seed electInit =
      { round := 1, addrs := fun a => if a = c.address then some 1 else none,
        members := [c.toMember] } := by
  simp [electRound, drawProp_zero, electPick_find, hc, electInit]

theorem electRound_later (env : Env) (cands : List candidateMember) (seed : Hash)
    (c : candidateMember) (hc : cands.find? (candidateMember.holds 0) = some c)
    (st : ElectState) (hst : (st.addrs c.address).isSome = true) :
    electRound env cands seed st = { st with round := st.round + 1 } := by
  simp [electRound, drawProp_zero, electPick_find, hc, hst]

theorem electLoop_tail (env : Env) (cands : List candidateMember) (seed : Hash)
    (c : candidateMember) (hc : cands.find? (candidateMember.holds 0) = some c) :
    ∀ (n fuel : Nat) (st : ElectState), (st.addrs c.address).isSome = true →
      1 ≤ st.members.length → st.round + (n : Int) = 39 → n + 1 ≤ fuel →
      electLoop env cands seed fuel st = .ok { st with round := 40 } := by
  intro n
  induction n with
  | zero =>
    intro fuel st ha hm hr hf
    obtain ⟨f, rfl⟩ : ∃ f, fuel = f + 1 := ⟨fuel - 1, by omega⟩
    have hr2 : st.round = 39 := by simpa using hr
    simp [electLoop, electRound_later env cands seed c hc st ha, maxCommitteeNumber,
      minCommitteeNumber, hr2]
    intro hnil
    rw [hnil] at hm
    simp at hm
  | succ n ih =>
    intro fuel st ha hm hr hf
    obtain ⟨f, rfl⟩ : ∃ f, fuel = f + 1 := ⟨fuel - 1, by omega⟩
    have hlt : ¬ (st.round + 1 ≥ 40) := by push_cast at hr; omega
    rw [electLoop]
    simp only [electRound_later env cands seed c hc st ha, maxCommitteeNumber]
    rw [if_neg (fun h => hlt h.1)]
    have := ih f { st with round := st.round + 1 } ha hm (by push_cast at hr ⊢; omega)
      (by omega)
    simpa using this

theorem electRun_single (env : Env) (cands : List candidateMember) (seed : Hash)
    (c : candidateMember) (hc : cands.find? (candidateMember.holds 0) = some c)
    (fuel : Nat) (hfuel : 40 ≤ fuel) :
    electRun env fuel cands seed =
      .ok { round := 40, addrs := fun a => if a = c.address then some 1 else none,
            members := [c.toMember] } := by
  obtain ⟨f, rfl⟩ : ∃ f, fuel = f + 1 := ⟨fuel - 1, by omega⟩
  unfold electRun
  rw [electLoop]
  simp only [electRound_first env cands seed c hc, maxCommitteeNumber]
  rw [if_neg (by simp)]
  have := electLoop_tail env cands seed c hc 38 f
    { round := 1, addrs := fun a => if a = c.address then some 1 else none,
      members := [c.toMember] } (by simp) (by simp) (by norm_num) (by omega)
  simpa using this

theorem electLoop_short (env : Env) (cands : List candidateMember) (seed : Hash) :
    ∀ (fuel : Nat) (st : ElectState), st.round + (fuel : Int) < 40 →
      electLoop env cands seed fuel st = .error .fuelExhausted := by
  intro fuel
  induction fuel with
  | zero => intro st _; rfl
  | succ f ih =>
    intro st h
    rw [electLoop]
    have hr : (electRound env cands seed st).round = st.round + 1 := rfl
    have hlt : ¬ ((electRound env cands seed st).round ≥ maxCommitteeNumber) := by
      rw [hr]; unfold maxCommitteeNumber; push_cast at h; omega
    rw [if_neg (fun h => hlt h.1)]
    apply ih
    rw [hr]; push_cast at h; omega

theorem elect_of_electRun (env : Env) (fuel : Nat) (cands : List candidateMember) (seed : Hash)
    (st : ElectState) (h : electRun env fuel cands seed = .ok st) :
    elect env fuel cands seed = .ok st.members := by
  simp [elect, h]

theorem electRound_iterate (env : Env) (cands : List candidateMember) (seed : Hash)
    (c : candidateMember) (hc : cands.find? (candidateMember.holds 0) = some c) :
    ∀ n : Nat, (electRound env cands seed)^[n + 1] electInit =
      { round := (n : Int) + 1, addrs := fun a => if a = c.address then some 1 else none,
        members := [c.toMember] } := by
  intro n
  induction n with
  | zero => simpa using electRound_first env cands seed c hc
  | succ n ih =>
    rw [Function.iterate_succ_apply', ih, electRound_later env cands seed c hc _ (by simp)]
    simp

theorem assigned_find_zero (cands : List candidateMember) (hne : cands ≠ [])
    (hnn : ∀ c ∈ cands, 0 ≤ c.difficulty) (htd : totalDifficulty cands ≠ 0) :
    ∃ out c, assignIntervals cands (totalDifficulty cands) = .ok out ∧
      out.find? (candidateMember.holds 0) = some c := by
  obtain ⟨hok, hchain⟩ := assignIntervals_chain cands hne hnn htd
  have hcount := IntervalChain_count_one _ _ _ 0 hchain (le_refl 0)
    (by rw [maxUint256_eq]; positivity)
  obtain ⟨c, hc⟩ := find_of_count_one 0 _ hcount
  exact ⟨_, c, hok, hc⟩

/-- C4: for every non-empty candidate list whose intervals were assigned by
`getCandinates` (non-negative difficulties, non-zero total) and every seed,
`elect` terminates (40 rounds of fuel are enough) and returns a member list of
length at least `minCommitteeNumber = 1` and at most `maxCommitteeNumber = 40`. -/
theorem elect_size_bound (env : Env) (seed : Hash) (cands : List candidateMember)
    (hne : cands ≠ []) (hnn : ∀ c ∈ cands, 0 ≤ c.difficulty)
    (htd : totalDifficulty cands ≠ 0) :
    ∃ out, assignIntervals cands (totalDifficulty cands) = .ok out ∧
      ∀ fuel : Nat, 40 ≤ fuel →
        ∃ members, elect env fuel out seed = .ok members ∧
          minCommitteeNumber ≤ members.length ∧ (members.length : Int) ≤ maxCommitteeNumber := by
  obtain ⟨out, c, hok, hc⟩ := assigned_find_zero cands hne hnn htd
  refine ⟨out, hok, ?_⟩
  intro fuel hfuel
  refine ⟨[c.toMember], ?_, by simp [minCommitteeNumber], by simp [maxCommitteeNumber]⟩
  exact elect_of_electRun env fuel out seed _ (electRun_single env out seed c hc fuel hfuel)

theorem elect_size_bound_witness :
    ∃ out, assignIntervals sampleMembers (totalDifficulty sampleMembers) = .ok out ∧
      ∀ fuel : Nat, 40 ≤ fuel →
        ∃ members, elect sampleEnv fuel out Hash.zero = .ok members ∧
          minCommitteeNumber ≤ members.length ∧ (members.length : Int) ≤ maxCommitteeNumber :=
  elect_size_bound sampleEnv Hash.zero sampleMembers (by decide) (by decide) (by decide)

/-- C6: for every seed and every candidate list produced by `getCandinates`
(non-negative difficulties, non-zero total), the reduced draw is `0` in every
round, and `elect` returns exactly one member after exactly 40 rounds (fewer
rounds do not end the loop): the coinbase and public key of the first candidate
in list order whose interval contains `0`; after the first round the member
list stays that one member, whatever the number of rounds. -/
theorem elect_single_member (env : Env) (seed : Hash) (cands : List candidateMember)
    (hne : cands ≠ []) (hnn : ∀ c ∈ cands, 0 ≤ c.difficulty)
    (htd : totalDifficulty cands ≠ 0) :
    ∃ out c, assignIntervals cands (totalDifficulty cands) = .ok out ∧
      (∀ round : Int, drawProp env seed round = 0) ∧
      out.find? (fun d => decide (d.lower ≤ 0 ∧ 0 < d.upper)) = some c ∧
      (∀ fuel : Nat, 40 ≤ fuel →
        elect env fuel out seed = .ok [c.toMember] ∧
        ∃ st, electRun env fuel out seed = .ok st ∧ st.round = 40) ∧
      (∀ fuel : Nat, fuel < 40 → elect env fuel out seed = .error .fuelExhausted) ∧
      (∀ n : Nat, 1 ≤ n → ((electRound env out seed)^[n] electInit).members = [c.toMember]) := by
  obtain ⟨out, c, hok, hc⟩ := assigned_find_zero cands hne hnn htd
  refine ⟨out, c, hok, drawProp_zero env seed, hc, ?_, ?_, ?_⟩
  · intro fuel hfuel
    have h := electRun_single env out seed c hc fuel hfuel
    exact ⟨elect_of_electRun env fuel out seed _ h, _, h, rfl⟩
  · intro fuel hfuel
    have h := electLoop_short env out seed fuel electInit (by simp [electInit]; omega)
    simp [elect, electRun, h]
  · intro n hn
    obtain ⟨m, rfl⟩ : ∃ m, n = m + 1 := ⟨n - 1, by omega⟩
    rw [electRound_iterate env out seed c hc m]

theorem elect_single_member_witness :
    ∃ out c, assignIntervals sampleMembers (totalDifficulty sampleMembers) = .ok out ∧
      (∀ round : Int, drawProp sampleEnv Hash.zero round = 0) ∧
      out.find? (fun d => decide (d.lower ≤ 0 ∧ 0 < d.upper)) = some c ∧
      (∀ fuel : Nat, 40 ≤ fuel →
        elect sampleEnv fuel out Hash.zero = .ok [c.toMember] ∧
        ∃ st, electRun sampleEnv fuel out Hash.zero = .ok st ∧ st.round = 40) ∧
      (∀ fuel : Nat, fuel < 40 → elect sampleEnv fuel out Hash.zero = .error .fuelExhausted) ∧
      (∀ n : Nat, 1 ≤ n →
        ((electRound sampleEnv out Hash.zero)^[n] electInit).members = [c.toMember]) :=
  elect_single_member sampleEnv Hash.zero sampleMembers (by decide) (by decide) (by decide)

theorem electPick_inv (prop : Int) (cands : List candidateMember) :
    ∀ (l : List candidateMember), (∀ c ∈ l, c ∈ cands) →
      ∀ (addrs : Address → Option Nat) (members : List CommitteeMember),
        ElectInv cands addrs members →
        ElectInv cands (electPick prop l addrs members).1 (electPick prop l addrs members).2 := by
  intro l
  induction l with
  | nil => intro _ addrs members h; exact h
  | cons cm rest ih =>
    intro hl addrs members hinv
    have hrest : ∀ c ∈ rest, c ∈ cands := fun c hc => hl c (List.mem_cons_of_mem _ hc)
    unfold electPick
    split
    · exact ih hrest addrs members hinv
    · split
      · exact ih hrest addrs members hinv
      · split
        · exact hinv
        · rename_i hnew
          obtain ⟨picked, hsub, hnd, hmem, hmark⟩ := hinv
          refine ⟨picked ++ [cm], ?_, ?_, ?_, ?_⟩
          · intro c hc
            rcases List.mem_append.mp hc with h | h
            · exact hsub c h
            · rw [List.mem_singleton.mp h]; exact hl cm (List.mem_cons_self _ _)
          · rw [List.map_append, List.nodup_append]
            refine ⟨hnd, by simp, ?_⟩
            intro a ha hb
            simp at hb
            subst hb
            obtain ⟨c, hc, hca⟩ := List.mem_map.mp ha
            have := hmark c hc
            rw [hca] at this
            exact hnew this
          · simp [hmem]
          · intro c hc
            rcases List.mem_append.mp hc with h | h
            · by_cases hca : c.address = cm.address
              · simp [hca]
              · simp [hca, hmark c h]
            · rw [List.mem_singleton.mp h]; simp

theorem electLoop_inv (env : Env) (cands : List candidateMember) (seed : Hash) :
    ∀ (fuel : Nat) (st st1 : ElectState), ElectInv cands st.addrs st.members →
      electLoop env cands seed fuel st = .ok st1 → ElectInv cands st1.addrs st1.members := by
  intro fuel
  induction fuel with
  | zero => intro st st1 _ h; simp [electLoop] at h
  | succ f ih =>
    intro st st1 hinv h
    have hround : ElectInv cands (electRound env cands seed st).addrs
        (electRound env cands seed st).members :=
      electPick_inv _ cands cands (fun _ hc => hc) _ _ hinv
    rw [electLoop] at h
    split at h
    · cases h
      exact hround
    · exact ih _ _ hround h

/-- C5: for every candidate list and seed on which `elect` returns, the
returned members are, in order, those of picked candidates of the list whose
addresses are pairwise distinct: no address is selected twice, even when it
occurs in several candidates. -/
theorem elect_distinct_addresses (env : Env) (fuel : Nat) (cands : List candidateMember)
    (seed : Hash) (members : List CommitteeMember)
    (h : elect env fuel cands seed = .ok members) :
    ∃ picked : List candidateMember,
      (∀ c ∈ picked, c ∈ cands) ∧ (picked.map (fun c => c.address)).Nodup ∧
      members = picked.map candidateMember.toMember := by
  unfold elect at h
  cases hrun : electRun env fuel cands seed with
  | error f => rw [hrun] at h; simp at h
  | ok st =>
    rw [hrun] at h
    simp at h
    subst h
    have hinit : ElectInv cands electInit.addrs electInit.members :=
      ⟨[], by simp, by simp, by simp [electInit], by simp⟩
    obtain ⟨picked, h1, h2, h3, _⟩ := electLoop_inv env cands seed fuel electInit st hinit hrun
    exact ⟨picked, h1, h2, h3⟩

set_option maxRecDepth 8000 in
theorem elect_distinct_addresses_witness :
    elect sampleEnv 40 sampleCandidates Hash.zero
        = .ok [{ Coinbase := 103, Publickey := sampleKey3 }] ∧
    ∃ picked : List candidateMember,
      (∀ c ∈ picked, c ∈ sampleCandidates) ∧ (picked.map (fun c => c.address)).Nodup ∧
      [({ Coinbase := 103, Publickey := sampleKey3 } : CommitteeMember)]
        = picked.map candidateMember.toMember :=
  ⟨rfl, elect_distinct_addresses sampleEnv 40 sampleCandidates Hash.zero _ rfl⟩

/-! ### The epoch calculator and `Start` -/

theorem uint64_zero : uint64 0 = 0 := by simp [uint64]

theorem ediv_z_eq_zero (s : Int) (h0 : 0 ≤ s) (h1 : s < 1440) : s / 1440 = 0 := by
  omega

theorem ediv_z_eq_one (s : Int) (h0 : 1440 ≤ s) (h1 : s < 2880) : s / 1440 = 1 := by
  omega

theorem getCommittee_genesis (env : Env) (chain : Chain) (e : Election) (fuel : Nat)
    (f s : Int) (h0 : 0 ≤ s) (h1 : s < 1440) :
    getCommittee env chain e fuel f s = .ok (some
      { id := 0, beginFastNumber := 1, endFastNumber := some 0, firstElectionNumber := 0,
        lastElectionNumber := 0, switchCheckNumber := 1440, members := e.genesisCommittee }) := by
  simp [getCommittee, z, ediv_z_eq_zero s h0 h1]

/-- The previous-epoch branch of `getCommittee` in epoch 1, with the bound the
code compares `f` with (the `Number()` of the last fruit of snail block 1428,
plus `K`): the genesis committee's members with id 0, `begin_fast = 1`, that
bound as `end_fast`, and `switch_check_snail = 1440`. -/
theorem getCommittee_epoch_one (env : Env) (chain : Chain) (e : Election) (fuel : Nat)
    (s f : Int) (blk : SnailBlock) (fruit : Fruit)
    (hs1 : 1440 ≤ s) (hs2 : s < 2880)
    (hblk : chain.snailBlock 1428 = some blk) (hfruit : blk.fruits.getLast? = some fruit)
    (hf : f ≤ (fruit.number : Int) + 1000) :
    getCommittee env chain e fuel f s = .ok (some
      { id := 0, beginFastNumber := 1, endFastNumber := some ((fruit.number : Int) + 1000),
        firstElectionNumber := 0, lastElectionNumber := 0, switchCheckNumber := 1440,
        members := e.genesisCommittee }) ∧
    (fruit.number : Int) + 1000 ≠ 0 := by
  have hu : uint64 1428 = 1428 := by simp [uint64]
  refine ⟨?_, by omega⟩
  simp [getCommittee, z, lamada, k, ediv_z_eq_one s hs1 hs2, hu, hblk, hfruit, hf]

/-- C8: if `Start` runs on the freshly constructed engine while the snail head
is below `Z = 1440`, then afterwards current is the genesis record (id 0,
`begin_fast = 1`, `end_fast = 0`, `switch_check_snail = 1440`, the genesis
members), next is unset, switching is false, and `GetCommittee f` returns
exactly the genesis committee for every `f` with `1 ≤ f ≤ fast_head + K`. -/
theorem Start_genesis (env : Env) (chain : Chain) (fuel : Nat) (h : chain.snailHead < 1440) :
    ∃ r, Start env chain fuel (NewElction chain) = .ok r ∧
      r.state.current = some
        { id := 0, beginFastNumber := 1, endFastNumber := some 0, firstElectionNumber := 0,
          lastElectionNumber := 0, switchCheckNumber := 1440,
          members := chain.genesisCommittee } ∧
      r.state.next = none ∧
      r.state.startSwitchover = false ∧
      ∀ f : Int, 1 ≤ f → f ≤ (chain.fastHead : Int) + 1000 →
        GetCommittee env chain fuel r.state f = .ok (some chain.genesisCommittee, r.state) := by
  have hg := getCommittee_genesis env chain (NewElction chain) fuel (chain.fastHead : Int)
    (chain.snailHead : Int) (by omega) (by omega)
  refine ⟨_, by simp [Start, hg]; rfl, ?_, ?_, ?_, ?_⟩
  · simp [Election.current, appendCommittee, Election.alloc, NewElction]
  · simp [Election.next, appendCommittee, Election.alloc, NewElction]
  · simp [appendCommittee, Election.alloc, NewElction]
  · intro f hf1 hf2
    have hk : ¬ (f > (chain.fastHead : Int) + k) := by unfold k; omega
    simp [GetCommittee, hk, GetCommitteeCurrent, Election.next, Election.current,
      appendCommittee, Election.alloc, NewElction, hf1, committee.Members]

theorem Start_genesis_witness :
    ∃ r, Start sampleEnv sampleChain 40 (NewElction sampleChain) = .ok r ∧
      r.state.current = some
        { id := 0, beginFastNumber := 1, endFastNumber := some 0, firstElectionNumber := 0,
          lastElectionNumber := 0, switchCheckNumber := 1440,
          members := [sampleMember1, sampleMember2] } ∧
      r.state.next = none ∧
      r.state.startSwitchover = false ∧
      GetCommittee sampleEnv sampleChain 40 r.state 10
        = .ok (some [sampleMember1, sampleMember2], r.state) :=
  let ⟨r, h1, h2, h3, h4, h5⟩ := Start_genesis sampleEnv sampleChain 40 (by decide)
  ⟨r, h1, h2, h3, h4, h5 10 (by decide) (by decide)⟩

/-! ### Fast height 0 and the last interval bound -/

theorem probeCache_zero_miss (e : Election)
    (hcache : ∀ c, e.cached 0 = some c → 1 ≤ c.beginFastNumber) :
    probeCache e 0 [0] = .ok none := by
  unfold probeCache
  rw [uint64_zero]
  cases hp : e.committeeList 0 with
  | none => simp [probeCache]
  | some p =>
    have h1 := hcache (e.heap p) (by simp [Election.cached, hp])
    have h2 : (e.heap p).beginFastNumber > 0 := by omega
    simp [h2, probeCache]

theorem GetCommitteeLookup_zero (env : Env) (chain : Chain) (fuel : Nat) (e : Election)
    (hcache : ∀ c, e.cached 0 = some c → 1 ≤ c.beginFastNumber)
    (hhead : chain.snailHead < 1440)
    (hfruit : ∀ h fr, chain.fruitByFastHash h = some fr → fr.number < 1440)
    (b : FastBlock) (hb : chain.fastBlock 0 = some b) :
    ∃ e1, GetCommitteeLookup env chain fuel e 0 = .ok (some e.genesisCommittee, e1) := by
  unfold GetCommitteeLookup
  rw [uint64_zero, hb]
  simp only
  generalize hsn : (match chain.fruitByFastHash b.hash with
      | none => (chain.snailHead : Int)
      | some snailBlock => (snailBlock.number : Int)) = sn
  have hsn0 : 0 ≤ sn ∧ sn < 1440 := by
    rw [← hsn]
    cases hfr : chain.fruitByFastHash b.hash with
    | none => simp; omega
    | some fr =>
      have := hfruit _ _ hfr
      simp; omega
  have hcacheMiss : getCommitteeFromCache e 0 sn = .ok none := by
    simp [getCommitteeFromCache, z, ediv_z_eq_zero sn hsn0.1 hsn0.2]
    exact probeCache_zero_miss e hcache
  rw [hcacheMiss, getCommittee_genesis env chain e fuel 0 sn hsn0.1 hsn0.2]
  exact ⟨_, rfl⟩

/-- C9, as the code has it: in a state of snail epoch 0 whose current, next and
cached records begin at a fast height of at least 1, `GetCommittee 0` returns
nil when the fast chain holds no block at height 0, and the genesis committee
when it does: height 0 is not rejected for being below the first fast height. -/
theorem GetCommittee_zero (env : Env) (chain : Chain) (fuel : Nat) (e : Election)
    (hcur : ∀ c, e.current = some c → 1 ≤ c.beginFastNumber)
    (hnext : ∀ n, e.next = some n → 1 ≤ n.beginFastNumber)
    (hcache : ∀ c, e.cached 0 = some c → 1 ≤ c.beginFastNumber)
    (hhead : chain.snailHead < 1440)
    (hfruit : ∀ h fr, chain.fruitByFastHash h = some fr → fr.number < 1440) :
    (chain.fastBlock 0 = none → GetCommittee env chain fuel e 0 = .ok (none, e)) ∧
    (∀ b, chain.fastBlock 0 = some b →
      ∃ e1, GetCommittee env chain fuel e 0 = .ok (some e.genesisCommittee, e1)) := by
  have hk : ¬ ((0 : Int) > (chain.fastHead : Int) + k) := by unfold k; omega
  have hcurrent : GetCommitteeCurrent env chain fuel e 0 = GetCommitteeLookup env chain fuel e 0 := by
    unfold GetCommitteeCurrent
    cases hc : e.current with
    | none => rfl
    | some c =>
      have := hcur c hc
      have h2 : ¬ ((0 : Int) ≥ c.beginFastNumber) := by omega
      simp [h2]
  have hmain : GetCommittee env chain fuel e 0 = GetCommitteeLookup env chain fuel e 0 := by
    unfold GetCommittee
    simp only [hk, if_false]
    cases hn : e.next with
    | none => exact hcurrent
    | some n =>
      have := hnext n hn
      have h1 : ¬ (n.beginFastNumber + k < 0) := by unfold k; omega
      have h2 : ¬ ((0 : Int) ≥ n.beginFastNumber) := by omega
      simp only [h1, h2, if_false]
      exact hcurrent
  rw [hmain]
  constructor
  · intro hb
    simp [GetCommitteeLookup, uint64_zero, hb]
  · intro b hb
    exact GetCommitteeLookup_zero env chain fuel e hcache hhead hfruit b hb

theorem GetCommittee_zero_witness :
    ∃ e1, GetCommittee sampleEnv sampleChain 40 sampleStarted 0
      = .ok (some [sampleMember1, sampleMember2], e1) :=
  (GetCommittee_zero sampleEnv sampleChain 40 sampleStarted
    (by intro c hc; cases hc; decide)
    (by intro n hn; cases hn)
    (by intro c hc; cases hc; decide)
    (by decide)
    (by intro h fr hfr; cases hfr)).2 { number := 0, hash := Hash.zero } rfl

/-- C9 fails as stated: in the state `Start` leaves on the sample chain (snail
head 500, fast head 10), `GetCommittee 0` returns the genesis committee, not nil. -/
theorem GetCommittee_zero_counterexample :
    ∃ r, GetCommittee sampleEnv sampleChain 40 sampleStarted 0 = .ok r ∧
      r.1 = some [sampleMember1, sampleMember2] ∧ r.1 ≠ none :=
  ⟨_, rfl, rfl, by simp⟩

theorem assignLoop_last_upper (rate : Int) (n : Nat) :
    ∀ (cs : List candidateMember) (i : Nat) (dd : Int), cs ≠ [] → i + cs.length = n →
      ∃ c, (assignLoop rate n i dd cs).getLast? = some c ∧ c.upper = maxUint256 := by
  intro cs
  induction cs with
  | nil => intro i dd h; exact absurd rfl h
  | cons c rest ih =>
    intro i dd _ hlen
    cases rest with
    | nil =>
      have hi : (i : Int) = (n : Int) - 1 := by simp at hlen; omega
      simp [assignLoop, hi]
    | cons d rest2 =>
      obtain ⟨c2, h1, h2⟩ := ih (i + 1) (dd + c.difficulty) (by simp)
        (by simp at hlen ⊢; omega)
      refine ⟨c2, ?_, h2⟩
      simp only [assignLoop] at h1 ⊢
      rw [List.getLast?_cons_cons]
      exact h1

set_option maxRecDepth 8000 in
/-- C7 at a concrete range: on snail blocks 1 to 3 of the sample chain (one
electable fruit each, difficulties 2, 3 and 4) the last candidate's `upper` is
`2^256`, the value of `maxUint256`, and not `2^256 - 1`. -/
theorem getCandinates_last_upper_sample :
    ∃ seed out c, getCandinates sampleEnv sampleChain 1 3 = .ok (seed, out) ∧
      out.map candidateMember.ident = [ ({ coinbase := 103, address := 31, publickey := sampleKey3, difficulty := 2, upper := 0, lower := 0 } : candidateMember), { coinbase := 103, address := 31, publickey := sampleKey3, difficulty := 3, upper := 0, lower := 0 }, { coinbase := 103, address := 31, publickey := sampleKey3, difficulty := 4, upper := 0, lower := 0 } ].map candidateMember.ident ∧
      out.getLast? = some c ∧ c.upper = 2 ^ 256 ∧ c.upper ≠ 2 ^ 256 - 1 := by
  refine ⟨_, _, _, rfl, rfl, rfl, ?_, ?_⟩
  · show maxUint256 = 2 ^ 256
    exact maxUint256_eq
  · show maxUint256 ≠ 2 ^ 256 - 1
    rw [maxUint256_eq]
    norm_num

/-! ### The committee cache -/

theorem probeCache_spec (e : Election) (f : Int) (hwf : e.CacheEndsSet) :
    ∀ ids : List Int, probeCache e f ids = .ok
      ((ids.filterMap
        (fun id => (e.committeeList (uint64 id)).filter (fun p => (e.heap p).covers f))).head?) := by
  intro ids
  induction ids with
  | nil => rfl
  | cons id rest ih =>
    unfold probeCache
    cases hp : e.committeeList (uint64 id) with
    | none => simp [ih, List.filterMap_cons, hp]
    | some p =>
      obtain ⟨n, hn⟩ := hwf (uint64 id) (e.heap p) (by simp [Election.cached, hp])
      simp only [hn]
      by_cases hb : (e.heap p).beginFastNumber > f
      · have hcov : (e.heap p).covers f = false := by
          simp [committee.covers]; intro h; omega
        simp [hb, ih, List.filterMap_cons, hp, Option.filter, hcov]
      · by_cases he : (n : Int) > 0 ∧ (n : Int) < f
        · have hcov : (e.heap p).covers f = false := by
            simp [committee.covers, hn]; intro _; omega
          simp [hb, he, ih, List.filterMap_cons, hp, Option.filter, hcov]
        · have hcov : (e.heap p).covers f = true := by
            simp [committee.covers, hn]; omega
          simp [hb, List.filterMap_cons, hp, Option.filter, hcov]
          intro h1 h2
          exact absurd ⟨by exact_mod_cast h1, h2⟩ he

/-- The lookup `getCommitteeFromCache f s` on a cache whose records all have
their `end_fast` set to a height: it probes id `epoch − 1` (only when
`epoch ≥ 1`) and then id `epoch`, with `epoch = s / Z`, and returns the first
probed id's record that is cached and satisfies `begin_fast ≤ f` and
(`end_fast = 0` or `f ≤ end_fast`), which is what `cacheLookupSpec` says; it
returns nothing exactly when neither probed id holds such a record. -/
theorem getCommitteeFromCache_spec (e : Election) (f s : Int) (hwf : e.CacheEndsSet) :
    getCommitteeFromCache e f s = .ok (cacheLookupSpec e f s) ∧
    (cacheLookupSpec e f s = none ↔
      ∀ id ∈ probedIds s, ∀ p, e.committeeList (uint64 id) = some p →
        (e.heap p).covers f = false) ∧
    (∀ p, cacheLookupSpec e f s = some p →
      ∃ id ∈ probedIds s, e.committeeList (uint64 id) = some p ∧ (e.heap p).covers f = true) := by
  refine ⟨?_, ?_, ?_⟩
  · have h := probeCache_spec e f hwf (probedIds s)
    have hids : probedIds s =
        (if s / z - 1 ≥ 0 then [s / z - 1] else []) ++ [s / z] := by
      unfold probedIds
      by_cases h1 : 1 ≤ s / z
      · have : s / z - 1 ≥ 0 := by omega
        simp [h1, this]
      · have : ¬ (s / z - 1 ≥ 0) := by omega
        simp [h1, this]
    unfold getCommitteeFromCache cacheLookupSpec
    simp only
    rw [← hids]
    exact h
  · unfold cacheLookupSpec
    rw [List.head?_eq_none_iff, List.filterMap_eq_nil_iff]
    constructor
    · intro h id hid p hp
      have := h id hid
      rw [hp] at this
      simpa [Option.filter] using this
    · intro h id hid
      cases hp : e.committeeList (uint64 id) with
      | none => rfl
      | some p => simp [Option.filter, h id hid p hp]
  · intro p hp
    unfold cacheLookupSpec at hp
    have hmem := List.mem_of_mem_head? hp
    rw [List.mem_filterMap] at hmem
    obtain ⟨id, hid, hf⟩ := hmem
    refine ⟨id, hid, ?_⟩
    cases hq : e.committeeList (uint64 id) with
    | none => rw [hq] at hf; simp [Option.filter] at hf
    | some q =>
      rw [hq] at hf
      simp only [Option.filter] at hf
      split at hf
      · rename_i hc
        cases hf
        exact ⟨rfl, hc⟩
      · cases hf

/-- C16: `appendCommittee c` never overwrites: if an entry with the key of
`c.id` is already cached the state is unchanged; otherwise exactly the entry
for that key, pointing to `c`, is added; in both cases every previously cached
key still maps to the same pointer and the same record. -/
theorem appendCommittee_no_overwrite (e : Election) (c : Nat) :
    (∀ q, e.committeeList (uint64 (e.heap c).id) = some q → appendCommittee e c = e) ∧
    (e.committeeList (uint64 (e.heap c).id) = none →
      (appendCommittee e c).committeeList (uint64 (e.heap c).id) = some c ∧
      ∀ key, key ≠ uint64 (e.heap c).id →
        (appendCommittee e c).committeeList key = e.committeeList key) ∧
    (∀ key q, e.committeeList key = some q →
      (appendCommittee e c).committeeList key = some q) ∧
    (∀ key r, e.cached key = some r → (appendCommittee e c).cached key = some r) ∧
    (appendCommittee e c).heap = e.heap := by
  have hheap : (appendCommittee e c).heap = e.heap := by
    unfold appendCommittee
    split <;> rfl
  have hkeep : ∀ key q, e.committeeList key = some q →
      (appendCommittee e c).committeeList key = some q := by
    intro key q hq
    unfold appendCommittee
    split
    · exact hq
    · rename_i hnone
      by_cases hk : key = uint64 (e.heap c).id
      · rw [hk] at hq; rw [hq] at hnone; cases hnone
      · simp [hk, hq]
  refine ⟨?_, ?_, hkeep, ?_, hheap⟩
  · intro q hq
    simp [appendCommittee, hq]
  · intro hnone
    constructor
    · simp [appendCommittee, hnone]
    · intro key hk
      simp [appendCommittee, hnone, hk]
  · intro key r hr
    unfold Election.cached at hr ⊢
    cases hq : e.committeeList key with
    | none => rw [hq] at hr; cases hr
    | some q =>
      rw [hq] at hr
      rw [hkeep key q hq, hheap]
      exact hr

/-! ### Pointer validity and `Start` -/

theorem appendCommittee_heap (e : Election) (c : Nat) : (appendCommittee e c).heap = e.heap := by
  unfold appendCommittee; split <;> rfl

theorem appendCommittee_nextPtr (e : Election) (c : Nat) :
    (appendCommittee e c).nextPtr = e.nextPtr := by
  unfold appendCommittee; split <;> rfl

theorem appendCommittee_committee (e : Election) (c : Nat) :
    (appendCommittee e c).committee = e.committee := by
  unfold appendCommittee; split <;> rfl

theorem appendCommittee_nextCommittee (e : Election) (c : Nat) :
    (appendCommittee e c).nextCommittee = e.nextCommittee := by
  unfold appendCommittee; split <;> rfl

theorem appendCommittee_startSwitchover (e : Election) (c : Nat) :
    (appendCommittee e c).startSwitchover = e.startSwitchover := by
  unfold appendCommittee; split <;> rfl

theorem appendCommittee_list_lt (e : Election) (c bound : Nat) (hc : c < bound)
    (h : ∀ key p, e.committeeList key = some p → p < bound) :
    ∀ key p, (appendCommittee e c).committeeList key = some p → p < bound := by
  intro key p hp
  unfold appendCommittee at hp
  split at hp
  · exact h key p hp
  · simp only at hp
    split at hp
    · cases hp; exact hc
    · exact h key p hp

/-- Storing a record and caching its pointer: what the new state holds. -/
theorem store_facts (e : Election) (c : committee) (he : e.PointersValid) :
    (appendCommittee (e.alloc c).2 (e.alloc c).1).PointersValid ∧
    (e.alloc c).1 = e.nextPtr ∧
    (appendCommittee (e.alloc c).2 (e.alloc c).1).nextPtr = e.nextPtr + 1 ∧
    (appendCommittee (e.alloc c).2 (e.alloc c).1).heap e.nextPtr = c ∧
    (∀ p, p < e.nextPtr → (appendCommittee (e.alloc c).2 (e.alloc c).1).heap p = e.heap p) ∧
    (appendCommittee (e.alloc c).2 (e.alloc c).1).committee = e.committee ∧
    (appendCommittee (e.alloc c).2 (e.alloc c).1).nextCommittee = e.nextCommittee ∧
    (appendCommittee (e.alloc c).2 (e.alloc c).1).startSwitchover = e.startSwitchover := by
  obtain ⟨h1, h2, h3⟩ := he
  have hptr : (e.alloc c).1 = e.nextPtr := rfl
  have hnext : (appendCommittee (e.alloc c).2 (e.alloc c).1).nextPtr = e.nextPtr + 1 := by
    rw [appendCommittee_nextPtr]; rfl
  refine ⟨⟨?_, ?_, ?_⟩, hptr, hnext, ?_, ?_, ?_, ?_, ?_⟩
  · intro p hp
    rw [appendCommittee_committee] at hp
    rw [hnext]
    exact Nat.lt_succ_of_lt (h1 p hp)
  · intro p hp
    rw [appendCommittee_nextCommittee] at hp
    rw [hnext]
    exact Nat.lt_succ_of_lt (h2 p hp)
  · rw [hnext]
    apply appendCommittee_list_lt
    · rw [hptr]; exact Nat.lt_succ_self _
    · intro key p hp
      exact Nat.lt_succ_of_lt (h3 key p hp)
  · rw [appendCommittee_heap]; simp [Election.alloc]
  · intro p hp
    rw [appendCommittee_heap]
    have : p ≠ e.nextPtr := by omega
    simp [Election.alloc, this]
  · rw [appendCommittee_committee]; rfl
  · rw [appendCommittee_nextCommittee]; rfl
  · rw [appendCommittee_startSwitchover]; rfl

theorem NewElction_valid (chain : Chain) : (NewElction chain).PointersValid := by
  refine ⟨?_, ?_, ?_⟩ <;> intros <;> simp_all [NewElction]

theorem Start_inv (env : Env) (chain : Chain) (fuel : Nat) (r : StartResult)
    (h : Start env chain fuel (NewElction chain) = .ok r) : r.state.StateInv := by
  unfold Start at h
  simp only at h
  split at h
  · cases h
  · cases h
    exact ⟨NewElction_valid chain, by simp [Election.SwitchInv, Election.next, NewElction]⟩
  · rename_i cur _
    obtain ⟨hA1, hA2, hA3, hA4, hA5, hA6, hA7, hA8⟩ :=
      store_facts (NewElction chain) cur (NewElction_valid chain)
    generalize appendCommittee ((NewElction chain).alloc cur).2 ((NewElction chain).alloc cur).1 = A
      at h hA1 hA3 hA4 hA5 hA6 hA7 hA8
    generalize ((NewElction chain).alloc cur).1 = pA at h hA2
    subst hA2
    have hE1 : ({ A with committee := some (NewElction chain).nextPtr } : Election).PointersValid :=
      ⟨by intro p hp; cases hp; show _ < A.nextPtr; rw [hA3]; exact Nat.lt_succ_self _,
       hA1.2.1, hA1.2.2⟩
    split at h
    · cases h
    · rename_i v hv
      split at h
      · rename_i hpos
        split at h
        · cases h
        · rename_i members _
          obtain ⟨hB1, hB2, hB3, hB4, hB5, hB6, hB7, hB8⟩ :=
            store_facts { A with committee := some (NewElction chain).nextPtr }
              { id := cur.lastElectionNumber + z - z + 1
                beginFastNumber := v + 1
                endFastNumber := some 0
                firstElectionNumber := cur.lastElectionNumber + z - z + 1
                lastElectionNumber := cur.lastElectionNumber + z
                switchCheckNumber := cur.switchCheckNumber + z
                members := members } hE1
          generalize appendCommittee _ _ = B at h hB1 hB3 hB4 hB5 hB6 hB7 hB8
          generalize (Election.alloc _ _).1 = pB at h hB2
          subst hB2
          simp only at hB3 hB4 hB5 hB6 hB7 hB8
          cases h
          by_cases hfast : v = (chain.fastHead : Int)
          · simp only [hfast, if_true]
            refine ⟨⟨?_, ?_, hB1.2.2⟩, ?_, ?_⟩
            · intro p hp
              cases hp
              show _ < B.nextPtr
              rw [hB3]
              exact Nat.lt_succ_self _
            · intro p hp; cases hp
            · simp [Election.next]
            · intro n hn; simp [Election.next] at hn
          · simp only [hfast, if_false]
            refine ⟨⟨?_, ?_, hB1.2.2⟩, ?_, ?_⟩
            · intro p hp
              exact hB1.1 p hp
            · intro p hp
              cases hp
              show _ < B.nextPtr
              rw [hB3]
              exact Nat.lt_succ_self _
            · simp [Election.next]
            · intro n hn
              simp only [Election.next, Option.map_some'] at hn
              cases hn
              refine ⟨cur, v, ?_, hv, ?_, by omega⟩
              · simp only [Election.current, hB6, Option.map_some']
                rw [hB5 _ (by rw [hA3]; exact Nat.lt_succ_self _), hA4]
              · rw [hB4]
      · cases h
        refine ⟨hE1, ?_, ?_⟩
        · simp [Election.next, hA7, NewElction, hA8]
        · intro n hn
          simp [Election.next, hA7, NewElction] at hn

/-! ### The snail-head and fast-head steps -/

theorem appendCommittee_keep (e : Election) (c : Nat) :
    ∀ key q, e.committeeList key = some q →
      (appendCommittee e c).committeeList key = some q := by
  intro key q hq
  unfold appendCommittee
  split
  · exact hq
  · rename_i hnone
    by_cases hk : key = uint64 (e.heap c).id
    · rw [hk] at hq; rw [hq] at hnone; cases hnone
    · simp [hk, hq]

theorem snailHeadStep_trigger (env : Env) (chain : Chain) (fuel : Nat) (e : Election)
    (seBlock sb : SnailBlock) (pc : Nat) (members : List CommitteeMember) (lastFruit : Fruit)
    (hvalid : e.PointersValid) (hc : e.committee = some pc)
    (htrig : (e.heap pc).switchCheckNumber = (seBlock.number : Int))
    (helect : electCommittee env chain fuel (triggerStart seBlock.number)
      ((seBlock.number : Int) - lamada) = .ok members)
    (hsb : chain.snailBlock (uint64 ((seBlock.number : Int) - lamada)) = some sb)
    (hfr : sb.fruits.getLast? = some lastFruit) :
    ∃ r, snailHeadStep env chain fuel e (some seBlock) = .ok r ∧
      r.state.current
        = some { e.heap pc with endFastNumber := some ((lastFruit.number : Int) + k) } ∧
      r.state.next = some (triggerNext seBlock.number (e.heap pc) lastFruit members) ∧
      r.state.startSwitchover = true ∧
      r.events =
        [ { Option := .CommitteeSwitchover, CommitteeID := triggerStart seBlock.number,
            CommitteeMembers := members, BeginFastNumber := none } ] ∧
      r.state.PointersValid ∧
      (∀ key q, e.committeeList key = some q → r.state.committeeList key = some q) ∧
      (e.committeeList (uint64 (triggerStart seBlock.number)) = none →
        r.state.cached (uint64 (triggerStart seBlock.number))
          = some (triggerNext seBlock.number (e.heap pc) lastFruit members)) := by
  have hpc : pc < e.nextPtr := hvalid.1 pc hc
  have hne : pc ≠ e.nextPtr := by omega
  have hne2 : e.nextPtr ≠ pc := by omega
  apply Exists.intro
  refine ⟨?heq, ?h1, ?h2, ?h3, ?h4, ?h5, ?h6, ?h7⟩
  case heq =>
    unfold snailHeadStep
    simp only [hc]
    rw [if_pos htrig]
    simp only [triggerStart] at helect
    simp only [helect, hsb, hfr]
    rfl
  case h1 =>
    simp [Election.current, appendCommittee_committee, appendCommittee_heap, Election.alloc,
      hc, hne]
  case h2 =>
    simp [Election.next, appendCommittee_heap, Election.alloc, triggerNext, triggerStart]
  case h3 => rfl
  case h4 => simp [committee.Members, triggerStart]
  case h5 =>
    refine ⟨?_, ?_, ?_⟩
    · intro p hp
      simp only [appendCommittee_committee, Election.alloc, hc] at hp
      cases hp
      simp only [appendCommittee_nextPtr, Election.alloc]
      omega
    · intro p hp
      cases hp
      simp only [appendCommittee_nextPtr, Election.alloc]
      omega
    · simp only [appendCommittee_nextPtr, Election.alloc]
      apply appendCommittee_list_lt
      · omega
      · intro key p hp
        have := hvalid.2.2 key p hp
        omega
  case h6 =>
    intro key q hq
    exact appendCommittee_keep _ _ key q hq
  case h7 =>
    intro hnone
    simp only [triggerStart] at hnone
    simp [Election.cached, appendCommittee, Election.alloc, hnone, triggerNext, triggerStart]

theorem snailHeadStep_other (env : Env) (chain : Chain) (fuel : Nat) (e : Election)
    (seBlock : SnailBlock) (pc : Nat) (hc : e.committee = some pc)
    (hother : (e.heap pc).switchCheckNumber ≠ (seBlock.number : Int)) :
    snailHeadStep env chain fuel e (some seBlock) = .ok { state := e, events := [] } := by
  simp [snailHeadStep, hc, hother]

theorem snailHeadStep_inv (env : Env) (chain : Chain) (fuel : Nat) (e : Election)
    (block : Option SnailBlock) (r : StepResult) (hinv : e.StateInv)
    (h : snailHeadStep env chain fuel e block = .ok r) : r.state.StateInv := by
  cases block with
  | none => simp [snailHeadStep] at h; subst h; exact hinv
  | some seBlock =>
    cases hc : e.committee with
    | none => simp [snailHeadStep, hc] at h
    | some pc =>
      by_cases htrig : (e.heap pc).switchCheckNumber = (seBlock.number : Int)
      · cases helect : electCommittee env chain fuel (triggerStart seBlock.number)
            ((seBlock.number : Int) - lamada) with
        | error f =>
          simp only [triggerStart] at helect
          simp [snailHeadStep, hc, htrig, helect] at h
        | ok members =>
          cases hsb : chain.snailBlock (uint64 ((seBlock.number : Int) - lamada)) with
          | none =>
            simp only [triggerStart] at helect
            simp [snailHeadStep, hc, htrig, helect, hsb] at h
          | some sb =>
            cases hfr : sb.fruits.getLast? with
            | none =>
              simp only [triggerStart] at helect
              simp [snailHeadStep, hc, htrig, helect, hsb, hfr] at h
            | some lastFruit =>
              obtain ⟨r2, hr2, hcur, hnext, hsw, _, hval, _, _⟩ :=
                snailHeadStep_trigger env chain fuel e seBlock sb pc members lastFruit
                  hinv.1 hc htrig helect hsb hfr
              rw [hr2] at h
              cases h
              refine ⟨hval, ?_, ?_⟩
              · simp [hnext, hsw]
              · intro n hn
                rw [hnext] at hn
                cases hn
                refine ⟨_, _, hcur, rfl, rfl, ?_⟩
                unfold k
                omega
      · rw [snailHeadStep_other env chain fuel e seBlock pc hc htrig] at h
        cases h
        exact hinv

theorem fastHeadStep_inv (e : Election) (block : Option FastBlock) (r : StepResult)
    (hinv : e.StateInv) (h : fastHeadStep e block = .ok r) : r.state.StateInv := by
  unfold fastHeadStep at h
  split at h
  · cases h; exact hinv
  · split at h
    · split at h
      · cases h
      · split at h
        · cases h
        · split at h
          · split at h
            · cases h
            · rename_i pn hpn
              cases h
              refine ⟨⟨?_, ?_, hinv.1.2.2⟩, ?_, ?_⟩
              · intro p hp
                cases hp
                exact hinv.1.2.1 _ hpn
              · intro p hp; cases hp
              · simp [Election.next]
              · intro n hn; simp [Election.next] at hn
          · cases h; exact hinv
    · cases h; exact hinv

/-! ### The branches of `getCommittee` -/

/-- The branches through which `getCommittee` returns a record. -/
theorem getCommittee_cases (env : Env) (chain : Chain) (e : Election) (fuel : Nat)
    (f s : Int) (c : committee) (h : getCommittee env chain e fuel f s = .ok (some c)) :
    (s / z = 0 ∧ c =
      { id := 0, beginFastNumber := 1, endFastNumber := some 0, firstElectionNumber := 0,
        lastElectionNumber := 0, switchCheckNumber := z, members := e.genesisCommittee }) ∨
    (s / z ≠ 0 ∧ ∃ blk fr, chain.snailBlock (uint64 (s / z * z - lamada)) = some blk ∧
      blk.fruits.getLast? = some fr ∧
      ((f ≤ (fr.number : Int) + k ∧ s / z = 1 ∧ c =
          { id := 0, beginFastNumber := 1, endFastNumber := some ((fr.number : Int) + k),
            firstElectionNumber := 0, lastElectionNumber := 0, switchCheckNumber := z,
            members := e.genesisCommittee }) ∨
       (f ≤ (fr.number : Int) + k ∧ s / z ≠ 1 ∧ ∃ blk2 fr2 members,
          chain.snailBlock (uint64 (s / z * z - lamada - z)) = some blk2 ∧
          blk2.fruits.getLast? = some fr2 ∧
          electCommittee env chain fuel
            (if s / z * z - lamada - z - z + 1 ≤ 0 then 1 else s / z * z - lamada - z - z + 1)
            (s / z * z - lamada - z) = .ok members ∧
          c =
            { id := s / z - 1, beginFastNumber := (fr2.fastNumber : Int) + k + 1,
              endFastNumber := some ((fr.number : Int) + k),
              firstElectionNumber :=
                if s / z * z - lamada - z - z + 1 ≤ 0 then 1 else s / z * z - lamada - z - z + 1,
              lastElectionNumber := s / z * z - lamada - z,
              switchCheckNumber := s / z * z, members := members }) ∨
       ((fr.number : Int) + k < f ∧ ∃ members,
          electCommittee env chain fuel (s / z * z - lamada - z + 1) (s / z * z - lamada)
            = .ok members ∧
          c =
            { id := s / z, beginFastNumber := (fr.number : Int) + k + 1,
              endFastNumber := some 0,
              firstElectionNumber := s / z * z - lamada - z + 1,
              lastElectionNumber := s / z * z - lamada,
              switchCheckNumber := s / z * z + z, members := members }))) := by
  unfold getCommittee at h
  simp only at h
  split at h
  · rename_i h0
    left
    simp only [Except.ok.injEq, Option.some.injEq] at h
    exact ⟨h0, h.symm⟩
  · rename_i h0
    right
    refine ⟨h0, ?_⟩
    split at h
    · simp at h
    · rename_i blk hblk
      split at h
      · cases h
      · rename_i fr hfr
        refine ⟨blk, fr, hblk, hfr, ?_⟩
        split at h
        · rename_i hle
          split at h
          · rename_i h1
            left
            simp only [Except.ok.injEq, Option.some.injEq] at h
            exact ⟨hle, h1, h.symm⟩
          · rename_i h1
            right; left
            split at h
            · cases h
            · rename_i blk2 hblk2
              split at h
              · cases h
              · rename_i fr2 hfr2
                split at h
                · cases h
                · rename_i members hmem
                  simp only [Except.ok.injEq, Option.some.injEq] at h
                  exact ⟨hle, h1, blk2, fr2, members, hblk2, hfr2, hmem, h.symm⟩
        · rename_i hlt
          right; right
          split at h
          · cases h
          · rename_i members hmem
            simp only [Except.ok.injEq, Option.some.injEq] at h
            exact ⟨by omega, members, hmem, h.symm⟩

/-- C12, as the code has it: for every snail height with `epoch = s / Z ≥ 2` and
`last_snail = epoch · Z` for which `getCommittee` returns a record, the windows
are those of the spec shifted down by `LAMADA`: a "still in previous epoch"
record has `first_election_snail = max(1, last_snail − LAMADA − 2Z + 1)` and
`last_election_snail = last_snail − LAMADA − Z` (and its `begin_fast` is derived
from the snail block at that height); an "in current epoch" record has
`first_election_snail = last_snail − LAMADA − Z + 1`, which is at least 1, and
`last_election_snail = last_snail − LAMADA`. -/
theorem getCommittee_election_window (env : Env) (chain : Chain) (e : Election) (fuel : Nat)
    (f s : Int) (c : committee) (hs : 1440 ≤ s)
    (h : getCommittee env chain e fuel f s = .ok (some c)) :
    ∃ blk fr, chain.snailBlock (uint64 (s / 1440 * 1440 - 12)) = some blk ∧
      blk.fruits.getLast? = some fr ∧
      (f ≤ (fr.number : Int) + 1000 → 2 ≤ s / 1440 →
        c.firstElectionNumber = max 1 (s / 1440 * 1440 - 12 - 2 * 1440 + 1) ∧
        c.lastElectionNumber = s / 1440 * 1440 - 12 - 1440 ∧
        ∃ blk2 fr2, chain.snailBlock (uint64 (s / 1440 * 1440 - 12 - 1440)) = some blk2 ∧
          blk2.fruits.getLast? = some fr2 ∧
          c.beginFastNumber = (fr2.fastNumber : Int) + 1000 + 1) ∧
      ((fr.number : Int) + 1000 < f → 2 ≤ s / 1440 →
        c.firstElectionNumber = s / 1440 * 1440 - 12 - 1440 + 1 ∧
        1 ≤ c.firstElectionNumber ∧
        c.lastElectionNumber = s / 1440 * 1440 - 12) := by
  have hepoch : 1 ≤ s / 1440 := by omega
  rcases getCommittee_cases env chain e fuel f s c h with ⟨h0, _⟩ | ⟨_, blk, fr, hblk, hfr, hc⟩
  · unfold z at h0; omega
  · simp only [z, lamada, k] at hblk hc
    refine ⟨blk, fr, hblk, hfr, ?_, ?_⟩
    · intro hle h2
      rcases hc with ⟨_, h1, _⟩ | ⟨_, _, blk2, fr2, members, hblk2, hfr2, _, hc⟩ | ⟨hlt, _⟩
      · omega
      · subst hc
        refine ⟨?_, rfl, blk2, fr2, hblk2, hfr2, rfl⟩
        simp only
        by_cases hclamp : s / 1440 * 1440 - 12 - 1440 - 1440 + 1 ≤ 0
        · rw [if_pos hclamp, max_eq_left (by omega)]
        · rw [if_neg hclamp, max_eq_right (by omega)]
          omega
      · omega
    · intro hlt h2
      rcases hc with ⟨hle, _⟩ | ⟨hle, _⟩ | ⟨_, members, _, hc⟩
      · omega
      · omega
      · subst hc
        exact ⟨rfl, by simp only; omega, rfl⟩

/-- The range tests `getCommittee` does make: the record it returns has
`end_fast = 0` or `f ≤ end_fast`, and `begin_fast ≤ f` outside the
previous-epoch branch of an epoch `≥ 2` (id `epoch − 1`), whose `begin_fast` is
not compared with `f`. -/
theorem getCommittee_range (env : Env) (chain : Chain) (e : Election) (fuel : Nat)
    (f s : Int) (c : committee) (hf : 1 ≤ f) (hs : 0 ≤ s)
    (h : getCommittee env chain e fuel f s = .ok (some c)) :
    (∃ v, c.endFastNumber = some v ∧ (v = 0 ∨ f ≤ v)) ∧
    ((2 ≤ s / 1440 ∧ c.id = s / 1440 - 1) ∨ c.beginFastNumber ≤ f) := by
  have hepoch : 0 ≤ s / 1440 := by omega
  rcases getCommittee_cases env chain e fuel f s c h with ⟨_, hc⟩ | ⟨h0, blk, fr, _, _, hc⟩
  · subst hc
    exact ⟨⟨0, rfl, Or.inl rfl⟩, Or.inr hf⟩
  · simp only [z, lamada, k] at h0 hc
    rcases hc with ⟨hle, _, hc⟩ | ⟨hle, h1, _, _, _, _, _, _, hc⟩ | ⟨hlt, _, _, hc⟩
    · subst hc
      exact ⟨⟨_, rfl, Or.inr hle⟩, Or.inr hf⟩
    · subst hc
      exact ⟨⟨_, rfl, Or.inr hle⟩, Or.inl ⟨by omega, rfl⟩⟩
    · subst hc
      exact ⟨⟨0, rfl, Or.inl rfl⟩, Or.inr (by simp only; omega)⟩

/-! ### Scanning a snail block range -/

theorem uint64_add_one (b : Int) (j : Nat) :
    uint64 (b + 1 + (j : Int)) = uint64 (b + ((j + 1 : Nat) : Int)) := by
  congr 1
  push_cast
  ring

theorem scanBlocks_missing (env : Env) (chain : Chain) :
    ∀ (n : Nat) (b : Int) (seed : List Nat) (ms : List candidateMember)
      (cnt : Address → Option Nat) (j : Nat), j < n →
      chain.snailBlock (uint64 (b + (j : Int))) = none →
      scanBlocks env chain n b seed ms cnt = none := by
  intro n
  induction n with
  | zero => intro b seed ms cnt j hj; omega
  | succ n ih =>
    intro b seed ms cnt j hj hmiss
    unfold scanBlocks
    cases hb : chain.snailBlock (uint64 b) with
    | none => rfl
    | some blk =>
      cases j with
      | zero => simp [hb] at hmiss
      | succ j2 =>
        simp only
        apply ih _ _ _ _ j2 (by omega)
        rw [uint64_add_one]
        exact hmiss

theorem electCommittee_missing (env : Env) (chain : Chain) (fuel : Nat) (first last m : Int)
    (h1 : first ≤ m) (h2 : m ≤ last) (hmiss : chain.snailBlock (uint64 m) = none) :
    electCommittee env chain fuel first last = .ok [] := by
  have hscan := scanBlocks_missing env chain (last - first + 1).toNat first [] []
    (fun _ => none) (m - first).toNat (by omega)
    (by rw [Int.toNat_of_nonneg (by omega)]; simpa using hmiss)
  simp [electCommittee, getCandinates, hscan]

theorem scanBlocks_empty_run (env : Env) (chain : Chain) :
    ∀ (n : Nat) (b : Int) (seed : List Nat) (ms : List candidateMember)
      (cnt : Address → Option Nat),
      (∀ j : Nat, j < n →
        ∃ blk, chain.snailBlock (uint64 (b + (j : Int))) = some blk ∧ blk.fruits = []) →
      ∃ seed2, scanBlocks env chain n b seed ms cnt = some (seed2, ms, cnt) := by
  intro n
  induction n with
  | zero => intro b seed ms cnt _; exact ⟨seed, rfl⟩
  | succ n ih =>
    intro b seed ms cnt h
    obtain ⟨blk, hblk, hfr⟩ := h 0 (by omega)
    simp only [Nat.cast_zero, add_zero] at hblk
    obtain ⟨seed2, hs⟩ := ih (b + 1) (seed ++ blk.hash.Bytes) ms cnt (by
      intro j hj
      rw [uint64_add_one]
      exact h (j + 1) (by omega))
    refine ⟨seed2, ?_⟩
    rw [scanBlocks]
    simp only [hblk, hfr, scanFruits]
    exact hs

theorem scanBlocks_split (env : Env) (chain : Chain) (m : Nat) :
    ∀ (n : Nat) (b : Int) (seed : List Nat) (ms : List candidateMember)
      (cnt : Address → Option Nat),
      scanBlocks env chain (n + m) b seed ms cnt =
        match scanBlocks env chain n b seed ms cnt with
        | none => none
        | some (seed2, ms2, cnt2) => scanBlocks env chain m (b + (n : Int)) seed2 ms2 cnt2 := by
  intro n
  induction n with
  | zero => intro b seed ms cnt; simp [scanBlocks]
  | succ n ih =>
    intro b seed ms cnt
    rw [Nat.succ_add, scanBlocks, scanBlocks]
    cases hb : chain.snailBlock (uint64 b) with
    | none => rfl
    | some blk =>
      simp only
      rw [ih]
      have : b + 1 + (n : Int) = b + ((n + 1 : Nat) : Int) := by push_cast; ring
      rw [this]

/-- The election over a range whose blocks are all empty except the last one,
under a hash that does not depend on its input. -/
theorem electCommittee_last_only (env : Env) (chain : Chain) (fuel : Nat) (b : Int) (n : Nat)
    (blk : SnailBlock) (h0 : Hash) (hk : ∀ x, env.Keccak256Hash x = h0)
    (hempty : ∀ j : Nat, j < n →
      ∃ blk2, chain.snailBlock (uint64 (b + (j : Int))) = some blk2 ∧ blk2.fruits = [])
    (hlast : chain.snailBlock (uint64 (b + (n : Int))) = some blk) :
    electCommittee env chain fuel b (b + (n : Int)) =
      match assignIntervals
          (retainLoop (scanFruits env blk.fruits [] (fun _ => none)).2
            (scanFruits env blk.fruits [] (fun _ => none)).1 0 []).2
          (retainLoop (scanFruits env blk.fruits [] (fun _ => none)).2
            (scanFruits env blk.fruits [] (fun _ => none)).1 0 []).1 with
      | .error f => .error f
      | .ok cands => if cands = [] then .ok [] else elect env fuel cands h0 := by
  obtain ⟨seed2, hs⟩ := scanBlocks_empty_run env chain n b [] [] (fun _ => none) hempty
  have hcount : (b + (n : Int) - b + 1).toNat = n + 1 := by omega
  have hscan : scanBlocks env chain (n + 1) b [] [] (fun _ => none)
      = some (seed2 ++ blk.hash.Bytes, (scanFruits env blk.fruits [] (fun _ => none)).1,
          (scanFruits env blk.fruits [] (fun _ => none)).2) := by
    rw [scanBlocks_split, hs]
    simp only [scanBlocks, hlast]
  unfold electCommittee getCandinates
  rw [hcount, hscan]
  simp only
  cases assignIntervals
      (retainLoop (scanFruits env blk.fruits [] (fun _ => none)).2
        (scanFruits env blk.fruits [] (fun _ => none)).1 0 []).2
      (retainLoop (scanFruits env blk.fruits [] (fun _ => none)).2
        (scanFruits env blk.fruits [] (fun _ => none)).1 0 []).1 with
  | error f => rfl
  | ok cands => simp only [hk]

theorem sampleChain3_empty (m : Nat) (h1 : m ≤ 2900) (h2 : m % 1440 ≠ 1428) :
    ∃ blk, sampleChain3.snailBlock m = some blk ∧ blk.fruits = [] :=
  ⟨_, by simp [sampleChain3, h1]; rfl, by simp [h2]⟩

set_option maxRecDepth 8000 in
theorem electCommittee_sample_first :
    electCommittee sampleEnv sampleChain3 40 1 1428
      = .ok [{ Coinbase := 103, Publickey := sampleKey3 }] := by
  have h := electCommittee_last_only sampleEnv sampleChain3 40 1 1427
    { number := 1428, hash := Hash.zero, fruits := [sampleFruit2 1428] } Hash.zero
    (fun _ => rfl)
    (by
      intro j hj
      have hu : uint64 (1 + (j : Int)) = 1 + j := by unfold uint64; omega
      rw [hu]
      exact sampleChain3_empty (1 + j) (by omega) (by omega))
    rfl
  exact h.trans rfl

set_option maxRecDepth 8000 in
theorem electCommittee_sample_second :
    electCommittee sampleEnv sampleChain3 40 1429 2868
      = .ok [{ Coinbase := 103, Publickey := sampleKey3 }] := by
  have h := electCommittee_last_only sampleEnv sampleChain3 40 1429 1439
    { number := 2868, hash := Hash.zero, fruits := [sampleFruit2 2868] } Hash.zero
    (fun _ => rfl)
    (by
      intro j hj
      have hu : uint64 (1429 + (j : Int)) = 1429 + j := by unfold uint64; omega
      rw [hu]
      exact sampleChain3_empty (1429 + j) (by omega) (by omega))
    rfl
  exact h.trans rfl

/-- The previous-epoch branch of `getCommittee` for an epoch of at least 2. -/
theorem getCommittee_previous (env : Env) (chain : Chain) (e : Election) (fuel : Nat)
    (f s : Int) (blk blk2 : SnailBlock) (fr fr2 : Fruit) (members : List CommitteeMember)
    (h2 : 2 ≤ s / 1440)
    (hblk : chain.snailBlock (uint64 (s / 1440 * 1440 - 12)) = some blk)
    (hfr : blk.fruits.getLast? = some fr) (hle : f ≤ (fr.number : Int) + 1000)
    (hblk2 : chain.snailBlock (uint64 (s / 1440 * 1440 - 12 - 1440)) = some blk2)
    (hfr2 : blk2.fruits.getLast? = some fr2)
    (helect : electCommittee env chain fuel (max 1 (s / 1440 * 1440 - 12 - 1440 - 1440 + 1))
      (s / 1440 * 1440 - 12 - 1440) = .ok members) :
    getCommittee env chain e fuel f s = .ok (some
      { id := s / 1440 - 1
        beginFastNumber := (fr2.fastNumber : Int) + 1000 + 1
        endFastNumber := some ((fr.number : Int) + 1000)
        firstElectionNumber := max 1 (s / 1440 * 1440 - 12 - 1440 - 1440 + 1)
        lastElectionNumber := s / 1440 * 1440 - 12 - 1440
        switchCheckNumber := s / 1440 * 1440
        members := members }) := by
  have h0 : ¬ (s / 1440 = 0) := by omega
  have h1 : ¬ (s / 1440 = 1) := by omega
  have hmax : (if s / 1440 * 1440 - 12 - 1440 - 1440 + 1 ≤ 0 then (1 : Int)
      else s / 1440 * 1440 - 12 - 1440 - 1440 + 1)
      = max 1 (s / 1440 * 1440 - 12 - 1440 - 1440 + 1) := by
    split
    · rw [max_eq_left (by omega)]
    · rw [max_eq_right (by omega)]
  unfold getCommittee
  simp only [z, lamada, k, h0, h1, if_false, hblk, hfr, hle, ge_iff_le, if_true, hblk2, hfr2,
    hmax, helect]

/-- The current-epoch branch of `getCommittee`. -/
theorem getCommittee_current (env : Env) (chain : Chain) (e : Election) (fuel : Nat)
    (f s : Int) (blk : SnailBlock) (fr : Fruit) (members : List CommitteeMember)
    (h1 : 1 ≤ s / 1440)
    (hblk : chain.snailBlock (uint64 (s / 1440 * 1440 - 12)) = some blk)
    (hfr : blk.fruits.getLast? = some fr) (hlt : (fr.number : Int) + 1000 < f)
    (helect : electCommittee env chain fuel (s / 1440 * 1440 - 12 - 1440 + 1)
      (s / 1440 * 1440 - 12) = .ok members) :
    getCommittee env chain e fuel f s = .ok (some
      { id := s / 1440
        beginFastNumber := (fr.number : Int) + 1000 + 1
        endFastNumber := some 0
        firstElectionNumber := s / 1440 * 1440 - 12 - 1440 + 1
        lastElectionNumber := s / 1440 * 1440 - 12
        switchCheckNumber := s / 1440 * 1440 + 1440
        members := members }) := by
  have h0 : ¬ (s / 1440 = 0) := by omega
  have hle : ¬ (f ≤ (fr.number : Int) + 1000) := by omega
  unfold getCommittee
  simp only [z, lamada, k, h0, if_false, hblk, hfr, hle, ge_iff_le, helect]

/-- The id-1 record `getCommittee` computes on `sampleChain3` for a fast height
up to 3868 at snail height 2900. -/
theorem getCommittee_sample_previous (f : Int) (hf : f ≤ 3868) :
    getCommittee sampleEnv sampleChain3 (NewElction sampleChain3) 40 f 2900 = .ok (some
      { id := 1, beginFastNumber := 3857, endFastNumber := some 3868, firstElectionNumber := 1,
        lastElectionNumber := 1428, switchCheckNumber := 2880,
        members := [{ Coinbase := 103, Publickey := sampleKey3 }] }) :=
  getCommittee_previous sampleEnv sampleChain3 (NewElction sampleChain3) 40 f 2900
    { number := 2868, hash := Hash.zero, fruits := [sampleFruit2 2868] }
    { number := 1428, hash := Hash.zero, fruits := [sampleFruit2 1428] }
    (sampleFruit2 2868) (sampleFruit2 1428) [{ Coinbase := 103, Publickey := sampleKey3 }]
    (by decide) rfl rfl hf rfl rfl electCommittee_sample_first

/-- The id-2 record `getCommittee` computes on `sampleChain3` for a fast height
above 3868 at snail height 2900. -/
theorem getCommittee_sample_current (f : Int) (hf : 3868 < f) :
    getCommittee sampleEnv sampleChain3 (NewElction sampleChain3) 40 f 2900 = .ok (some
      { id := 2, beginFastNumber := 3869, endFastNumber := some 0, firstElectionNumber := 1429,
        lastElectionNumber := 2868, switchCheckNumber := 4320,
        members := [{ Coinbase := 103, Publickey := sampleKey3 }] }) :=
  getCommittee_current sampleEnv sampleChain3 (NewElction sampleChain3) 40 f 2900
    { number := 2868, hash := Hash.zero, fruits := [sampleFruit2 2868] }
    (sampleFruit2 2868) [{ Coinbase := 103, Publickey := sampleKey3 }]
    (by decide) rfl rfl hf electCommittee_sample_second

/-! ### The switchover invariant and the fast-head step -/

theorem sampleSwitching_inv : sampleSwitching.StateInv := by
  refine ⟨⟨?_, ?_, ?_⟩, ?_, ?_⟩
  · intro p hp; cases hp; decide
  · intro p hp; cases hp; decide
  · intro key p hp
    simp only [sampleSwitching] at hp
    split at hp
    · cases hp; decide
    · split at hp
      · cases hp; decide
      · cases hp
  · simp [Election.next, sampleSwitching]
  · intro n hn
    refine ⟨_, 15000, rfl, rfl, ?_, by decide⟩
    simp [Election.next, sampleSwitching] at hn
    subst hn
    rfl

theorem sampleStarted_inv : sampleStarted.StateInv :=
  Start_inv sampleEnv sampleChain 40
    { state := sampleStarted, events := startEvents sampleStarted, loopStarted := true } rfl

/-- The snail-head step on the sample chain: trigger block 1440 in the state
`Start` left on the genesis chain. -/
theorem sampleTrigger_step :
    ∃ r, snailHeadStep sampleEnv sampleChain3 40 sampleStarted (some sampleTrigger) = .ok r ∧
      r.state.current
        = some { sampleStarted.heap 0 with
                 endFastNumber := some (((sampleFruit2 1428).number : Int) + k) } ∧
      r.state.next = some (triggerNext sampleTrigger.number (sampleStarted.heap 0)
        (sampleFruit2 1428) [{ Coinbase := 103, Publickey := sampleKey3 }]) ∧
      r.state.startSwitchover = true ∧
      r.events =
        [ { Option := .CommitteeSwitchover, CommitteeID := triggerStart sampleTrigger.number,
            CommitteeMembers := [{ Coinbase := 103, Publickey := sampleKey3 }],
            BeginFastNumber := none } ] := by
  obtain ⟨r, hr, h1, h2, h3, h4, _⟩ :=
    snailHeadStep_trigger sampleEnv sampleChain3 40 sampleStarted sampleTrigger
      { number := 1428, hash := Hash.zero, fruits := [sampleFruit2 1428] } 0
      [{ Coinbase := 103, Publickey := sampleKey3 }] (sampleFruit2 1428)
      sampleStarted_inv.1 rfl rfl electCommittee_sample_first rfl rfl
  exact ⟨r, hr, h1, h2, h3, h4⟩

/-- C17: the predicate "next is set iff switching is true, and whenever next is
set, `next.begin_fast = current.end_fast + 1` and `current.end_fast ≠ 0`"
(`SwitchInv`, here together with the validity of the pointers of the state)
holds in the state `Start` produces and is preserved by every snail-head step
and every fast-head step that does not end in a panic. -/
theorem switchover_invariant (env : Env) (chain : Chain) (fuel : Nat) :
    (∀ r, Start env chain fuel (NewElction chain) = .ok r → r.state.StateInv) ∧
    (∀ (e : Election) (block : Option SnailBlock) (r : StepResult), e.StateInv →
      snailHeadStep env chain fuel e block = .ok r → r.state.StateInv) ∧
    (∀ (e : Election) (block : Option FastBlock) (r : StepResult), e.StateInv →
      fastHeadStep e block = .ok r → r.state.StateInv) :=
  ⟨fun r h => Start_inv env chain fuel r h,
   fun e block r hinv h => snailHeadStep_inv env chain fuel e block r hinv h,
   fun e block r hinv h => fastHeadStep_inv e block r hinv h⟩

theorem switchover_invariant_witness :
    (∃ r, Start sampleEnv sampleChain 40 (NewElction sampleChain) = .ok r ∧
      r.state.StateInv) ∧
    (∃ r, snailHeadStep sampleEnv sampleChain3 40 sampleStarted (some sampleTrigger) = .ok r ∧
      r.state.startSwitchover = true ∧ r.state.StateInv) ∧
    (∃ r, fastHeadStep sampleSwitching (some { number := 15000, hash := Hash.zero }) = .ok r ∧
      r.state.startSwitchover = false ∧ r.state.StateInv) := by
  obtain ⟨r, hr, _, _, hsw, _⟩ := sampleTrigger_step
  exact
    ⟨⟨_, rfl, (switchover_invariant sampleEnv sampleChain 40).1 _ rfl⟩,
     ⟨r, hr, hsw,
      (switchover_invariant sampleEnv sampleChain3 40).2.1 sampleStarted (some sampleTrigger) r
        sampleStarted_inv hr⟩,
     ⟨_, rfl, rfl,
      (switchover_invariant sampleEnv sampleChain3 40).2.2 sampleSwitching
        (some { number := 15000, hash := Hash.zero }) _ sampleSwitching_inv rfl⟩⟩

/-- C18: for every state with switching true, current and next set, and every
fast block `B` with `B.number = current.end_fast`, the fast-head step emits
`Stop(old current id, old current members)` and then
`Start(old next id, old next members, old next begin_fast)`, and ends with
current = old next, next unset and switching false; for every other fast-head
event (switching false, or `B.number ≠ current.end_fast`) it emits nothing and
leaves the state unchanged. -/
theorem fastHeadStep_switch (e : Election) (evBlock : FastBlock) :
    (∀ c n : committee, e.startSwitchover = true → e.current = some c → e.next = some n →
      c.endFastNumber = some (evBlock.number : Int) →
      ∃ r, fastHeadStep e (some evBlock) = .ok r ∧
        r.events =
          [ { Option := .CommitteeStop, CommitteeID := c.id, CommitteeMembers := c.members,
              BeginFastNumber := none },
            { Option := .CommitteeStart, CommitteeID := n.id, CommitteeMembers := n.members,
              BeginFastNumber := some n.beginFastNumber } ] ∧
        r.state.current = some n ∧ r.state.next = none ∧ r.state.startSwitchover = false) ∧
    (e.startSwitchover = false ∨
        (∃ c v, e.current = some c ∧ c.endFastNumber = some v ∧ v ≠ (evBlock.number : Int)) →
      fastHeadStep e (some evBlock) = .ok { state := e, events := [] }) := by
  constructor
  · intro c n hsw hc hn hend
    cases hpc : e.committee with
    | none => simp [Election.current, hpc] at hc
    | some pc =>
      cases hpn : e.nextCommittee with
      | none => simp [Election.next, hpn] at hn
      | some pn =>
        simp only [Election.current, hpc, Option.map_some', Option.some.injEq] at hc
        simp only [Election.next, hpn, Option.map_some', Option.some.injEq] at hn
        rw [← hc] at hend
        refine ⟨_, by simp [fastHeadStep, hsw, hpc, hend, hpn]; rfl, ?_, ?_, ?_, ?_⟩
        · simp [committee.Members, hc, hn]
        · simp [Election.current, hn]
        · rfl
        · rfl
  · intro h
    rcases h with hsw | ⟨c, v, hc, hv, hne⟩
    · simp [fastHeadStep, hsw]
    · cases hpc : e.committee with
      | none => simp [Election.current, hpc] at hc
      | some pc =>
        simp only [Election.current, hpc, Option.map_some', Option.some.injEq] at hc
        rw [← hc] at hv
        by_cases hsw : e.startSwitchover = true
        · simp [fastHeadStep, hsw, hpc, hv, hne]
        · simp [fastHeadStep, hsw]

/-! ### The snail-head step at the trigger -/

theorem fastHeadStep_switch_witness :
    (∃ r, fastHeadStep sampleSwitching (some { number := 15000, hash := Hash.zero }) = .ok r ∧
      r.events =
        [ { Option := .CommitteeStop, CommitteeID := 0,
            CommitteeMembers := [sampleMember1, sampleMember2], BeginFastNumber := none },
          { Option := .CommitteeStart, CommitteeID := 1, CommitteeMembers := [sampleMember1],
            BeginFastNumber := some 15001 } ] ∧
      r.state.current = some (sampleSwitching.heap 1) ∧ r.state.next = none ∧
      r.state.startSwitchover = false) ∧
    fastHeadStep sampleSwitching (some { number := 14999, hash := Hash.zero })
      = .ok { state := sampleSwitching, events := [] } :=
  ⟨(fastHeadStep_switch sampleSwitching { number := 15000, hash := Hash.zero }).1
      (sampleSwitching.heap 0) (sampleSwitching.heap 1) rfl rfl rfl rfl,
   (fastHeadStep_switch sampleSwitching { number := 14999, hash := Hash.zero }).2
      (Or.inr ⟨sampleSwitching.heap 0, 15000, rfl, rfl, by decide⟩)⟩

theorem triggerStart_eq_max (n : Nat) (h : ∃ m : Int, (n : Int) = m * 1440) :
    triggerStart n = max 1 ((n : Int) - 12 - 1440) := by
  obtain ⟨m, hm⟩ := h
  unfold triggerStart lamada z
  by_cases h1 : (n : Int) - 12 < 1440
  · rw [if_pos h1, max_eq_left (by omega)]
  · rw [if_neg h1, max_eq_right (by omega)]

/-- The snail-head step on a valid state whose current record has a switch-check
height that is a multiple of `Z`.  For a snail block `B` with
`B.number = current.switch_check_snail`, when the election over `[start..end]`
returns and the block at `end` is present and has a fruit, the step elects from
`[start..end]` with `end = B.number − LAMADA` and `start = max(1, end − Z)`,
records them in next, sets `next.begin_fast = current.end_fast + 1` (the end
just sealed) and `next.switch_check_snail = current.switch_check_snail + Z`,
sets switching true and emits one `Switchover(next)`; for a snail block with
any other number it emits nothing and leaves the state unchanged. -/
theorem snailHeadStep_switchover (env : Env) (chain : Chain) (fuel : Nat) (e : Election)
    (seBlock : SnailBlock) (c : committee) (hvalid : e.PointersValid)
    (hcur : e.current = some c) :
    (c.switchCheckNumber = (seBlock.number : Int) →
      (∃ m : Int, c.switchCheckNumber = m * 1440) →
      ∀ (members : List CommitteeMember) (sb : SnailBlock) (lastFruit : Fruit),
        electCommittee env chain fuel (max 1 ((seBlock.number : Int) - 12 - 1440))
          ((seBlock.number : Int) - 12) = .ok members →
        chain.snailBlock (uint64 ((seBlock.number : Int) - 12)) = some sb →
        sb.fruits.getLast? = some lastFruit →
        ∃ r n c1 v, snailHeadStep env chain fuel e (some seBlock) = .ok r ∧
          r.state.next = some n ∧ r.state.current = some c1 ∧
          n.firstElectionNumber = max 1 ((seBlock.number : Int) - 12 - 1440) ∧
          n.lastElectionNumber = (seBlock.number : Int) - 12 ∧
          n.members = members ∧
          c1.endFastNumber = some v ∧ n.beginFastNumber = v + 1 ∧
          n.switchCheckNumber = c.switchCheckNumber + 1440 ∧
          r.state.startSwitchover = true ∧
          r.events =
            [ { Option := .CommitteeSwitchover, CommitteeID := n.id,
                CommitteeMembers := n.members, BeginFastNumber := none } ]) ∧
    (c.switchCheckNumber ≠ (seBlock.number : Int) →
      snailHeadStep env chain fuel e (some seBlock) = .ok { state := e, events := [] }) := by
  cases hpc : e.committee with
  | none => simp [Election.current, hpc] at hcur
  | some pc =>
    simp only [Election.current, hpc, Option.map_some', Option.some.injEq] at hcur
    subst hcur
    constructor
    · intro htrig hz members sb lastFruit helect hsb hfr
      have hstart := triggerStart_eq_max seBlock.number (by rw [← htrig]; exact hz)
      obtain ⟨r, hr, h1, h2, h3, h4, _, _, _⟩ :=
        snailHeadStep_trigger env chain fuel e seBlock sb pc members lastFruit hvalid hpc htrig
          (by rw [hstart]; simpa [lamada] using helect) (by simpa [lamada] using hsb) hfr
      refine ⟨r, _, _, _, hr, h2, h1, ?_, ?_, rfl, rfl, rfl, ?_, h3, ?_⟩
      · simp [triggerNext, hstart]
      · simp [triggerNext, lamada]
      · simp [triggerNext, z]
      · rw [h4]
        simp [triggerNext]
    · intro hother
      exact snailHeadStep_other env chain fuel e seBlock pc hpc hother

/-- The snail-head step when a snail block of the election range is missing
while the block at the end of the range is present with a fruit: the election
yields no members, and the step seals `current.end_fast`, builds next with an
empty member list, sets switching true and emits `Switchover(next)`. -/
theorem snailHeadStep_missing_block (env : Env) (chain : Chain) (fuel : Nat) (e : Election)
    (seBlock sb : SnailBlock) (c : committee) (lastFruit : Fruit) (m : Int)
    (hvalid : e.PointersValid) (hcur : e.current = some c)
    (htrig : c.switchCheckNumber = (seBlock.number : Int))
    (hm1 : triggerStart seBlock.number ≤ m) (hm2 : m ≤ (seBlock.number : Int) - 12)
    (hmiss : chain.snailBlock (uint64 m) = none)
    (hsb : chain.snailBlock (uint64 ((seBlock.number : Int) - 12)) = some sb)
    (hfr : sb.fruits.getLast? = some lastFruit) :
    ∃ r, snailHeadStep env chain fuel e (some seBlock) = .ok r ∧
      r.state.startSwitchover = true ∧
      r.state.next = some
        { id := triggerStart seBlock.number
          firstElectionNumber := triggerStart seBlock.number
          lastElectionNumber := (seBlock.number : Int) - 12
          beginFastNumber := (lastFruit.number : Int) + 1000 + 1
          endFastNumber := none
          switchCheckNumber := c.switchCheckNumber + 1440
          members := [] } ∧
      r.state.current = some { c with endFastNumber := some ((lastFruit.number : Int) + 1000) } ∧
      r.events =
        [ { Option := .CommitteeSwitchover, CommitteeID := triggerStart seBlock.number,
            CommitteeMembers := [], BeginFastNumber := none } ] := by
  cases hpc : e.committee with
  | none => simp [Election.current, hpc] at hcur
  | some pc =>
    simp only [Election.current, hpc, Option.map_some', Option.some.injEq] at hcur
    subst hcur
    have helect := electCommittee_missing env chain fuel (triggerStart seBlock.number)
      ((seBlock.number : Int) - lamada) m hm1 (by simpa [lamada] using hm2) hmiss
    obtain ⟨r, hr, h1, h2, h3, h4, _, _, _⟩ :=
      snailHeadStep_trigger env chain fuel e seBlock sb pc [] lastFruit hvalid hpc htrig
        helect (by simpa [lamada] using hsb) hfr
    refine ⟨r, hr, h3, ?_, ?_, h4⟩
    · rw [h2]; simp [triggerNext, lamada, k, z]
    · rw [h1]; simp [k]

/-! ### The epoch calculator on a chain past epoch 1 -/

/-- C11 at a concrete chain: the last fruit of snail block 1428 has snail number
1428 and fast number 2856, so the end of the epoch should be `2856 + K = 3856`;
`getCommittee` (epoch 1) and the snail-head handler (trigger block 1440) both
yield `end_fast = 2428`, the fruit's `Number()` plus `K`, while the
`begin_fast` that `getCommittee` derives from the same fruit for the next
record is `3856 + 1`. -/
theorem end_fast_reads_snail_number :
    (∃ blk, sampleChain3.snailBlock 1428 = some blk ∧
      blk.fruits.getLast? = some (sampleFruit2 1428)) ∧
    ((sampleFruit2 1428).fastNumber : Int) + 1000 = 3856 ∧
    (∃ c, getCommittee sampleEnv sampleChain3 (NewElction sampleChain3) 40 100 1500
        = .ok (some c) ∧ c.endFastNumber = some 2428) ∧
    (∃ r c, snailHeadStep sampleEnv sampleChain3 40 sampleStarted (some sampleTrigger) = .ok r ∧
      r.state.current = some c ∧ c.endFastNumber = some 2428) ∧
    (∃ c, getCommittee sampleEnv sampleChain3 (NewElction sampleChain3) 40 3860 2900
        = .ok (some c) ∧ c.beginFastNumber = 3856 + 1) := by
  obtain ⟨r, hr, hcur, _⟩ := sampleTrigger_step
  exact ⟨⟨_, rfl, rfl⟩, rfl, ⟨_, rfl, rfl⟩, ⟨r, _, hr, hcur, rfl⟩,
    ⟨_, getCommittee_sample_previous 3860 (by decide), rfl⟩⟩

/-- C12 fails as stated: at snail height 2900 (`last_snail = 2880`), the
previous-epoch record (`f = 3860 ≤ 3868`) has `last_election_snail = 1428`, not
`last_snail − Z = 1440`, and the current-epoch record (`f = 4000`) has
`first_election_snail = 1429`, not `last_snail − Z + 1 = 1441`. -/
theorem getCommittee_election_window_counterexample :
    (∃ blk, sampleChain3.snailBlock 2868 = some blk ∧
      blk.fruits.getLast? = some (sampleFruit2 2868)) ∧
    ((sampleFruit2 2868).number : Int) + 1000 = 3868 ∧
    (∃ c, getCommittee sampleEnv sampleChain3 (NewElction sampleChain3) 40 3860 2900
        = .ok (some c) ∧ c.lastElectionNumber = 1428 ∧
      c.lastElectionNumber ≠ 2900 / 1440 * 1440 - 1440) ∧
    (∃ c, getCommittee sampleEnv sampleChain3 (NewElction sampleChain3) 40 4000 2900
        = .ok (some c) ∧ c.firstElectionNumber = 1429 ∧
      c.firstElectionNumber ≠ 2900 / 1440 * 1440 - 1440 + 1) :=
  ⟨⟨_, rfl, rfl⟩, rfl,
   ⟨_, getCommittee_sample_previous 3860 (by decide), rfl, by decide⟩,
   ⟨_, getCommittee_sample_current 4000 (by decide), rfl, by decide⟩⟩

theorem getCommittee_election_window_witness :
    (∃ c, getCommittee sampleEnv sampleChain3 (NewElction sampleChain3) 40 3860 2900
        = .ok (some c) ∧
      ∃ blk fr, sampleChain3.snailBlock (uint64 (2900 / 1440 * 1440 - 12)) = some blk ∧
        blk.fruits.getLast? = some fr ∧
        ((3860 : Int) ≤ (fr.number : Int) + 1000 → (2 : Int) ≤ 2900 / 1440 →
          c.firstElectionNumber = max 1 (2900 / 1440 * 1440 - 12 - 2 * 1440 + 1) ∧
          c.lastElectionNumber = 2900 / 1440 * 1440 - 12 - 1440 ∧
          ∃ blk2 fr2,
            sampleChain3.snailBlock (uint64 (2900 / 1440 * 1440 - 12 - 1440)) = some blk2 ∧
            blk2.fruits.getLast? = some fr2 ∧
            c.beginFastNumber = (fr2.fastNumber : Int) + 1000 + 1) ∧
        ((fr.number : Int) + 1000 < 3860 → (2 : Int) ≤ 2900 / 1440 →
          c.firstElectionNumber = 2900 / 1440 * 1440 - 12 - 1440 + 1 ∧
          1 ≤ c.firstElectionNumber ∧
          c.lastElectionNumber = 2900 / 1440 * 1440 - 12)) ∧
    (∃ c, getCommittee sampleEnv sampleChain3 (NewElction sampleChain3) 40 4000 2900
        = .ok (some c) ∧
      ∃ blk fr, sampleChain3.snailBlock (uint64 (2900 / 1440 * 1440 - 12)) = some blk ∧
        blk.fruits.getLast? = some fr ∧
        ((4000 : Int) ≤ (fr.number : Int) + 1000 → (2 : Int) ≤ 2900 / 1440 →
          c.firstElectionNumber = max 1 (2900 / 1440 * 1440 - 12 - 2 * 1440 + 1) ∧
          c.lastElectionNumber = 2900 / 1440 * 1440 - 12 - 1440 ∧
          ∃ blk2 fr2,
            sampleChain3.snailBlock (uint64 (2900 / 1440 * 1440 - 12 - 1440)) = some blk2 ∧
            blk2.fruits.getLast? = some fr2 ∧
            c.beginFastNumber = (fr2.fastNumber : Int) + 1000 + 1) ∧
        ((fr.number : Int) + 1000 < 4000 → (2 : Int) ≤ 2900 / 1440 →
          c.firstElectionNumber = 2900 / 1440 * 1440 - 12 - 1440 + 1 ∧
          1 ≤ c.firstElectionNumber ∧
          c.lastElectionNumber = 2900 / 1440 * 1440 - 12)) :=
  ⟨⟨_, getCommittee_sample_previous 3860 (by decide),
    getCommittee_election_window sampleEnv sampleChain3 (NewElction sampleChain3) 40 3860 2900
      _ (by decide) (getCommittee_sample_previous 3860 (by decide))⟩,
   ⟨_, getCommittee_sample_current 4000 (by decide),
    getCommittee_election_window sampleEnv sampleChain3 (NewElction sampleChain3) 40 4000 2900
      _ (by decide) (getCommittee_sample_current 4000 (by decide))⟩⟩

/-- C13 at a concrete chain: from one chain state `getCommittee` produces the
closed record of id 0 with fast range `[1, 2428]` and the record of id 1 with
fast range `[3857, 3868]`; `3857` is not `2428 + 1`. -/
theorem consecutive_ranges_gap :
    (∃ c0, getCommittee sampleEnv sampleChain3 (NewElction sampleChain3) 40 100 1500
        = .ok (some c0) ∧ c0.id = 0 ∧ c0.beginFastNumber = 1 ∧ c0.endFastNumber = some 2428) ∧
    (∃ c1, getCommittee sampleEnv sampleChain3 (NewElction sampleChain3) 40 3860 2900
        = .ok (some c1) ∧ c1.id = 1 ∧ c1.beginFastNumber = 3857 ∧
        c1.endFastNumber = some 3868) ∧
    (3857 : Int) ≠ 2428 + 1 :=
  ⟨⟨_, rfl, rfl, rfl, rfl⟩,
   ⟨_, getCommittee_sample_previous 3860 (by decide), rfl, rfl, rfl⟩, by decide⟩

/-- C14 at a concrete chain: on `sampleChain3`, `getCommittee 100 2900` returns
the record of id 1, whose range is `[3857, 3868]` and does not cover `f = 100`.
The cache lookup, for the same `f` and the same record once it is cached, does
test `begin_fast` and rejects the record. -/
theorem getCommittee_range_uncovered :
    ∃ c, getCommittee sampleEnv sampleChain3 (NewElction sampleChain3) 40 100 2900
        = .ok (some c) ∧
      c.id = 1 ∧ c.beginFastNumber = 3857 ∧ c.endFastNumber = some 3868 ∧
      ¬ (c.beginFastNumber ≤ 100) ∧
      getCommitteeFromCache
        (appendCommittee ((NewElction sampleChain3).alloc c).2
          ((NewElction sampleChain3).alloc c).1) 100 2900 = .ok none :=
  ⟨_, getCommittee_sample_previous 100 (by decide), rfl, rfl, rfl, by decide, rfl⟩

theorem appendCommittee_no_overwrite_witness :
    appendCommittee sampleCached 1 = sampleCached ∧
    (appendCommittee (NewElction sampleChain) 0).committeeList 0 = some 0 :=
  ⟨(appendCommittee_no_overwrite sampleCached 1).1 1 rfl,
   ((appendCommittee_no_overwrite (NewElction sampleChain) 0).2.1 rfl).1⟩

theorem getCommittee_switchCheck_multiple (env : Env) (chain : Chain) (e : Election)
    (fuel : Nat) (f s : Int) (c : committee)
    (h : getCommittee env chain e fuel f s = .ok (some c)) :
    ∃ m : Int, c.switchCheckNumber = m * 1440 := by
  rcases getCommittee_cases env chain e fuel f s c h with ⟨_, hc⟩ | ⟨_, _, _, _, _, hc⟩
  · exact ⟨1, by rw [hc]; rfl⟩
  · rcases hc with ⟨_, _, hc⟩ | ⟨_, _, _, _, _, _, _, _, hc⟩ | ⟨_, _, _, hc⟩
    · exact ⟨1, by rw [hc]; rfl⟩
    · exact ⟨s / z, by rw [hc]; rfl⟩
    · exact ⟨s / z + 1, by rw [hc]; simp only [z]; ring⟩

/-! ### The lottery and the seed; batch verification -/

/-- One round of the lottery does not read the seed beyond the draw, which is 0. -/
theorem electRound_seed (env : Env) (cands : List candidateMember) (s1 s2 : Hash)
    (st : ElectState) : electRound env cands s1 st = electRound env cands s2 st := by
  simp [electRound, drawProp_zero]

theorem electLoop_seed (env : Env) (cands : List candidateMember) (s1 s2 : Hash) :
    ∀ (fuel : Nat) (st : ElectState),
      electLoop env cands s1 fuel st = electLoop env cands s2 fuel st := by
  intro fuel
  induction fuel with
  | zero => intro st; rfl
  | succ f ih =>
    intro st
    rw [electLoop, electLoop, electRound_seed env cands s1 s2 st]
    simp only [ih]

/-- C25: the result of the lottery does not depend on the seed: for every
candidate list, every bound on the number of rounds and any two seeds `s1` and
`s2`, `elect candidates s1 = elect candidates s2` (the same members, or the same
failure to terminate within the bound).  Every draw is
`hash / maxUint256 = 0`, whatever the seed. -/
theorem elect_seed_independent (env : Env) (fuel : Nat) (cands : List candidateMember)
    (s1 s2 : Hash) : elect env fuel cands s1 = elect env fuel cands s2 := by
  unfold elect electRun
  rw [electLoop_seed env cands s1 s2 fuel electInit]

/-- The loop body of `VerifySigns` sets exactly one of the two entries. -/
theorem signOutcome_one (r : Option CommitteeMember × Option Error) :
    ((signOutcome r).1.isSome = true ↔ (signOutcome r).2.isSome = false) := by
  unfold signOutcome
  split
  · simp
  · split <;> simp

/-- Both result lists of `VerifySigns` have the length of the batch. -/
theorem VerifySigns_length (env : Env) (chain : Chain) (fuel : Nat) :
    ∀ (batch : List PbftSign) (e e2 : Election)
      (ms : List (Option CommitteeMember)) (es : List (Option Error)),
      VerifySigns env chain fuel e batch = .ok ((ms, es), e2) →
      ms.length = batch.length ∧ es.length = batch.length ∧
      stateBefore env chain fuel e batch = .ok e2 := by
  intro batch
  induction batch with
  | nil =>
    intro e e2 ms es h
    simp only [VerifySigns, Except.ok.injEq, Prod.mk.injEq] at h
    obtain ⟨⟨h1, h2⟩, h3⟩ := h
    subst h1; subst h2; subst h3
    exact ⟨rfl, rfl, rfl⟩
  | cons sign rest ih =>
    intro e e2 ms es h
    unfold VerifySigns at h
    split at h
    · cases h
    · rename_i r e1 hsign
      split at h
      · cases h
      · rename_i lists e3 hrest
        simp only [Except.ok.injEq, Prod.mk.injEq] at h
        obtain ⟨⟨h1, h2⟩, h3⟩ := h
        subst h1; subst h2; subst h3
        obtain ⟨l1, l2, l3⟩ := ih e1 e3 lists.1 lists.2 hrest
        refine ⟨by simp [l1], by simp [l2], ?_⟩
        simp only [stateBefore, hsign]
        exact l3

/-- The function `VerifySigns` returns when every call of `VerifySign` does. -/
theorem VerifySigns_total (env : Env) (chain : Chain) (fuel : Nat) :
    ∀ (batch : List PbftSign) (e e2 : Election),
      stateBefore env chain fuel e batch = .ok e2 →
      ∃ ms es, VerifySigns env chain fuel e batch = .ok ((ms, es), e2) := by
  intro batch
  induction batch with
  | nil =>
    intro e e2 h
    simp only [stateBefore, Except.ok.injEq] at h
    subst h
    exact ⟨[], [], rfl⟩
  | cons sign rest ih =>
    intro e e2 h
    unfold stateBefore at h
    split at h
    · cases h
    · rename_i r e1 hsign
      obtain ⟨ms, es, hrest⟩ := ih e1 e2 h
      exact ⟨(signOutcome r).1 :: ms, (signOutcome r).2 :: es, by
        simp only [VerifySigns, hsign, hrest]⟩

/-- The entries at index `i` come from `VerifySign` on `batch[i]`. -/
theorem VerifySigns_index (env : Env) (chain : Chain) (fuel : Nat) :
    ∀ (batch : List PbftSign) (e e2 : Election)
      (ms : List (Option CommitteeMember)) (es : List (Option Error)),
      VerifySigns env chain fuel e batch = .ok ((ms, es), e2) →
      ∀ (i : Nat) (sign : PbftSign), batch[i]? = some sign →
        ∃ ei r ei1, stateBefore env chain fuel e (batch.take i) = .ok ei ∧
          VerifySign env chain fuel ei sign = .ok (r, ei1) ∧
          ms[i]? = some (signOutcome r).1 ∧ es[i]? = some (signOutcome r).2 := by
  intro batch
  induction batch with
  | nil => intro e e2 ms es _ i sign hi; simp at hi
  | cons s rest ih =>
    intro e e2 ms es h i sign hi
    unfold VerifySigns at h
    split at h
    · cases h
    · rename_i r e1 hsign
      split at h
      · cases h
      · rename_i lists e3 hrest
        simp only [Except.ok.injEq, Prod.mk.injEq] at h
        obtain ⟨⟨h1, h2⟩, h3⟩ := h
        subst h1; subst h2; subst h3
        cases i with
        | zero =>
          simp only [List.getElem?_cons_zero, Option.some.injEq] at hi
          subst hi
          exact ⟨e, r, e1, rfl, hsign, by simp, by simp⟩
        | succ j =>
          simp only [List.getElem?_cons_succ] at hi
          obtain ⟨ei, r2, ei1, h1, h2, h3, h4⟩ := ih e1 e3 lists.1 lists.2 hrest j sign hi
          refine ⟨ei, r2, ei1, ?_, h2, by simpa using h3, by simpa using h4⟩
          simp only [List.take_succ_cons, stateBefore, hsign]
          exact h1

/-! ### The batch verifier -/

/-- The result lists of `VerifySigns` are positional.  The function returns
whenever the calls of `VerifySign` on the elements of the batch, run in turn,
all return; both lists have the length of the batch, and for every index `i`,
with `(member, err)` what `VerifySign` returns on `batch[i]` in the engine state
the earlier elements left: exactly one of `members[i]`, `errs[i]` is set;
`errs[i] = err` when `err` is set; `errs[i] = ErrInvalidMember` when neither
`member` nor `err` is set; and `members[i] = member` otherwise. -/
theorem VerifySigns_positional (env : Env) (chain : Chain) (fuel : Nat) (e : Election)
    (batch : List PbftSign) :
    (∀ e2, stateBefore env chain fuel e batch = .ok e2 →
      ∃ ms es, VerifySigns env chain fuel e batch = .ok ((ms, es), e2)) ∧
    (∀ ms es e2, VerifySigns env chain fuel e batch = .ok ((ms, es), e2) →
      ms.length = batch.length ∧ es.length = batch.length ∧
      ∀ (i : Nat) (sign : PbftSign), batch[i]? = some sign →
        ∃ ei member err ei1 m er,
          stateBefore env chain fuel e (batch.take i) = .ok ei ∧
          VerifySign env chain fuel ei sign = .ok ((member, err), ei1) ∧
          ms[i]? = some m ∧ es[i]? = some er ∧
          (m.isSome = true ↔ er.isSome = false) ∧
          (∀ x, err = some x → er = some x) ∧
          (err = none → member = none → er = some Error.ErrInvalidMember) ∧
          (err = none → ∀ mem, member = some mem → m = some mem)) := by
  refine ⟨VerifySigns_total env chain fuel batch e, ?_⟩
  intro ms es e2 h
  obtain ⟨l1, l2, _⟩ := VerifySigns_length env chain fuel batch e e2 ms es h
  refine ⟨l1, l2, ?_⟩
  intro i sign hi
  obtain ⟨ei, r, ei1, h1, h2, h3, h4⟩ := VerifySigns_index env chain fuel batch e e2 ms es h i sign hi
  refine ⟨ei, r.1, r.2, ei1, _, _, h1, h2, h3, h4, signOutcome_one r, ?_, ?_, ?_⟩
  · intro x hx
    simp [signOutcome, hx]
  · intro hx hm
    simp [signOutcome, hx, hm]
  · intro hx mem hm
    simp [signOutcome, hx, hm]

/-- The function `VerifySign` hands on the error of the key recovery. -/
theorem VerifySign_of_recovery_error (env : Env) (chain : Chain) (fuel : Nat) (e : Election)
    (sign : PbftSign) (msg : String)
    (hfail : env.SigToPub sign.hashWithNoSign.Bytes sign.Sign = .error msg) :
    VerifySign env chain fuel e sign = .ok ((none, some (Error.crypto msg)), e) := by
  simp [VerifySign, hfail]

/-- C23, as the code has it: for every signature from which public-key recovery
fails with the message `msg`, `VerifySign` returns no member and the recovery's
own error (`Error.crypto msg`), leaving the state as it is, and `VerifySigns`
puts that same error, and no member, at the index of that signature. -/
theorem VerifySign_recovery_error (env : Env) (chain : Chain) (fuel : Nat) (sign : PbftSign)
    (msg : String)
    (hfail : env.SigToPub sign.hashWithNoSign.Bytes sign.Sign = .error msg) :
    (∀ e, VerifySign env chain fuel e sign = .ok ((none, some (Error.crypto msg)), e)) ∧
    (∀ (e e2 : Election) (batch : List PbftSign) (ms : List (Option CommitteeMember))
        (es : List (Option Error)) (i : Nat),
      VerifySigns env chain fuel e batch = .ok ((ms, es), e2) → batch[i]? = some sign →
      es[i]? = some (some (Error.crypto msg)) ∧ ms[i]? = some none) := by
  refine ⟨fun e => VerifySign_of_recovery_error env chain fuel e sign msg hfail, ?_⟩
  intro e e2 batch ms es i h hi
  obtain ⟨ei, r, ei1, _, h2, h3, h4⟩ :=
    VerifySigns_index env chain fuel batch e e2 ms es h i sign hi
  rw [VerifySign_of_recovery_error env chain fuel ei sign msg hfail] at h2
  simp only [Except.ok.injEq, Prod.mk.injEq] at h2
  obtain ⟨hr, _⟩ := h2
  subst hr
  exact ⟨by simpa [signOutcome] using h4, by simpa [signOutcome] using h3⟩

theorem VerifySign_recovery_error_witness :
    VerifySign sampleEnv sampleChain 40 sampleStarted sampleBadSign
      = .ok ((none, some (Error.crypto "invalid signature length")), sampleStarted) ∧
    ([some (Error.crypto "invalid signature length"), none, some Error.ErrInvalidMember] :
        List (Option Error))[0]?
      = some (some (Error.crypto "invalid signature length")) :=
  ⟨(VerifySign_recovery_error sampleEnv sampleChain 40 sampleBadSign
      "invalid signature length" rfl).1 sampleStarted,
   ((VerifySign_recovery_error sampleEnv sampleChain 40 sampleBadSign
      "invalid signature length" rfl).2 sampleStarted sampleStarted
      [sampleBadSign, sampleGoodSign, sampleSign] _ _ 0 rfl rfl).1⟩

/-- C23 fails as stated: recovery fails on `sampleBadSign` (a signature of the
wrong length); `VerifySign` returns the recovery's error
"invalid signature length", which is not `ErrInvalidSign`, and `VerifySigns`
puts that error at index 0. -/
theorem VerifySign_recovery_error_counterexample :
    sampleEnv.SigToPub sampleBadSign.hashWithNoSign.Bytes sampleBadSign.Sign
      = .error "invalid signature length" ∧
    VerifySign sampleEnv sampleChain 40 sampleStarted sampleBadSign
      = .ok ((none, some (Error.crypto "invalid signature length")), sampleStarted) ∧
    Error.crypto "invalid signature length" ≠ Error.ErrInvalidSign ∧
    (∃ ms es e2, VerifySigns sampleEnv sampleChain 40 sampleStarted [sampleBadSign]
        = .ok ((ms, es), e2) ∧
      es[0]? = some (some (Error.crypto "invalid signature length")) ∧
      es[0]? ≠ some (some Error.ErrInvalidSign)) :=
  ⟨rfl, rfl, by decide, _, _, _, rfl, rfl, by decide⟩

/-! ### Scans of the sparse sample chains -/

theorem Scans_empty (env : Env) (chain : Chain) (n : Nat) (b : Int)
    (ms : List candidateMember) (cnt : Address → Option Nat)
    (h : ∀ j : Nat, j < n →
      ∃ blk, chain.snailBlock (uint64 (b + (j : Int))) = some blk ∧ blk.fruits = []) :
    Scans env chain n b ms cnt ms cnt :=
  fun seed => scanBlocks_empty_run env chain n b seed ms cnt h

theorem Scans_block (env : Env) (chain : Chain) (b : Int) (blk : SnailBlock)
    (ms : List candidateMember) (cnt : Address → Option Nat)
    (h : chain.snailBlock (uint64 b) = some blk) :
    Scans env chain 1 b ms cnt (scanFruits env blk.fruits ms cnt).1
      (scanFruits env blk.fruits ms cnt).2 := by
  intro seed
  refine ⟨seed ++ blk.hash.Bytes, ?_⟩
  simp only [scanBlocks, h]

theorem Scans_append (env : Env) (chain : Chain) (n m : Nat) (b b2 : Int)
    (ms ms1 ms2 : List candidateMember) (cnt cnt1 cnt2 : Address → Option Nat)
    (hb : b2 = b + (n : Int))
    (h1 : Scans env chain n b ms cnt ms1 cnt1) (h2 : Scans env chain m b2 ms1 cnt1 ms2 cnt2) :
    Scans env chain (n + m) b ms cnt ms2 cnt2 := by
  intro seed
  obtain ⟨seed1, hs1⟩ := h1 seed
  obtain ⟨seed2, hs2⟩ := h2 seed1
  refine ⟨seed2, ?_⟩
  rw [scanBlocks_split, hs1]
  simp only
  rw [← hb]
  exact hs2

/-- The election over a range whose scan is known, under a hash that does not
depend on its input. -/
theorem electCommittee_of_scan (env : Env) (chain : Chain) (fuel : Nat) (first last : Int)
    (n : Nat) (ms : List candidateMember) (cnt : Address → Option Nat) (h0 : Hash)
    (hk : ∀ x, env.Keccak256Hash x = h0) (hn : (last - first + 1).toNat = n)
    (hscan : Scans env chain n first [] (fun _ => none) ms cnt) :
    electCommittee env chain fuel first last =
      match assignIntervals (retainLoop cnt ms 0 []).2 (retainLoop cnt ms 0 []).1 with
      | .error f => .error f
      | .ok cands => if cands = [] then .ok [] else elect env fuel cands h0 := by
  obtain ⟨seed2, hs⟩ := hscan []
  unfold electCommittee getCandinates
  rw [hn, hs]
  simp only
  cases assignIntervals (retainLoop cnt ms 0 []).2 (retainLoop cnt ms 0 []).1 with
  | error f => rfl
  | ok cands => simp only [hk]

/-- The blocks of the sparse sample chain up to its head. -/
theorem sampleChainAt_block (s f n : Nat) (h : n ≤ s) :
    (sampleChainAt s f).snailBlock n = some (sparseBlock n) := by
  simp [sampleChainAt, h]

theorem sampleChainAt_empty (s f : Nat) (b : Int) (n : Nat) (hb0 : 0 ≤ b)
    (hs : b + (n : Int) ≤ (s : Int) + 1) (hs2 : s < 100000)
    (hmod : ∀ j : Nat, j < n → (b + (j : Int)) % 1440 ≠ 1428) :
    ∀ j : Nat, j < n →
      ∃ blk, (sampleChainAt s f).snailBlock (uint64 (b + (j : Int))) = some blk ∧
        blk.fruits = [] := by
  intro j hj
  have hm := hmod j hj
  have hu : uint64 (b + (j : Int)) = (b + (j : Int)).toNat := by unfold uint64; omega
  rw [hu, sampleChainAt_block s f _ (by omega)]
  refine ⟨_, rfl, ?_⟩
  have : (b + (j : Int)).toNat % 1440 ≠ 1428 := by omega
  simp [sparseBlock, this]

theorem sampleChainAt_fruit (s f : Nat) (n : Nat) (h : n ≤ s) (hs2 : s < 100000) :
    (sampleChainAt s f).snailBlock (uint64 (n : Int)) = some (sparseBlock n) := by
  have hu : uint64 (n : Int) = n := by unfold uint64; omega
  rw [hu, sampleChainAt_block s f n h]

set_option maxRecDepth 8000 in
/-- The election over snails 1..1428 of the sparse sample chain. -/
theorem sparse_elect_first (s f : Nat) (h1 : 1428 ≤ s) (h2 : s < 100000) :
    electCommittee sampleEnv (sampleChainAt s f) 40 1 1428
      = .ok [{ Coinbase := 103, Publickey := sampleKey3 }] := by
  have hscan : Scans sampleEnv (sampleChainAt s f) (1427 + 1) 1 [] (fun _ => none) _ _ :=
    Scans_append _ _ 1427 1 1 1428 _ _ _ _ _ _ (by norm_num)
      (Scans_empty _ _ 1427 1 _ _
        (sampleChainAt_empty s f 1 1427 (by omega) (by omega) h2 (by intro j hj; omega)))
      (Scans_block _ _ 1428 (sparseBlock 1428) _ _
        (sampleChainAt_fruit s f 1428 h1 h2))
  have h := electCommittee_of_scan sampleEnv (sampleChainAt s f) 40 1 1428 _ _ _ Hash.zero
    (fun _ => rfl) (by decide) hscan
  exact h.trans rfl

set_option maxRecDepth 8000 in
/-- The election over snails 1..1440 of the sparse sample chain. -/
theorem sparse_elect_start (s f : Nat) (h1 : 1440 ≤ s) (h2 : s < 100000) :
    electCommittee sampleEnv (sampleChainAt s f) 40 1 1440
      = .ok [{ Coinbase := 103, Publickey := sampleKey3 }] := by
  have hscan : Scans sampleEnv (sampleChainAt s f) (1427 + (1 + 12)) 1 [] (fun _ => none) _ _ :=
    Scans_append _ _ 1427 (1 + 12) 1 1428 _ _ _ _ _ _ (by norm_num)
      (Scans_empty _ _ 1427 1 _ _
        (sampleChainAt_empty s f 1 1427 (by omega) (by omega) h2 (by intro j hj; omega)))
      (Scans_append _ _ 1 12 1428 1429 _ _ _ _ _ _ (by norm_num)
        (Scans_block _ _ 1428 (sparseBlock 1428) _ _
          (sampleChainAt_fruit s f 1428 (by omega) h2))
        (Scans_empty _ _ 12 1429 _ _
          (sampleChainAt_empty s f 1429 12 (by omega) (by omega) h2 (by intro j hj; omega))))
  have h := electCommittee_of_scan sampleEnv (sampleChainAt s f) 40 1 1440 _ _ _ Hash.zero
    (fun _ => rfl) (by decide) hscan
  exact h.trans rfl

set_option maxRecDepth 8000 in
/-- The election over snails 1429..2868 of the sparse sample chain. -/
theorem sparse_elect_second (s f : Nat) (h1 : 2868 ≤ s) (h2 : s < 100000) :
    electCommittee sampleEnv (sampleChainAt s f) 40 1429 2868
      = .ok [{ Coinbase := 103, Publickey := sampleKey3 }] := by
  have hscan : Scans sampleEnv (sampleChainAt s f) (1439 + 1) 1429 [] (fun _ => none) _ _ :=
    Scans_append _ _ 1439 1 1429 2868 _ _ _ _ _ _ (by norm_num)
      (Scans_empty _ _ 1439 1429 _ _
        (sampleChainAt_empty s f 1429 1439 (by omega) (by omega) h2 (by intro j hj; omega)))
      (Scans_block _ _ 2868 (sparseBlock 2868) _ _
        (sampleChainAt_fruit s f 2868 h1 h2))
  have h := electCommittee_of_scan sampleEnv (sampleChainAt s f) 40 1429 2868 _ _ _ Hash.zero
    (fun _ => rfl) (by decide) hscan
  exact h.trans rfl

set_option maxRecDepth 8000 in
/-- The election over snails 1428..2868 of the sparse sample chain. -/
theorem sparse_elect_overlap (s f : Nat) (h1 : 2868 ≤ s) (h2 : s < 100000) :
    electCommittee sampleEnv (sampleChainAt s f) 40 1428 2868
      = .ok [{ Coinbase := 103, Publickey := sampleKey3 }] := by
  have hscan : Scans sampleEnv (sampleChainAt s f) (1 + (1439 + 1)) 1428 [] (fun _ => none) _ _ :=
    Scans_append _ _ 1 (1439 + 1) 1428 1429 _ _ _ _ _ _ (by norm_num)
      (Scans_block _ _ 1428 (sparseBlock 1428) _ _
        (sampleChainAt_fruit s f 1428 (by omega) h2))
      (Scans_append _ _ 1439 1 1429 2868 _ _ _ _ _ _ (by norm_num)
        (Scans_empty _ _ 1439 1429 _ _
          (sampleChainAt_empty s f 1429 1439 (by omega) (by omega) h2 (by intro j hj; omega)))
        (Scans_block _ _ 2868 (sparseBlock 2868) _ _
          (sampleChainAt_fruit s f 2868 h1 h2)))
  have h := electCommittee_of_scan sampleEnv (sampleChainAt s f) 40 1428 2868 _ _ _ Hash.zero
    (fun _ => rfl) (by decide) hscan
  exact h.trans rfl

/-! ### The outcomes of `Start` -/

/-- The function `Start` on a fresh engine whose current record is closed. -/
theorem Start_closed (env : Env) (chain : Chain) (fuel : Nat) (c : committee) (v : Int)
    (members : List CommitteeMember)
    (hc : getCommittee env chain (NewElction chain) fuel (chain.fastHead : Int)
      (chain.snailHead : Int) = .ok (some c))
    (hv : c.endFastNumber = some v) (hpos : v > 0)
    (helect : electCommittee env chain fuel (c.lastElectionNumber + 1)
      (c.lastElectionNumber + 1440) = .ok members) :
    ∃ r, Start env chain fuel (NewElction chain) = .ok r ∧
      r.loopStarted = true ∧
      r.state.cached (uint64 c.id) = some c ∧
      (uint64 (c.lastElectionNumber + 1) ≠ uint64 c.id →
        r.state.cached (uint64 (c.lastElectionNumber + 1)) = some (startNext c v members)) ∧
      (v ≠ (chain.fastHead : Int) →
        r.state.current = some c ∧ r.state.next = some (startNext c v members) ∧
        r.state.startSwitchover = true) ∧
      (v = (chain.fastHead : Int) →
        r.state.current = some (startNext c v members) ∧ r.state.next = none ∧
        r.state.startSwitchover = false) := by
  have hb : c.lastElectionNumber + 1440 - z + 1 = c.lastElectionNumber + 1 := by
    simp only [z]; ring
  have hz : c.lastElectionNumber + z = c.lastElectionNumber + 1440 := rfl
  have hz2 : c.switchCheckNumber + z = c.switchCheckNumber + 1440 := rfl
  have hkey2 : uint64 (c.lastElectionNumber + 1) ≠ uint64 c.id →
      ¬ uint64 c.id = uint64 (c.lastElectionNumber + 1) := fun h h2 => h h2.symm
  apply Exists.intro
  refine ⟨?heq, ?h0, ?h1, ?h2, ?h3, ?h4⟩
  case heq =>
    unfold Start
    simp only [hc, hv, hpos, if_true, hb, hz, helect]
    rfl
  case h0 =>
    simp only
  case h1 =>
    by_cases hfast : v = (chain.fastHead : Int)
    · simp only [hfast, if_true]
      by_cases hkey : uint64 (c.lastElectionNumber + 1) = uint64 c.id
      · simp [Election.cached, appendCommittee, Election.alloc, NewElction, hkey]
      · simp [Election.cached, appendCommittee, Election.alloc, NewElction, hkey, hkey2 hkey]
    · simp only [hfast, if_false]
      by_cases hkey : uint64 (c.lastElectionNumber + 1) = uint64 c.id
      · simp [Election.cached, appendCommittee, Election.alloc, NewElction, hkey]
      · simp [Election.cached, appendCommittee, Election.alloc, NewElction, hkey, hkey2 hkey]
  case h2 =>
    intro hkey
    by_cases hfast : v = (chain.fastHead : Int)
    · simp only [hfast, if_true]
      simp [Election.cached, appendCommittee, Election.alloc, NewElction, hkey, startNext, hz2,
        hfast]
    · simp only [hfast, if_false]
      simp [Election.cached, appendCommittee, Election.alloc, NewElction, hkey, startNext, hz2]
  case h3 =>
    intro hfast
    simp only [hfast, if_false]
    refine ⟨?_, ?_, ?_⟩
    · simp [Election.current, appendCommittee_heap, Election.alloc, NewElction,
        appendCommittee_committee, appendCommittee_nextPtr]
    · simp [Election.next, appendCommittee_heap, Election.alloc, NewElction, startNext, hz2,
        appendCommittee_nextPtr]
    · simp
  case h4 =>
    intro hfast
    simp only [hfast, if_true]
    refine ⟨?_, ?_, ?_⟩
    · simp [Election.current, appendCommittee_heap, Election.alloc, NewElction, startNext, hz2,
        appendCommittee_nextPtr, hfast]
    · trivial
    · trivial

/-- The function `Start` on a fresh engine whose current record is open. -/
theorem Start_open (env : Env) (chain : Chain) (fuel : Nat) (c : committee)
    (hc : getCommittee env chain (NewElction chain) fuel (chain.fastHead : Int)
      (chain.snailHead : Int) = .ok (some c))
    (hv : c.endFastNumber = some 0) :
    ∃ r, Start env chain fuel (NewElction chain) = .ok r ∧
      r.state.current = some c ∧ r.state.next = none ∧ r.state.startSwitchover = false := by
  apply Exists.intro
  refine ⟨?heq, ?h1, ?h2, ?h3⟩
  case heq =>
    unfold Start
    simp only [hc, hv, gt_iff_lt, lt_self_iff_false, if_false]
    rfl
  case h1 =>
    simp [Election.current, appendCommittee_heap, Election.alloc, NewElction]
  case h2 =>
    simp [Election.next, appendCommittee_nextCommittee, Election.alloc, NewElction]
  case h3 =>
    simp [appendCommittee_startSwitchover, Election.alloc, NewElction]

/-- The low 64 bits of a value between 0 and `2^64` are the value. -/
theorem uint64_small (x : Int) (h0 : 0 ≤ x) (h1 : x < 18446744073709551616) :
    ((uint64 x : Nat) : Int) = x := by
  unfold uint64
  have h2 : x.natAbs < 18446744073709551616 := by omega
  have h3 : (2 : Nat) ^ 64 = 18446744073709551616 := by norm_num
  rw [h3, Nat.mod_eq_of_lt h2]
  omega

/-- The `end_fast` and the cache keys of a record `getCommittee` returns for a
snail height that fits 64 bits. -/
theorem getCommittee_closed_facts (env : Env) (chain : Chain) (e : Election) (fuel : Nat)
    (f : Int) (s : Nat) (c : committee) (v : Int) (hs : s < 2 ^ 64)
    (h : getCommittee env chain e fuel f (s : Int) = .ok (some c))
    (hv : c.endFastNumber = some v) (hne : v ≠ 0) :
    v > 0 ∧ uint64 (c.lastElectionNumber + 1) ≠ uint64 c.id := by
  have hs0 : (0 : Int) ≤ (s : Int) := Int.ofNat_nonneg s
  have hs2 : s < 18446744073709551616 := by
    have h3 : (2 : Nat) ^ 64 = 18446744073709551616 := by norm_num
    omega
  have hs1 : (s : Int) < 18446744073709551616 := by exact_mod_cast hs2
  have hq0 : 0 ≤ (s : Int) / 1440 := by omega
  have hq1 : (s : Int) / 1440 * 1440 ≤ (s : Int) := by omega
  rcases getCommittee_cases env chain e fuel f s c h with ⟨_, hc⟩ | ⟨h0, blk, fr, _, _, hc⟩
  · subst hc
    simp at hv
    exact absurd hv.symm hne
  · simp only [z, lamada, k] at h0 hc
    rcases hc with ⟨_, _, hc⟩ | ⟨_, h1, _, _, _, _, _, _, hc⟩ | ⟨_, _, _, hc⟩
    · subst hc
      simp only [Option.some.injEq] at hv
      refine ⟨by omega, ?_⟩
      simp [uint64]
    · subst hc
      simp only [Option.some.injEq] at hv
      refine ⟨by omega, ?_⟩
      intro hk
      have ha := uint64_small ((s : Int) / 1440 * 1440 - 12 - 1440 + 1) (by omega) (by omega)
      have hb := uint64_small ((s : Int) / 1440 - 1) (by omega) (by omega)
      simp only at hk
      rw [hk] at ha
      omega
    · subst hc
      simp at hv
      exact absurd hv.symm hne

/-- The outcomes of `Start` on a fresh engine for which `getCommittee` at the
two heads computes the record `c` (the snail head fits 64 bits), when the
election it runs returns.  If `c.end_fast = v ≠ 0` and the election over the
snails `[c.last_election_snail + 1 .. c.last_election_snail + Z]` returns
`members`, then `Start` returns, the next record `startNext c v members` is
cached under its id, and: when `v ≠ fast_head`, current = `c`, next = that
record and switching is true; when `v = fast_head`, current = that record, next
is unset and switching is false.  If `c.end_fast = 0`, `Start` returns with
current = `c`, next unset and switching false. -/
theorem Start_outcomes (env : Env) (chain : Chain) (fuel : Nat) (c : committee)
    (hhead : chain.snailHead < 2 ^ 64)
    (hc : getCommittee env chain (NewElction chain) fuel (chain.fastHead : Int)
      (chain.snailHead : Int) = .ok (some c)) :
    (∀ (v : Int) (members : List CommitteeMember), c.endFastNumber = some v → v ≠ 0 →
      electCommittee env chain fuel (c.lastElectionNumber + 1)
        (c.lastElectionNumber + 1440) = .ok members →
      ∃ r, Start env chain fuel (NewElction chain) = .ok r ∧
        (startNext c v members).beginFastNumber = v + 1 ∧
        r.state.cached (uint64 (startNext c v members).id) = some (startNext c v members) ∧
        (v ≠ (chain.fastHead : Int) →
          r.state.current = some c ∧ r.state.next = some (startNext c v members) ∧
          r.state.startSwitchover = true) ∧
        (v = (chain.fastHead : Int) →
          r.state.current = some (startNext c v members) ∧ r.state.next = none ∧
          r.state.startSwitchover = false)) ∧
    (c.endFastNumber = some 0 →
      ∃ r, Start env chain fuel (NewElction chain) = .ok r ∧
        r.state.current = some c ∧ r.state.next = none ∧ r.state.startSwitchover = false) := by
  constructor
  · intro v members hv hne helect
    obtain ⟨hpos, hkey⟩ :=
      getCommittee_closed_facts env chain (NewElction chain) fuel _ chain.snailHead c v hhead
        hc hv hne
    obtain ⟨r, hr, _, _, hcache, h3, h4⟩ :=
      Start_closed env chain fuel c v members hc hv hpos helect
    exact ⟨r, hr, rfl, hcache hkey, h3, h4⟩
  · intro hv
    exact Start_open env chain fuel c hc hv

/-! ### Panics of `getCommittee` and `getCandinates` -/

/-- C24 at two concrete chains: on `sampleChainBare` the switch-check block 1428
is present with an empty fruit list, and `getCommittee 2000 1500` ends in the
index-out-of-range panic of `fruits[len(fruits)-1]`; on `sampleChainHole` the
snail block 1428 is missing, and `getCommittee 1 2900` ends in the nil
dereference of `endSnailBlock.Fruits()`.  Neither call returns a record or
nil. -/
theorem getCommittee_panics :
    sampleChainBare.snailBlock 1428
        = some { number := 1428, hash := Hash.zero, fruits := [] } ∧
    getCommittee sampleEnv sampleChainBare (NewElction sampleChainBare) 40 2000 1500
        = .error .indexOutOfRange ∧
    sampleChainHole.snailBlock 1428 = none ∧
    getCommittee sampleEnv sampleChainHole (NewElction sampleChainHole) 40 1 2900
        = .error .nilDereference :=
  ⟨rfl, rfl, rfl, rfl⟩

/-- C26 at a concrete chain: the snail blocks 1, 2 and 3 of `sampleChain3` are
all present and hold no fruit; `getCandinates 1 3` retains nothing, so `td = 0`
and the division `maxUint256 / td` panics; the empty range `getCandinates 5 3`
panics in the same way, and so does `electCommittee 1 3`, whose test for a nil
candidate list comes after the call. -/
theorem getCandinates_divides_by_zero :
    sampleChain3.snailBlock 1 = some { number := 1, hash := Hash.zero, fruits := [] } ∧
    sampleChain3.snailBlock 2 = some { number := 2, hash := Hash.zero, fruits := [] } ∧
    sampleChain3.snailBlock 3 = some { number := 3, hash := Hash.zero, fruits := [] } ∧
    getCandinates sampleEnv sampleChain3 1 3 = .error .divideByZero ∧
    getCandinates sampleEnv sampleChain3 5 3 = .error .divideByZero ∧
    electCommittee sampleEnv sampleChain3 40 1 3 = .error .divideByZero :=
  ⟨rfl, rfl, rfl, rfl, rfl, rfl⟩

/-! ### `Start` and the snail-head step at the same boundary -/

theorem sampleRunning_valid : sampleRunning.PointersValid := by
  refine ⟨?_, ?_, ?_⟩
  · intro p hp; cases hp; decide
  · intro p hp; cases hp
  · intro key p hp
    simp only [sampleRunning] at hp
    split at hp
    · cases hp; decide
    · split at hp
      · cases hp; decide
      · cases hp

/-- The record `getCommittee` computes on the sparse chain at snail head 2880
for the fast head 3860: the closed id-1 record. -/
theorem getCommittee_sparse_closed :
    getCommittee sampleEnv (sampleChainAt 2880 3860) (NewElction (sampleChainAt 2880 3860)) 40
      (((sampleChainAt 2880 3860).fastHead : Nat) : Int)
      (((sampleChainAt 2880 3860).snailHead : Nat) : Int) = .ok (some
      { id := 1, beginFastNumber := 3857, endFastNumber := some 3868, firstElectionNumber := 1,
        lastElectionNumber := 1428, switchCheckNumber := 2880,
        members := [{ Coinbase := 103, Publickey := sampleKey3 }] }) :=
  getCommittee_previous sampleEnv (sampleChainAt 2880 3860) (NewElction (sampleChainAt 2880 3860))
    40 3860 2880 (sparseBlock 2868) (sparseBlock 1428)
    (sampleFruit2 2868) (sampleFruit2 1428) [{ Coinbase := 103, Publickey := sampleKey3 }]
    (by decide) rfl rfl (by decide) rfl rfl (sparse_elect_first 2880 3860 (by omega) (by omega))

/-- C27 at two concrete boundaries of the sparse sample chain.  Boundary 1440
(snail head 1440, fast head 2000): the next record `Start` builds has
`last_election_snail = 1440`, the one the snail-head step builds for the trigger
block 1440 has `last_election_snail = 1428`; id, first election snail,
`begin_fast` and switch check agree.  Boundary 2880 (snail head 2880, fast head
3860): the next record of `Start` has id and `first_election_snail` 1429, the
one of the snail-head step for the trigger block 2880 has 1428; last election
snail, `begin_fast` and switch check agree. -/
theorem next_records_disagree :
    (∃ rS rL,
      Start sampleEnv (sampleChainAt 1440 2000) 40 (NewElction (sampleChainAt 1440 2000))
        = .ok rS ∧
      snailHeadStep sampleEnv (sampleChainAt 1440 2000) 40 sampleStarted
        (some (sparseBlock 1440)) = .ok rL ∧
      rS.state.next = some
        { id := 1, beginFastNumber := 2429, endFastNumber := some 0, firstElectionNumber := 1,
          lastElectionNumber := 1440, switchCheckNumber := 2880,
          members := [{ Coinbase := 103, Publickey := sampleKey3 }] } ∧
      rL.state.next = some
        { id := 1, beginFastNumber := 2429, endFastNumber := none, firstElectionNumber := 1,
          lastElectionNumber := 1428, switchCheckNumber := 2880,
          members := [{ Coinbase := 103, Publickey := sampleKey3 }] }) ∧
    (∃ rS rL,
      Start sampleEnv (sampleChainAt 2880 3860) 40 (NewElction (sampleChainAt 2880 3860))
        = .ok rS ∧
      snailHeadStep sampleEnv (sampleChainAt 2880 3860) 40 sampleRunning
        (some (sparseBlock 2880)) = .ok rL ∧
      rS.state.next = some
        { id := 1429, beginFastNumber := 3869, endFastNumber := some 0,
          firstElectionNumber := 1429, lastElectionNumber := 2868, switchCheckNumber := 4320,
          members := [{ Coinbase := 103, Publickey := sampleKey3 }] } ∧
      rL.state.next = some
        { id := 1428, beginFastNumber := 3869, endFastNumber := none,
          firstElectionNumber := 1428, lastElectionNumber := 2868, switchCheckNumber := 4320,
          members := [{ Coinbase := 103, Publickey := sampleKey3 }] }) := by
  constructor
  · obtain ⟨rS, hS, _, _, _, h3, _⟩ :=
      Start_closed sampleEnv (sampleChainAt 1440 2000) 40
        { id := 0, beginFastNumber := 1, endFastNumber := some 2428, firstElectionNumber := 0,
          lastElectionNumber := 0, switchCheckNumber := 1440,
          members := [sampleMember1, sampleMember2] }
        2428 [{ Coinbase := 103, Publickey := sampleKey3 }] rfl rfl (by decide)
        (sparse_elect_start 1440 2000 (by omega) (by omega))
    obtain ⟨rL, hL, _, h2, _⟩ :=
      snailHeadStep_trigger sampleEnv (sampleChainAt 1440 2000) 40 sampleStarted
        (sparseBlock 1440) (sparseBlock 1428) 0
        [{ Coinbase := 103, Publickey := sampleKey3 }] (sampleFruit2 1428)
        sampleStarted_inv.1 rfl rfl (sparse_elect_first 1440 2000 (by omega) (by omega)) rfl rfl
    exact ⟨rS, rL, hS, hL, (h3 (by norm_num [sampleChainAt])).2.1, h2⟩
  · obtain ⟨rS, hS, _, _, _, h3, _⟩ :=
      Start_closed sampleEnv (sampleChainAt 2880 3860) 40
        { id := 1, beginFastNumber := 3857, endFastNumber := some 3868, firstElectionNumber := 1,
          lastElectionNumber := 1428, switchCheckNumber := 2880,
          members := [{ Coinbase := 103, Publickey := sampleKey3 }] }
        3868 [{ Coinbase := 103, Publickey := sampleKey3 }] getCommittee_sparse_closed rfl
        (by decide) (sparse_elect_second 2880 3860 (by omega) (by omega))
    obtain ⟨rL, hL, _, h2, _⟩ :=
      snailHeadStep_trigger sampleEnv (sampleChainAt 2880 3860) 40 sampleRunning
        (sparseBlock 2880) (sparseBlock 2868) 1
        [{ Coinbase := 103, Publickey := sampleKey3 }] (sampleFruit2 2868)
        sampleRunning_valid rfl rfl (sparse_elect_overlap 2880 3860 (by omega) (by omega))
        rfl rfl
    exact ⟨rS, rL, hS, hL, (h3 (by norm_num [sampleChainAt])).2.1, h2⟩

/-! ### The epoch-1 bound and the unclamped window -/

/-- The blocks of the sparse sample chain reached from a start that may be
negative (`Uint64` takes the absolute value). -/
theorem sampleChainAt_empty_abs (s f : Nat) (b : Int) (n : Nat)
    (hs : ∀ j : Nat, j < n → (b + (j : Int)).natAbs ≤ s) (hs2 : s < 100000)
    (hmod : ∀ j : Nat, j < n → (b + (j : Int)).natAbs % 1440 ≠ 1428) :
    ∀ j : Nat, j < n →
      ∃ blk, (sampleChainAt s f).snailBlock (uint64 (b + (j : Int))) = some blk ∧
        blk.fruits = [] := by
  intro j hj
  have hm := hmod j hj
  have hle := hs j hj
  have hu : uint64 (b + (j : Int)) = (b + (j : Int)).natAbs := by unfold uint64; omega
  rw [hu, sampleChainAt_block s f _ hle]
  refine ⟨_, rfl, ?_⟩
  simp [sparseBlock, hm]

set_option maxRecDepth 8000 in
/-- The election over snails -11..1428 of the sparse sample chain. -/
theorem sparse_elect_unclamped (s f : Nat) (h1 : 1428 ≤ s) (h2 : s < 100000) :
    electCommittee sampleEnv (sampleChainAt s f) 40 (-11) 1428
      = .ok [{ Coinbase := 103, Publickey := sampleKey3 }] := by
  have hscan : Scans sampleEnv (sampleChainAt s f) (1439 + 1) (-11) [] (fun _ => none) _ _ :=
    Scans_append _ _ 1439 1 (-11) 1428 _ _ _ _ _ _ (by norm_num)
      (Scans_empty _ _ 1439 (-11) _ _
        (sampleChainAt_empty_abs s f (-11) 1439 (by intro j hj; omega) h2
          (by intro j hj; omega)))
      (Scans_block _ _ 1428 (sparseBlock 1428) _ _
        (sampleChainAt_fruit s f 1428 h1 h2))
  have h := electCommittee_of_scan sampleEnv (sampleChainAt s f) 40 (-11) 1428 _ _ _ Hash.zero
    (fun _ => rfl) (by decide) hscan
  exact h.trans rfl

/-- C10 at a concrete chain (the sparse sample chain at snail head 1500): the
last fruit of snail block 1428 has fast number 2856, so
`last_fast_of_prev_epoch = 2856 + K = 3856`.  For `f = 2000`, `getCommittee`
returns the genesis record with `end_fast = 2428` (the fruit's `Number()` plus
`K`), not 3856; for `f = 3000 ≤ 3856` it returns the open record of id 1 and
not the genesis record. -/
theorem getCommittee_epoch_one_end_fast :
    (∃ blk, (sampleChainAt 1500 3000).snailBlock 1428 = some blk ∧
      blk.fruits.getLast? = some (sampleFruit2 1428)) ∧
    ((sampleFruit2 1428).fastNumber : Int) + 1000 = 3856 ∧
    getCommittee sampleEnv (sampleChainAt 1500 3000) (NewElction (sampleChainAt 1500 3000)) 40
        2000 1500 = .ok (some
      { id := 0, beginFastNumber := 1, endFastNumber := some 2428, firstElectionNumber := 0,
        lastElectionNumber := 0, switchCheckNumber := 1440,
        members := [sampleMember1, sampleMember2] }) ∧
    getCommittee sampleEnv (sampleChainAt 1500 3000) (NewElction (sampleChainAt 1500 3000)) 40
        3000 1500 = .ok (some
      { id := 1, beginFastNumber := 2429, endFastNumber := some 0, firstElectionNumber := -11,
        lastElectionNumber := 1428, switchCheckNumber := 2880,
        members := [{ Coinbase := 103, Publickey := sampleKey3 }] }) :=
  ⟨⟨_, rfl, rfl⟩, rfl, rfl,
   getCommittee_current sampleEnv (sampleChainAt 1500 3000) (NewElction (sampleChainAt 1500 3000))
     40 3000 1500 (sparseBlock 1428) (sampleFruit2 1428)
     [{ Coinbase := 103, Publickey := sampleKey3 }] (by decide) rfl rfl (by decide)
     (sparse_elect_unclamped 1500 3000 (by omega) (by omega))⟩

/-! ### Elections without a candidate -/

/-- The snail-head step ends in the panic of the election it runs. -/
theorem snailHeadStep_elect_error (env : Env) (chain : Chain) (fuel : Nat) (e : Election)
    (seBlock : SnailBlock) (pc : Nat) (f : Fault) (hc : e.committee = some pc)
    (htrig : (e.heap pc).switchCheckNumber = (seBlock.number : Int))
    (helect : electCommittee env chain fuel (triggerStart seBlock.number)
      ((seBlock.number : Int) - lamada) = .error f) :
    snailHeadStep env chain fuel e (some seBlock) = .error f := by
  unfold snailHeadStep
  simp only [hc]
  rw [if_pos htrig]
  simp only [triggerStart] at helect
  simp only [helect]

/-- The snail-head step ends in a nil dereference when the block at the end of
the election range is missing. -/
theorem snailHeadStep_end_missing (env : Env) (chain : Chain) (fuel : Nat) (e : Election)
    (seBlock : SnailBlock) (pc : Nat) (members : List CommitteeMember)
    (hc : e.committee = some pc)
    (htrig : (e.heap pc).switchCheckNumber = (seBlock.number : Int))
    (helect : electCommittee env chain fuel (triggerStart seBlock.number)
      ((seBlock.number : Int) - lamada) = .ok members)
    (hsb : chain.snailBlock (uint64 ((seBlock.number : Int) - lamada)) = none) :
    snailHeadStep env chain fuel e (some seBlock) = .error .nilDereference := by
  unfold snailHeadStep
  simp only [hc]
  rw [if_pos htrig]
  simp only [triggerStart] at helect
  simp only [helect, hsb]

/-- The function `Start` ends in the panic of the election it runs. -/
theorem Start_elect_error (env : Env) (chain : Chain) (fuel : Nat) (c : committee) (v : Int)
    (f : Fault)
    (hc : getCommittee env chain (NewElction chain) fuel (chain.fastHead : Int)
      (chain.snailHead : Int) = .ok (some c))
    (hv : c.endFastNumber = some v) (hpos : v > 0)
    (helect : electCommittee env chain fuel (c.lastElectionNumber + 1)
      (c.lastElectionNumber + 1440) = .error f) :
    Start env chain fuel (NewElction chain) = .error f := by
  have hb : c.lastElectionNumber + 1440 - z + 1 = c.lastElectionNumber + 1 := by
    simp only [z]; ring
  have hz : c.lastElectionNumber + z = c.lastElectionNumber + 1440 := rfl
  unfold Start
  simp only [hc, hv, hpos, if_true, hb, hz, helect]

theorem sampleChainIdle_empty (b : Int) (n : Nat) (hb0 : 0 ≤ b)
    (hs : b + (n : Int) ≤ 1441)
    (hne : ∀ j : Nat, j < n → b + (j : Int) ≠ 1428) :
    ∀ j : Nat, j < n →
      ∃ blk, sampleChainIdle.snailBlock (uint64 (b + (j : Int))) = some blk ∧
        blk.fruits = [] := by
  intro j hj
  have hm := hne j hj
  have hu : uint64 (b + (j : Int)) = (b + (j : Int)).toNat := by unfold uint64; omega
  have h1 : (b + (j : Int)).toNat ≤ 1440 := by omega
  have h2 : (b + (j : Int)).toNat ≠ 1428 := by omega
  rw [hu]
  exact ⟨_, by simp only [sampleChainIdle, h1, if_true]; rfl, by simp [h2]⟩

/-- The election over snails 1..1428 of the chain without electable fruit. -/
theorem idle_elect_first :
    electCommittee sampleEnv sampleChainIdle 40 1 1428 = .error .divideByZero := by
  have hscan : Scans sampleEnv sampleChainIdle (1427 + 1) 1 [] (fun _ => none) _ _ :=
    Scans_append _ _ 1427 1 1 1428 _ _ _ _ _ _ (by norm_num)
      (Scans_empty _ _ 1427 1 _ _
        (sampleChainIdle_empty 1 1427 (by omega) (by omega) (by intro j hj; omega)))
      (Scans_block _ _ 1428
        { number := 1428, hash := Hash.zero, fruits := [sampleFruitIdle] } _ _ rfl)
  have h := electCommittee_of_scan sampleEnv sampleChainIdle 40 1 1428 _ _ _ Hash.zero
    (fun _ => rfl) (by decide) hscan
  exact h.trans rfl

/-- The election over snails 1..1440 of the chain without electable fruit. -/
theorem idle_elect_start :
    electCommittee sampleEnv sampleChainIdle 40 1 1440 = .error .divideByZero := by
  have hscan : Scans sampleEnv sampleChainIdle (1427 + (1 + 12)) 1 [] (fun _ => none) _ _ :=
    Scans_append _ _ 1427 (1 + 12) 1 1428 _ _ _ _ _ _ (by norm_num)
      (Scans_empty _ _ 1427 1 _ _
        (sampleChainIdle_empty 1 1427 (by omega) (by omega) (by intro j hj; omega)))
      (Scans_append _ _ 1 12 1428 1429 _ _ _ _ _ _ (by norm_num)
        (Scans_block _ _ 1428
          { number := 1428, hash := Hash.zero, fruits := [sampleFruitIdle] } _ _ rfl)
        (Scans_empty _ _ 12 1429 _ _
          (sampleChainIdle_empty 1429 12 (by omega) (by omega) (by intro j hj; omega))))
  have h := electCommittee_of_scan sampleEnv sampleChainIdle 40 1 1440 _ _ _ Hash.zero
    (fun _ => rfl) (by decide) hscan
  exact h.trans rfl

theorem sampleChainIdle_present (n : Fin 1441) :
    (sampleChainIdle.snailBlock n).isSome = true := by
  have h : (n : Nat) ≤ 1440 := by omega
  simp [sampleChainIdle, h]

/-- C19 at a concrete chain: every snail block of `sampleChainIdle` up to its
head 1440 is present, the current record of the running engine has switch check
1440, and the only fruit of the chain does not ask to be elected.  When the
trigger block 1440 arrives, the snail-head step does not elect and emits
nothing: it ends in the division by zero of `getCandinates`. -/
theorem snailHeadStep_no_candidate :
    (∀ n : Fin 1441, (sampleChainIdle.snailBlock n).isSome = true) ∧
    sampleStarted.current = some
      { id := 0, beginFastNumber := 1, endFastNumber := some 0, firstElectionNumber := 0,
        lastElectionNumber := 0, switchCheckNumber := 1440,
        members := [sampleMember1, sampleMember2] } ∧
    snailHeadStep sampleEnv sampleChainIdle 40 sampleStarted (some sampleTrigger)
      = .error .divideByZero :=
  ⟨sampleChainIdle_present, rfl,
   snailHeadStep_elect_error sampleEnv sampleChainIdle 40 sampleStarted sampleTrigger 0
     .divideByZero rfl rfl idle_elect_first⟩

/-- C21 at a concrete chain: every snail block of `sampleChainIdle` up to its
head 1440 is present, and `getCommittee` at the two heads gives the genesis
record closed at `end_fast = 2428`; the snails 1..1440 hold no fruit that asks
to be elected, and `Start` builds no next record: it ends in the division by
zero of `getCandinates`. -/
theorem Start_no_candidate :
    (∀ n : Fin 1441, (sampleChainIdle.snailBlock n).isSome = true) ∧
    getCommittee sampleEnv sampleChainIdle (NewElction sampleChainIdle) 40 2000 1440
      = .ok (some
        { id := 0, beginFastNumber := 1, endFastNumber := some 2428, firstElectionNumber := 0,
          lastElectionNumber := 0, switchCheckNumber := 1440,
          members := [sampleMember1, sampleMember2] }) ∧
    Start sampleEnv sampleChainIdle 40 (NewElction sampleChainIdle) = .error .divideByZero :=
  ⟨sampleChainIdle_present, rfl,
   Start_elect_error sampleEnv sampleChainIdle 40
     { id := 0, beginFastNumber := 1, endFastNumber := some 2428, firstElectionNumber := 0,
       lastElectionNumber := 0, switchCheckNumber := 1440,
       members := [sampleMember1, sampleMember2] }
     2428 .divideByZero rfl rfl (by decide) idle_elect_start⟩

/-! ### The cache after a snail-head step -/

/-- C20 at two concrete chains, with the trigger block 1440 arriving in the
state `Start` left in epoch 0 (switching false, next unset).  On
`sampleChainGap` (snail block 7 missing) the step is not skipped: it returns
with switching true, `current.end_fast` sealed at 2428, a next record with an
empty member list, and one `Switchover` event.  On `sampleChainHole` (snail
block 1428, the end of the range, missing) the step ends in a nil
dereference. -/
theorem snailHeadStep_missing_block_installs :
    sampleChainGap.snailBlock 7 = none ∧
    sampleStarted.startSwitchover = false ∧ sampleStarted.next = none ∧
    (∃ r, snailHeadStep sampleEnv sampleChainGap 40 sampleStarted (some sampleTrigger) = .ok r ∧
      r.state.startSwitchover = true ∧
      r.state.next = some
        { id := 1, beginFastNumber := 2429, endFastNumber := none, firstElectionNumber := 1,
          lastElectionNumber := 1428, switchCheckNumber := 2880, members := [] } ∧
      r.state.current = some
        { id := 0, beginFastNumber := 1, endFastNumber := some 2428, firstElectionNumber := 0,
          lastElectionNumber := 0, switchCheckNumber := 1440,
          members := [sampleMember1, sampleMember2] } ∧
      r.events =
        [ { Option := .CommitteeSwitchover, CommitteeID := 1, CommitteeMembers := [],
            BeginFastNumber := none } ]) ∧
    sampleChainHole.snailBlock 1428 = none ∧
    snailHeadStep sampleEnv sampleChainHole 40 sampleStarted (some sampleTrigger)
      = .error .nilDereference :=
  ⟨rfl, rfl, rfl, ⟨_, rfl, rfl, rfl, rfl, rfl⟩, rfl,
   snailHeadStep_end_missing sampleEnv sampleChainHole 40 sampleStarted sampleTrigger 0 []
     rfl rfl
     (electCommittee_missing sampleEnv sampleChainHole 40 _ _ 1428 (by decide) (by decide) rfl)
     rfl⟩

/-! ### Batch verification and the cache -/

end Etrue
